import Mathlib

/-!
# PID_Controller: a shallow embedding of pid_controller.h / pid_controller.cpp

The C++ class keeps seven gains, four limits, seven three-slot history arrays, the held
output and the held delta. Each method is embedded as a function from the state before
the call to the returned value paired with the state after the call.

State: inside a method, the local name X0 stands for the member X[0] once the call has
assigned it; s.X0 is the value the member had on entry. Each assignment of the source is
one let, in the order of the source, and the members are written back at the end.

Numbers: a C++ double is embedded as a value of the type Dbl below, a model of IEEE 754
binary64: finite values, the two infinities and NaN, with addition, subtraction and
multiplication rounded to nearest, ties to even, overflow to an infinity, gradual underflow,
and comparisons that are false as soon as one side is NaN. Every operation of the source is
rounded on its own, in the order C++ evaluates it (left to right, no fused multiply-add).
Two things are identified that no operation of the source can tell apart: the two zeros
(+0 and -0 compare equal and nothing divides), and all NaNs.

Arrays: the slot X[i] of the source is the field Xi (In[0] is In0, Err[2] is Err2; the
slots of Position_Integ_Term are Position_Integ_Term0 .. Position_Integ_Term2).

Conditional assignment: the statement if(c) x = v; is embedded as
let x := if c then v else x.
-/

namespace PID

/-! ## Binary64 numbers -/

/-- A binary64 value. The finite value fin k is k * 2^(-1074), an integer multiple of the
smallest subnormal; every finite double has this form, with |k| = q * 2^t for some
q ≤ 2^53 and |k| < 2^2098. -/
inductive Dbl where
  | fin (k : Int)
  | pinf
  | ninf
  | nan
deriving DecidableEq

namespace Dbl

/-- Binary search for the position of the leading bit: with f steps left, the answer is
known to lie in [lo, lo + 2^f). -/
def ilog2Aux : Nat → Nat → Nat → Nat
  | 0, lo, _ => lo
  | f + 1, lo, a =>
    if a >>> (lo + 2 ^ f) ≠ 0 then ilog2Aux f (lo + 2 ^ f) a else ilog2Aux f lo a

/-- The position of the leading bit of a, for 0 < a < 2^8192 (floor of log2 a); 0 for 0
and 8191 from 2^8192 on. -/
def ilog2 (a : Nat) : Nat := ilog2Aux 13 0 a

/-- Rounds the magnitude a * 2^(-1074-s) to binary64, to nearest with ties to even: the
result is a multiple of 2^(-1074) with at most 53 significant bits, returned in units of
2^(-1074). -/
def roundMag (a s : Nat) : Nat :=
  let shift := max (ilog2 a - 52) s
  let q := a >>> shift
  let r := a - q <<< shift
  let q := if 1 <<< shift < 2 * r ∨ (2 * r = 1 <<< shift ∧ q % 2 = 1) then q + 1 else q
  q <<< (shift - s)

/-- Rounds the exact value n * 2^(-1074-s) to binary64; magnitudes that round to 2^1024 or
more overflow to an infinity. -/
def rnd (n : Int) (s : Nat) : Dbl :=
  let m := roundMag n.natAbs s
  if m >>> 2098 ≠ 0 then (if n < 0 then ninf else pinf)
  else fin (if n < 0 then -(m : Int) else (m : Int))

/-- Binary64 addition. -/
def add : Dbl → Dbl → Dbl
  | nan, _ => nan
  | _, nan => nan
  | pinf, ninf => nan
  | ninf, pinf => nan
  | pinf, _ => pinf
  | _, pinf => pinf
  | ninf, _ => ninf
  | _, ninf => ninf
  | fin a, fin b => rnd (a + b) 0

/-- Binary64 negation. -/
def neg : Dbl → Dbl
  | fin a => fin (-a)
  | pinf => ninf
  | ninf => pinf
  | nan => nan

/-- Binary64 subtraction. -/
def sub (x y : Dbl) : Dbl := add x (neg y)

/-- Binary64 multiplication. -/
def mul : Dbl → Dbl → Dbl
  | nan, _ => nan
  | _, nan => nan
  | fin a, fin b => rnd (a * b) 1074
  | fin a, pinf => if a = 0 then nan else if a < 0 then ninf else pinf
  | fin a, ninf => if a = 0 then nan else if a < 0 then pinf else ninf
  | pinf, fin b => if b = 0 then nan else if b < 0 then ninf else pinf
  | ninf, fin b => if b = 0 then nan else if b < 0 then pinf else ninf
  | pinf, pinf => pinf
  | pinf, ninf => ninf
  | ninf, pinf => ninf
  | ninf, ninf => pinf

/-- The comparison x < y of binary64: false when either side is NaN. -/
def blt : Dbl → Dbl → Bool
  | fin a, fin b => decide (a < b)
  | fin _, pinf => true
  | ninf, fin _ => true
  | ninf, pinf => true
  | _, _ => false

/-- The comparison x <= y of binary64: false when either side is NaN. -/
def ble : Dbl → Dbl → Bool
  | fin a, fin b => decide (a ≤ b)
  | fin _, pinf => true
  | ninf, fin _ => true
  | ninf, pinf => true
  | pinf, pinf => true
  | ninf, ninf => true
  | _, _ => false

instance : Add Dbl := ⟨add⟩

instance : Sub Dbl := ⟨sub⟩

instance : Mul Dbl := ⟨mul⟩

instance : Neg Dbl := ⟨neg⟩

instance : LT Dbl := ⟨fun x y => blt x y = true⟩

instance : LE Dbl := ⟨fun x y => ble x y = true⟩

instance (x y : Dbl) : Decidable (x < y) := inferInstanceAs (Decidable (blt x y = true))

instance (x y : Dbl) : Decidable (x ≤ y) := inferInstanceAs (Decidable (ble x y = true))

/-- The double nearest to the nonnegative rational p / q (q > 0): the quotient is taken with
64 extra bits and a sticky bit, then rounded once. -/
def ofRatParts (p q : Nat) : Dbl :=
  let a := (p <<< 1138) / q
  let sticky := if (p <<< 1138) % q = 0 then 0 else 1
  rnd ((2 * a + sticky : Nat) : Int) 65

/-- An integer literal n of the source, converted to double. -/
def ofNat (n : Nat) : Dbl := rnd ((n <<< 1074 : Nat) : Int) 0

instance (n : Nat) : OfNat Dbl n := ⟨ofNat n⟩

/-- A decimal literal of the source (0.5, 2.0), converted to the nearest double. -/
def ofScientific (m : Nat) (s : Bool) (e : Nat) : Dbl :=
  if s then ofRatParts m (10 ^ e) else ofRatParts (m * 10 ^ e) 1

instance : OfScientific Dbl := ⟨ofScientific⟩

/-- The double m * 2^e, for e ≥ -1074 (rounded if m has more than 53 bits). -/
def dyadic (m : Int) (e : Int) : Dbl := rnd (m * ((1 <<< (e + 1074).toNat : Nat) : Int)) 0

/-- Tells whether a value is finite (neither an infinity nor NaN). -/
def isFinite : Dbl → Bool
  | fin _ => true
  | _ => false

/-- The value is a genuine binary64 value: for a finite fin k, rounding leaves it
unchanged. The infinities and NaN always are. -/
def IsDouble : Dbl → Prop
  | fin k => rnd k 0 = fin k
  | _ => True

instance : (x : Dbl) → Decidable x.IsDouble
  | fin k => inferInstanceAs (Decidable (rnd k 0 = fin k))
  | pinf => isTrue trivial
  | ninf => isTrue trivial
  | nan => isTrue trivial

/-- The exact value of a finite double in units of 2^(-1074) (0 for infinities and NaN). -/
def units : Dbl → Int
  | fin k => k
  | _ => 0

end Dbl

/-! ## Data model (pid_controller.h) -/

/-- The data members of class PID_Controller, in the order of the header. -/
structure PID_Controller where
  Kp : Dbl
  Ki : Dbl
  Kd : Dbl
  Kff : Dbl
  Kffb : Dbl
  Kff_Alpha : Dbl
  Kffb_Beta : Dbl
  Integ_Max : Dbl
  Integ_Min : Dbl
  Out_Max : Dbl
  Out_Min : Dbl
  Err0 : Dbl
  Err1 : Dbl
  Err2 : Dbl
  In0 : Dbl
  In1 : Dbl
  In2 : Dbl
  Fb0 : Dbl
  Fb1 : Dbl
  Fb2 : Dbl
  Position_Integ_Term0 : Dbl
  Position_Integ_Term1 : Dbl
  Position_Integ_Term2 : Dbl
  Diff_Term0 : Dbl
  Diff_Term1 : Dbl
  Diff_Term2 : Dbl
  Ff_Term0 : Dbl
  Ff_Term1 : Dbl
  Ff_Term2 : Dbl
  Ffb_Term0 : Dbl
  Ffb_Term1 : Dbl
  Ffb_Term2 : Dbl
  Out : Dbl
  Delta_Out : Dbl

namespace PID_Controller

/-- The default member initialisers of the header: every member starts at 0. -/
def init : PID_Controller :=
  { Kp := 0, Ki := 0, Kd := 0, Kff := 0, Kffb := 0, Kff_Alpha := 0, Kffb_Beta := 0,
    Integ_Max := 0, Integ_Min := 0, Out_Max := 0, Out_Min := 0,
    Err0 := 0, Err1 := 0, Err2 := 0,
    In0 := 0, In1 := 0, In2 := 0,
    Fb0 := 0, Fb1 := 0, Fb2 := 0,
    Position_Integ_Term0 := 0, Position_Integ_Term1 := 0, Position_Integ_Term2 := 0,
    Diff_Term0 := 0, Diff_Term1 := 0, Diff_Term2 := 0,
    Ff_Term0 := 0, Ff_Term1 := 0, Ff_Term2 := 0,
    Ffb_Term0 := 0, Ffb_Term1 := 0, Ffb_Term2 := 0,
    Out := 0, Delta_Out := 0 }

/-! ## Constructors (pid_controller.cpp, lines 41-69) -/

/-- The eleven-argument constructor PID_Controller::PID_Controller. -/
def ctor (KP KI KD KFF KFFB KFF_A KFFB_B Integral_Max Integral_Min Output_Max Output_Min : Dbl) :
    PID_Controller :=
  { (init : PID_Controller) with
    Kp := KP, Kd := KD, Ki := KI, Kff := KFF, Kffb := KFFB, Kff_Alpha := KFF_A,
    Kffb_Beta := KFFB_B, Integ_Max := Integral_Max, Integ_Min := Integral_Min,
    Out_Max := Output_Max, Out_Min := Output_Min }

/-- The seven-argument (traditional PID) constructor PID_Controller::PID_Controller. -/
def ctorReduced (KP KI KD Integral_Max Integral_Min Output_Max Output_Min : Dbl) :
    PID_Controller :=
  { (init : PID_Controller) with
    Kp := KP, Kd := KD, Ki := KI, Kff := KD, Kffb := 0, Kff_Alpha := 0,
    Kffb_Beta := 0, Integ_Max := Integral_Max, Integ_Min := Integral_Min,
    Out_Max := Output_Max, Out_Min := Output_Min }

/-! ## Clear (lines 71-89) -/

/-- The method PID_Controller::Clear; the loop over i = 0, 1, 2 is unrolled. -/
def Clear (s : PID_Controller) : PID_Controller :=
  { s with
    Err0 := 0, In0 := 0, Fb0 := 0, Position_Integ_Term0 := 0, Diff_Term0 := 0,
    Ff_Term0 := 0, Ffb_Term0 := 0,
    Err1 := 0, In1 := 0, Fb1 := 0, Position_Integ_Term1 := 0, Diff_Term1 := 0,
    Ff_Term1 := 0, Ffb_Term1 := 0,
    Err2 := 0, In2 := 0, Fb2 := 0, Position_Integ_Term2 := 0, Diff_Term2 := 0,
    Ff_Term2 := 0, Ffb_Term2 := 0,
    Integ_Max := 0, Integ_Min := 0, Out_Max := 0, Out_Min := 0, Out := 0, Delta_Out := 0 }

/-! ## Position_PID (lines 91-175) -/

/-- The two-argument Position_PID(Input, Feedback): returned value and state after. -/
def Position_PID (s : PID_Controller) (Input Feedback : Dbl) : Dbl × PID_Controller :=
  let In2 := s.In1
  let In1 := s.In0
  let In0 := Input
  let Fb2 := s.Fb1
  let Fb1 := s.Fb0
  let Fb0 := Feedback
  let Err2 := s.Err1
  let Err1 := s.Err0
  let Err0 := In0 - Fb0
  let Prop_Term := s.Kp * Err0
  let Position_Integ_Term2 := s.Position_Integ_Term1
  let Position_Integ_Term1 := s.Ki * (Err0 + Err1) * 0.5
  let Position_Integ_Term1 :=
    if Position_Integ_Term1 > s.Integ_Max then s.Integ_Max else Position_Integ_Term1
  let Position_Integ_Term1 :=
    if Position_Integ_Term1 < s.Integ_Min then s.Integ_Min else Position_Integ_Term1
  let Position_Integ_Term0 := s.Position_Integ_Term0 + Position_Integ_Term1
  let Position_Integ_Term0 :=
    if Position_Integ_Term0 > s.Integ_Max then s.Integ_Max else Position_Integ_Term0
  let Position_Integ_Term0 :=
    if Position_Integ_Term0 < s.Integ_Min then s.Integ_Min else Position_Integ_Term0
  let Diff_Term2 := s.Diff_Term1
  let Diff_Term1 := s.Diff_Term0
  let Diff_Term0 := s.Kd * (Fb0 - Fb1)
  let Ff_Term2 := s.Ff_Term1
  let Ff_Term1 := s.Ff_Term0
  let Ff_Term0 := (1 - s.Kff_Alpha) * s.Kff * (In0 - In1) + s.Kff_Alpha * Ff_Term1
  let Ffb_Term2 := s.Ffb_Term1
  let Ffb_Term1 := s.Ffb_Term0
  let Ffb_Term0 :=
    (1 - s.Kffb_Beta) * s.Kffb * (In0 - 2.0 * In1 + In2) + s.Kffb_Beta * Ffb_Term1
  let Out := Prop_Term + Position_Integ_Term0 - Diff_Term0 + Ff_Term0 + Ffb_Term0
  let Out := if Out > s.Out_Max then s.Out_Max else Out
  let Out := if Out < s.Out_Min then s.Out_Min else Out
  (Out,
    { s with
      In0 := In0, In1 := In1, In2 := In2, Fb0 := Fb0, Fb1 := Fb1, Fb2 := Fb2,
      Err0 := Err0, Err1 := Err1, Err2 := Err2,
      Position_Integ_Term0 := Position_Integ_Term0,
      Position_Integ_Term1 := Position_Integ_Term1,
      Position_Integ_Term2 := Position_Integ_Term2,
      Diff_Term0 := Diff_Term0, Diff_Term1 := Diff_Term1, Diff_Term2 := Diff_Term2,
      Ff_Term0 := Ff_Term0, Ff_Term1 := Ff_Term1, Ff_Term2 := Ff_Term2,
      Ffb_Term0 := Ffb_Term0, Ffb_Term1 := Ffb_Term1, Ffb_Term2 := Ffb_Term2,
      Out := Out })

/-- The three-argument Position_PID(Input, Feedback, Differential_Error). -/
def Position_PID_DE (s : PID_Controller) (Input Feedback Differential_Error : Dbl) :
    Dbl × PID_Controller :=
  let In2 := s.In1
  let In1 := s.In0
  let In0 := Input
  let Fb2 := s.Fb1
  let Fb1 := s.Fb0
  let Fb0 := Feedback
  let Err2 := s.Err1
  let Err1 := s.Err0
  let Err0 := In0 - Fb0
  let Prop_Term := s.Kp * Err0
  let Position_Integ_Term2 := s.Position_Integ_Term1
  let Position_Integ_Term1 := s.Ki * (Err0 + Err1) * 0.5
  let Position_Integ_Term1 :=
    if Position_Integ_Term1 > s.Integ_Max then s.Integ_Max else Position_Integ_Term1
  let Position_Integ_Term1 :=
    if Position_Integ_Term1 < s.Integ_Min then s.Integ_Min else Position_Integ_Term1
  let Position_Integ_Term0 := s.Position_Integ_Term0 + Position_Integ_Term1
  let Position_Integ_Term0 :=
    if Position_Integ_Term0 > s.Integ_Max then s.Integ_Max else Position_Integ_Term0
  let Position_Integ_Term0 :=
    if Position_Integ_Term0 < s.Integ_Min then s.Integ_Min else Position_Integ_Term0
  let Diff_Term2 := s.Diff_Term1
  let Diff_Term1 := s.Diff_Term0
  let Diff_Term0 := s.Kd * Differential_Error
  let Ff_Term2 := s.Ff_Term1
  let Ff_Term1 := s.Ff_Term0
  let Ff_Term0 := (1 - s.Kff_Alpha) * s.Kff * (In0 - In1) + s.Kff_Alpha * Ff_Term1
  let Ffb_Term2 := s.Ffb_Term1
  let Ffb_Term1 := s.Ffb_Term0
  let Ffb_Term0 :=
    (1 - s.Kffb_Beta) * s.Kffb * (In0 - 2.0 * In1 + In2) + s.Kffb_Beta * Ffb_Term1
  let Out := Prop_Term + Position_Integ_Term0 - Diff_Term0 + Ff_Term0 + Ffb_Term0
  let Out := if Out > s.Out_Max then s.Out_Max else Out
  let Out := if Out < s.Out_Min then s.Out_Min else Out
  (Out,
    { s with
      In0 := In0, In1 := In1, In2 := In2, Fb0 := Fb0, Fb1 := Fb1, Fb2 := Fb2,
      Err0 := Err0, Err1 := Err1, Err2 := Err2,
      Position_Integ_Term0 := Position_Integ_Term0,
      Position_Integ_Term1 := Position_Integ_Term1,
      Position_Integ_Term2 := Position_Integ_Term2,
      Diff_Term0 := Diff_Term0, Diff_Term1 := Diff_Term1, Diff_Term2 := Diff_Term2,
      Ff_Term0 := Ff_Term0, Ff_Term1 := Ff_Term1, Ff_Term2 := Ff_Term2,
      Ffb_Term0 := Ffb_Term0, Ffb_Term1 := Ffb_Term1, Ffb_Term2 := Ffb_Term2,
      Out := Out })

/-! ## Incremental_PID (lines 177-261) -/

/-- The two-argument Incremental_PID(Input, Feedback): returned value and state after. -/
def Incremental_PID (s : PID_Controller) (Input Feedback : Dbl) : Dbl × PID_Controller :=
  let In2 := s.In1
  let In1 := s.In0
  let In0 := Input
  let Fb2 := s.Fb1
  let Fb1 := s.Fb0
  let Fb0 := Feedback
  let Err2 := s.Err1
  let Err1 := s.Err0
  let Err0 := In0 - Fb0
  let Prop_Term := s.Kp * (Err0 - Err1)
  let Integ_Term := s.Ki * (Err0 + Err1) * 0.5
  let Integ_Term := if Integ_Term > s.Integ_Max then s.Integ_Max else Integ_Term
  let Integ_Term := if Integ_Term < s.Integ_Min then s.Integ_Min else Integ_Term
  let Diff_Term2 := s.Diff_Term1
  let Diff_Term1 := s.Diff_Term0
  let Diff_Term0 := s.Kd * (Fb0 - Fb1)
  let Ff_Term2 := s.Ff_Term1
  let Ff_Term1 := s.Ff_Term0
  let Ff_Term0 := (1 - s.Kff_Alpha) * s.Kff * (In0 - In1) + s.Kff_Alpha * Ff_Term1
  let Ffb_Term2 := s.Ffb_Term1
  let Ffb_Term1 := s.Ffb_Term0
  let Ffb_Term0 :=
    (1 - s.Kffb_Beta) * s.Kffb * (In0 - 2.0 * In1 + In2) + s.Kffb_Beta * Ffb_Term1
  let Delta_Out :=
    Prop_Term + Integ_Term - (Diff_Term0 - Diff_Term1) + (Ff_Term0 - Ff_Term1)
      + (Ffb_Term0 - Ffb_Term1)
  let Delta_Out := if Delta_Out > s.Integ_Max then s.Integ_Max else Delta_Out
  let Delta_Out := if Delta_Out < s.Integ_Min then s.Integ_Min else Delta_Out
  let Out := s.Out + Delta_Out
  let Out := if Out > s.Out_Max then s.Out_Max else Out
  let Out := if Out < s.Out_Min then s.Out_Min else Out
  (Out,
    { s with
      In0 := In0, In1 := In1, In2 := In2, Fb0 := Fb0, Fb1 := Fb1, Fb2 := Fb2,
      Err0 := Err0, Err1 := Err1, Err2 := Err2,
      Diff_Term0 := Diff_Term0, Diff_Term1 := Diff_Term1, Diff_Term2 := Diff_Term2,
      Ff_Term0 := Ff_Term0, Ff_Term1 := Ff_Term1, Ff_Term2 := Ff_Term2,
      Ffb_Term0 := Ffb_Term0, Ffb_Term1 := Ffb_Term1, Ffb_Term2 := Ffb_Term2,
      Delta_Out := Delta_Out, Out := Out })

/-- The three-argument Incremental_PID(Input, Feedback, Differential_Error). -/
def Incremental_PID_DE (s : PID_Controller) (Input Feedback Differential_Error : Dbl) :
    Dbl × PID_Controller :=
  let In2 := s.In1
  let In1 := s.In0
  let In0 := Input
  let Fb2 := s.Fb1
  let Fb1 := s.Fb0
  let Fb0 := Feedback
  let Err2 := s.Err1
  let Err1 := s.Err0
  let Err0 := In0 - Fb0
  let Prop_Term := s.Kp * (Err0 - Err1)
  let Integ_Term := s.Ki * (Err0 + Err1) * 0.5
  let Integ_Term := if Integ_Term > s.Integ_Max then s.Integ_Max else Integ_Term
  let Integ_Term := if Integ_Term < s.Integ_Min then s.Integ_Min else Integ_Term
  let Diff_Term2 := s.Diff_Term1
  let Diff_Term1 := s.Diff_Term0
  let Diff_Term0 := s.Kd * Differential_Error
  let Ff_Term2 := s.Ff_Term1
  let Ff_Term1 := s.Ff_Term0
  let Ff_Term0 := (1 - s.Kff_Alpha) * s.Kff * (In0 - In1) + s.Kff_Alpha * Ff_Term1
  let Ffb_Term2 := s.Ffb_Term1
  let Ffb_Term1 := s.Ffb_Term0
  let Ffb_Term0 :=
    (1 - s.Kffb_Beta) * s.Kffb * (In0 - 2.0 * In1 + In2) + s.Kffb_Beta * Ffb_Term1
  let Delta_Out :=
    Prop_Term + Integ_Term - (Diff_Term0 - Diff_Term1) + (Ff_Term0 - Ff_Term1)
      + (Ffb_Term0 - Ffb_Term1)
  let Delta_Out := if Delta_Out > s.Integ_Max then s.Integ_Max else Delta_Out
  let Delta_Out := if Delta_Out < s.Integ_Min then s.Integ_Min else Delta_Out
  let Out := s.Out + Delta_Out
  let Out := if Out > s.Out_Max then s.Out_Max else Out
  let Out := if Out < s.Out_Min then s.Out_Min else Out
  (Out,
    { s with
      In0 := In0, In1 := In1, In2 := In2, Fb0 := Fb0, Fb1 := Fb1, Fb2 := Fb2,
      Err0 := Err0, Err1 := Err1, Err2 := Err2,
      Diff_Term0 := Diff_Term0, Diff_Term1 := Diff_Term1, Diff_Term2 := Diff_Term2,
      Ff_Term0 := Ff_Term0, Ff_Term1 := Ff_Term1, Ff_Term2 := Ff_Term2,
      Ffb_Term0 := Ffb_Term0, Ffb_Term1 := Ffb_Term1, Ffb_Term2 := Ffb_Term2,
      Delta_Out := Delta_Out, Out := Out })

/-! ## Set_Output (lines 263-270) -/

/-- The method Set_Output(Output): returned value and state after. -/
def Set_Output (s : PID_Controller) (Output : Dbl) : Dbl × PID_Controller :=
  let Out := Output
  let Out := if Out > s.Out_Max then s.Out_Max else Out
  let Out := if Out < s.Out_Min then s.Out_Min else Out
  (Out, { s with Out := Out })

end PID_Controller

/-! ## Sequences of control-law calls -/

/-- One call of a control-law entry point, with its arguments. -/
inductive Call where
  | Position (Input Feedback : Dbl)
  | PositionDE (Input Feedback Differential_Error : Dbl)
  | Incremental (Input Feedback : Dbl)
  | IncrementalDE (Input Feedback Differential_Error : Dbl)

/-- Tells whether a call is a call of Position_PID (either overload). -/
def Call.isPosition : Call → Bool
  | Call.Position _ _ => true
  | Call.PositionDE _ _ _ => true
  | Call.Incremental _ _ => false
  | Call.IncrementalDE _ _ _ => false

/-- The Input argument of a control-law call. -/
def Call.Input : Call → Dbl
  | Call.Position x _ => x
  | Call.PositionDE x _ _ => x
  | Call.Incremental x _ => x
  | Call.IncrementalDE x _ _ => x

/-- The Feedback argument of a control-law call. -/
def Call.Feedback : Call → Dbl
  | Call.Position _ f => f
  | Call.PositionDE _ f _ => f
  | Call.Incremental _ f => f
  | Call.IncrementalDE _ f _ => f

/-- One call of a value-returning method: a control-law entry point or Set_Output. -/
inductive Method where
  | Control (c : Call)
  | Set_Output (Output : Dbl)

/-- The four control-law entry points, without arguments. -/
inductive EntryPoint where
  | Position
  | PositionDE
  | Incremental
  | IncrementalDE

/-- The call of an entry point with every argument equal to 0. -/
def EntryPoint.zeroCall : EntryPoint → Call
  | EntryPoint.Position => Call.Position 0 0
  | EntryPoint.PositionDE => Call.PositionDE 0 0 0
  | EntryPoint.Incremental => Call.Incremental 0 0
  | EntryPoint.IncrementalDE => Call.IncrementalDE 0 0 0

namespace PID_Controller

/-- Performs one control-law call: returned value and state after. -/
def call (s : PID_Controller) : Call → Dbl × PID_Controller
  | Call.Position x f => s.Position_PID x f
  | Call.PositionDE x f d => s.Position_PID_DE x f d
  | Call.Incremental x f => s.Incremental_PID x f
  | Call.IncrementalDE x f d => s.Incremental_PID_DE x f d

/-- Performs the calls of a list in order; entry n of the result is the value returned by
call n paired with the state right after call n. -/
def run (s : PID_Controller) : List Call → List (Dbl × PID_Controller)
  | [] => []
  | c :: cs => s.call c :: run (s.call c).2 cs

/-- The state after the calls of a list have been performed in order. -/
def exec (s : PID_Controller) : List Call → PID_Controller
  | [] => s
  | c :: cs => exec (s.call c).2 cs

/-- The values returned by the successive calls of a list. -/
def outputs (s : PID_Controller) (cs : List Call) : List Dbl :=
  (s.run cs).map Prod.fst

/-- The values returned by successive two-argument Position_PID calls on the samples
(input, feedback) of a list. -/
def positionOutputs (s : PID_Controller) (xs : List (Dbl × Dbl)) : List Dbl :=
  s.outputs (xs.map fun p => Call.Position p.1 p.2)

/-- Performs one method call: returned value and state after. -/
def invoke (s : PID_Controller) : Method → Dbl × PID_Controller
  | Method.Control c => s.call c
  | Method.Set_Output v => s.Set_Output v

/-- Performs the method calls of a list in order; entry n of the result is the value
returned by call n paired with the state right after call n. -/
def runMethods (s : PID_Controller) : List Method → List (Dbl × PID_Controller)
  | [] => []
  | m :: ms => s.invoke m :: runMethods (s.invoke m).2 ms

/-- The caller writes the four public limit members (as after Clear). -/
def setLimits (s : PID_Controller) (Integral_Max Integral_Min Output_Max Output_Min : Dbl) :
    PID_Controller :=
  { s with
    Integ_Max := Integral_Max, Integ_Min := Integral_Min,
    Out_Max := Output_Max, Out_Min := Output_Min }

/-- The pairs (stored Delta_Out, returned value) of successive two-argument Incremental_PID
calls on the samples (input, feedback) of a list. -/
def incrementalTrace (s : PID_Controller) (xs : List (Dbl × Dbl)) : List (Dbl × Dbl) :=
  (s.run (xs.map fun p => Call.Incremental p.1 p.2)).map fun r => (r.2.Delta_Out, r.1)

end PID_Controller

/-! ## The clamp and the reference controllers, as the spec words them -/

/-- The clamp clampX(v) of the spec: if v > Max then Max; if v < Min then Min. -/
def clampSeq (Max Min v : Dbl) : Dbl :=
  let v := if v > Max then Max else v
  let v := if v < Min then Min else v
  v

/-- Gains and limits of a classic PID, the arguments of the reduced constructor. -/
structure Classic where
  Kp : Dbl
  Ki : Dbl
  Kd : Dbl
  Integ_Max : Dbl
  Integ_Min : Dbl
  Out_Max : Dbl
  Out_Min : Dbl

/-- The controller the reduced constructor builds from classic gains and limits. -/
def Classic.controller (p : Classic) : PID_Controller :=
  PID_Controller.ctorReduced p.Kp p.Ki p.Kd p.Integ_Max p.Integ_Min p.Out_Max p.Out_Min

/-- The trapezoidal integral with anti-windup of the reference controllers:
I_n = clampI(I_{n-1} + clampI(Ki*(e_n + e_{n-1})/2)), evaluated in binary64 (halving is
the multiplication by 0.5, the same binary64 operation). -/
def Classic.integral (p : Classic) (IPrev ePrev e : Dbl) : Dbl :=
  clampSeq p.Integ_Max p.Integ_Min
    (IPrev + clampSeq p.Integ_Max p.Integ_Min (p.Ki * (e + ePrev) * 0.5))

/-- The reference PID with derivative on feedback:
u_n = clampOut(Kp*e_n + I_n - Kd*(feedback_n - feedback_{n-1})), evaluated in binary64,
started from the previous error, feedback and integral. -/
def Classic.refFeedback (p : Classic) (ePrev fbPrev IPrev : Dbl) : List (Dbl × Dbl) → List Dbl
  | [] => []
  | (input, feedback) :: rest =>
    let e := input - feedback
    let I := p.integral IPrev ePrev e
    let u := clampSeq p.Out_Max p.Out_Min (p.Kp * e + I - p.Kd * (feedback - fbPrev))
    u :: p.refFeedback e feedback I rest

/-- The reference PID with derivative on feedback and the feedforward term on the input:
u_n = clampOut(Kp*e_n + I_n - Kd*(feedback_n - feedback_{n-1}) + Kd*(input_n - input_{n-1})),
evaluated in binary64 from left to right,
started from the previous error, input, feedback and integral. -/
def Classic.refFeedbackFf (p : Classic) (ePrev inPrev fbPrev IPrev : Dbl) :
    List (Dbl × Dbl) → List Dbl
  | [] => []
  | (input, feedback) :: rest =>
    let e := input - feedback
    let I := p.integral IPrev ePrev e
    let u := clampSeq p.Out_Max p.Out_Min
      (p.Kp * e + I - p.Kd * (feedback - fbPrev) + p.Kd * (input - inPrev))
    u :: p.refFeedbackFf e input feedback I rest

/-- The textbook PID with the derivative taken on the error:
u_n = clampOut(Kp*e_n + I_n + Kd*(e_n - e_{n-1})), evaluated in binary64,
started from the previous error and integral. -/
def Classic.refError (p : Classic) (ePrev IPrev : Dbl) : List (Dbl × Dbl) → List Dbl
  | [] => []
  | (input, feedback) :: rest =>
    let e := input - feedback
    let I := p.integral IPrev ePrev e
    let u := clampSeq p.Out_Max p.Out_Min (p.Kp * e + I + p.Kd * (e - ePrev))
    u :: p.refError e I rest

/-- The textbook incremental PID: entry n is the pair (delta_n, u_n) with
delta_n = clampI(Kp*(e_n - e_{n-1}) + clampI(Ki*(e_n + e_{n-1})/2)
  + Kd*(e_n - 2*e_{n-1} + e_{n-2})) and u_n = clampOut(u_{n-1} + delta_n), evaluated in
binary64, started from the two previous errors and the previous output. -/
def Classic.refIncremental (p : Classic) (e1 e2 uPrev : Dbl) : List (Dbl × Dbl) → List (Dbl × Dbl)
  | [] => []
  | (input, feedback) :: rest =>
    let e := input - feedback
    let delta := clampSeq p.Integ_Max p.Integ_Min
      (p.Kp * (e - e1) + clampSeq p.Integ_Max p.Integ_Min (p.Ki * (e + e1) * 0.5)
        + p.Kd * (e - 2.0 * e1 + e2))
    let u := clampSeq p.Out_Max p.Out_Min (uPrev + delta)
    (delta, u) :: p.refIncremental e e1 u rest

/-! ## Closed forms of the methods -/

namespace PID_Controller

/-- The integral increment both laws compute from the new sample. -/
def integStep (s : PID_Controller) (x f : Dbl) : Dbl :=
  clampSeq s.Integ_Max s.Integ_Min (s.Ki * (x - f + s.Err0) * 0.5)

/-- The accumulated integral after a positional call. -/
def integAcc (s : PID_Controller) (x f : Dbl) : Dbl :=
  clampSeq s.Integ_Max s.Integ_Min (s.Position_Integ_Term0 + s.integStep x f)

/-- The feedforward term after a call with input x. -/
def ffNew (s : PID_Controller) (x : Dbl) : Dbl :=
  (1 - s.Kff_Alpha) * s.Kff * (x - s.In0) + s.Kff_Alpha * s.Ff_Term0

/-- The feedforward-boost term after a call with input x. -/
def ffbNew (s : PID_Controller) (x : Dbl) : Dbl :=
  (1 - s.Kffb_Beta) * s.Kffb * (x - 2.0 * s.In0 + s.In1) + s.Kffb_Beta * s.Ffb_Term0

/-- The value a positional call returns when its derivative term is D. -/
def posOut (s : PID_Controller) (x f D : Dbl) : Dbl :=
  clampSeq s.Out_Max s.Out_Min (s.Kp * (x - f) + s.integAcc x f - D + s.ffNew x + s.ffbNew x)

/-- The delta an incremental call stores when its derivative term is D. -/
def incDelta (s : PID_Controller) (x f D : Dbl) : Dbl :=
  clampSeq s.Integ_Max s.Integ_Min
    (s.Kp * (x - f - s.Err0) + s.integStep x f - (D - s.Diff_Term0)
      + (s.ffNew x - s.Ff_Term0) + (s.ffbNew x - s.Ffb_Term0))

/-- The state after a positional call whose derivative term is D. -/
def posState (s : PID_Controller) (x f D : Dbl) : PID_Controller :=
  { s with
    In0 := x, In1 := s.In0, In2 := s.In1, Fb0 := f, Fb1 := s.Fb0, Fb2 := s.Fb1,
    Err0 := x - f, Err1 := s.Err0, Err2 := s.Err1,
    Position_Integ_Term0 := s.integAcc x f,
    Position_Integ_Term1 := s.integStep x f,
    Position_Integ_Term2 := s.Position_Integ_Term1,
    Diff_Term0 := D, Diff_Term1 := s.Diff_Term0, Diff_Term2 := s.Diff_Term1,
    Ff_Term0 := s.ffNew x, Ff_Term1 := s.Ff_Term0, Ff_Term2 := s.Ff_Term1,
    Ffb_Term0 := s.ffbNew x, Ffb_Term1 := s.Ffb_Term0, Ffb_Term2 := s.Ffb_Term1,
    Out := s.posOut x f D }

/-- The state after an incremental call whose derivative term is D. -/
def incState (s : PID_Controller) (x f D : Dbl) : PID_Controller :=
  { s with
    In0 := x, In1 := s.In0, In2 := s.In1, Fb0 := f, Fb1 := s.Fb0, Fb2 := s.Fb1,
    Err0 := x - f, Err1 := s.Err0, Err2 := s.Err1,
    Diff_Term0 := D, Diff_Term1 := s.Diff_Term0, Diff_Term2 := s.Diff_Term1,
    Ff_Term0 := s.ffNew x, Ff_Term1 := s.Ff_Term0, Ff_Term2 := s.Ff_Term1,
    Ffb_Term0 := s.ffbNew x, Ffb_Term1 := s.Ffb_Term0, Ffb_Term2 := s.Ffb_Term1,
    Delta_Out := s.incDelta x f D,
    Out := clampSeq s.Out_Max s.Out_Min (s.Out + s.incDelta x f D) }

end PID_Controller

/-! ## Contracts -/

/-- The value v lies in [Min, Max] (so none of the three is NaN). -/
def Within (Max Min v : Dbl) : Prop :=
  Min ≤ v ∧ v ≤ Max

/-- The value v is NaN or lies in [Min, Max]. -/
def WithinOrNaN (Max Min v : Dbl) : Prop :=
  v = Dbl.nan ∨ Within Max Min v

/-- The output contract of a call made in state s with result r (returned value, state
after): the returned value lies in [Out_Min, Out_Max] and is the held output afterwards. -/
def ReturnsBounded (s : PID_Controller) (r : Dbl × PID_Controller) : Prop :=
  Within s.Out_Max s.Out_Min r.1 ∧ r.2.Out = r.1

/-- The output contract up to NaN: the returned value is NaN or lies in [Out_Min, Out_Max],
and is the held output afterwards. -/
def ReturnsBoundedOrNaN (s : PID_Controller) (r : Dbl × PID_Controller) : Prop :=
  WithinOrNaN s.Out_Max s.Out_Min r.1 ∧ r.2.Out = r.1

/-- The anti-windup contract of a positional call made in state s with result r: the
integral increment and the accumulated integral both lie in [Integ_Min, Integ_Max]. -/
def IntegralClamped (s : PID_Controller) (r : Dbl × PID_Controller) : Prop :=
  Within s.Integ_Max s.Integ_Min r.2.Position_Integ_Term1 ∧
  Within s.Integ_Max s.Integ_Min r.2.Position_Integ_Term0

/-- The anti-windup contract up to NaN: the integral increment and the accumulated
integral are each NaN or in [Integ_Min, Integ_Max]. -/
def IntegralClampedOrNaN (s : PID_Controller) (r : Dbl × PID_Controller) : Prop :=
  WithinOrNaN s.Integ_Max s.Integ_Min r.2.Position_Integ_Term1 ∧
  WithinOrNaN s.Integ_Max s.Integ_Min r.2.Position_Integ_Term0

/-- The delta contract of an incremental call made in state s with result r: the stored
delta lies in [Integ_Min, Integ_Max] and the returned value is clampOut(old Out + delta). -/
def DeltaClamped (s : PID_Controller) (r : Dbl × PID_Controller) : Prop :=
  Within s.Integ_Max s.Integ_Min r.2.Delta_Out ∧
  r.1 = clampSeq s.Out_Max s.Out_Min (s.Out + r.2.Delta_Out)

/-- The delta contract up to NaN: the stored delta is NaN or in [Integ_Min, Integ_Max], and
the returned value is clampOut(old Out + delta), the sum being the binary64 sum. -/
def DeltaClampedOrNaN (s : PID_Controller) (r : Dbl × PID_Controller) : Prop :=
  WithinOrNaN s.Integ_Max s.Integ_Min r.2.Delta_Out ∧
  r.1 = clampSeq s.Out_Max s.Out_Min (s.Out + r.2.Delta_Out)

/-- Every slot of the seven histories, the held output and the held delta are 0. -/
def ZeroHistory (s : PID_Controller) : Prop :=
  (s.Err0 = 0 ∧ s.Err1 = 0 ∧ s.Err2 = 0) ∧
  (s.In0 = 0 ∧ s.In1 = 0 ∧ s.In2 = 0) ∧
  (s.Fb0 = 0 ∧ s.Fb1 = 0 ∧ s.Fb2 = 0) ∧
  (s.Position_Integ_Term0 = 0 ∧ s.Position_Integ_Term1 = 0 ∧ s.Position_Integ_Term2 = 0) ∧
  (s.Diff_Term0 = 0 ∧ s.Diff_Term1 = 0 ∧ s.Diff_Term2 = 0) ∧
  (s.Ff_Term0 = 0 ∧ s.Ff_Term1 = 0 ∧ s.Ff_Term2 = 0) ∧
  (s.Ffb_Term0 = 0 ∧ s.Ffb_Term1 = 0 ∧ s.Ffb_Term2 = 0) ∧
  s.Out = 0 ∧ s.Delta_Out = 0

/-- The seven gains of t are those of s. -/
def SameGains (s t : PID_Controller) : Prop :=
  t.Kp = s.Kp ∧ t.Ki = s.Ki ∧ t.Kd = s.Kd ∧ t.Kff = s.Kff ∧ t.Kffb = s.Kffb ∧
  t.Kff_Alpha = s.Kff_Alpha ∧ t.Kffb_Beta = s.Kffb_Beta

/-- The four limits of s are 0. -/
def ZeroLimits (s : PID_Controller) : Prop :=
  s.Integ_Max = 0 ∧ s.Integ_Min = 0 ∧ s.Out_Max = 0 ∧ s.Out_Min = 0

/-- States s and t agree on every member except possibly Out and Delta_Out. -/
def AgreeExceptOutDelta (s t : PID_Controller) : Prop :=
  { s with Out := t.Out, Delta_Out := t.Delta_Out } = t

/-- States s and t agree on every member except possibly Delta_Out. -/
def AgreeExceptDelta (s t : PID_Controller) : Prop :=
  { s with Delta_Out := t.Delta_Out } = t

/-- The slew contract of an incremental call made in state s with result r, up to NaN and
to the rounding of the one addition Out + Delta_Out: the returned value is NaN or lies
between the old Out and the binary64 sum old Out + Delta_Out, where Delta_Out is NaN or in
[Integ_Min, Integ_Max]. -/
def SlewBetween (s : PID_Controller) (r : Dbl × PID_Controller) : Prop :=
  WithinOrNaN s.Integ_Max s.Integ_Min r.2.Delta_Out ∧
  (r.1 = Dbl.nan ∨ (s.Out ≤ r.1 ∧ r.1 ≤ s.Out + r.2.Delta_Out) ∨
    (s.Out + r.2.Delta_Out ≤ r.1 ∧ r.1 ≤ s.Out))


/-- The slew contract of an incremental call made in state s with result r in terms of the
integral limits: the returned value is NaN or lies between the binary64 sums
old Out + Integ_Min and old Out + Integ_Max. -/
def SlewBounded (s : PID_Controller) (r : Dbl × PID_Controller) : Prop :=
  r.1 = Dbl.nan ∨ (s.Out + s.Integ_Min ≤ r.1 ∧ r.1 ≤ s.Out + s.Integ_Max)
/-- The configuration of state s is the one the reduced constructor sets from p:
Kff = Kd, Kffb = Kff_Alpha = Kffb_Beta = 0, gains and limits those of p. -/
def IsClassic (p : Classic) (s : PID_Controller) : Prop :=
  s.Kp = p.Kp ∧ s.Ki = p.Ki ∧ s.Kd = p.Kd ∧ s.Kff = p.Kd ∧ s.Kffb = 0 ∧ s.Kff_Alpha = 0 ∧
  s.Kffb_Beta = 0 ∧ s.Integ_Max = p.Integ_Max ∧ s.Integ_Min = p.Integ_Min ∧
  s.Out_Max = p.Out_Max ∧ s.Out_Min = p.Out_Min

/-- The gains Kp, Ki, Kd, Kff_Alpha, Kffb_Beta are finite, and so are the two products
(1 - Kff_Alpha) * Kff and (1 - Kffb_Beta) * Kffb as the control laws compute them in
binary64. -/
def FiniteGains (s : PID_Controller) : Prop :=
  s.Kp.isFinite = true ∧ s.Ki.isFinite = true ∧ s.Kd.isFinite = true ∧
  s.Kff_Alpha.isFinite = true ∧ s.Kffb_Beta.isFinite = true ∧
  ((1 - s.Kff_Alpha) * s.Kff).isFinite = true ∧ ((1 - s.Kffb_Beta) * s.Kffb).isFinite = true

/-- The samples keep the feedforward arithmetic of a classic controller finite: for every
sample, the second difference input_n - 2.0 * input_{n-1} + input_{n-2} and the product
Kd * (input_n - input_{n-1}), as computed in binary64, are finite; in1 and in2 are the two
inputs before the first sample. -/
def Tame (Kd in1 in2 : Dbl) : List (Dbl × Dbl) → Prop
  | [] => True
  | q :: xs =>
    (q.1 - 2.0 * in1 + in2).isFinite = true ∧ (Kd * (q.1 - in1)).isFinite = true ∧
      Tame Kd q.1 in1 xs

/-- The incremental PID with derivative on feedback and the feedforward term on the input:
entry n is the pair (delta_n, u_n) with D_n = Kd*(feedback_n - feedback_{n-1}),
F_n = Kd*(input_n - input_{n-1}),
delta_n = clampI(Kp*(e_n - e_{n-1}) + clampI(Ki*(e_n + e_{n-1})/2) - (D_n - D_{n-1})
  + (F_n - F_{n-1})) and u_n = clampOut(u_{n-1} + delta_n), evaluated in binary64 from left
to right, started from the previous error, input, feedback, D, F and output. -/
def Classic.refIncrementalFf (p : Classic) (e1 x1 f1 D1 F1 uPrev : Dbl) :
    List (Dbl × Dbl) → List (Dbl × Dbl)
  | [] => []
  | (input, feedback) :: rest =>
    let e := input - feedback
    let D := p.Kd * (feedback - f1)
    let F := p.Kd * (input - x1)
    let delta := clampSeq p.Integ_Max p.Integ_Min
      (p.Kp * (e - e1) + clampSeq p.Integ_Max p.Integ_Min (p.Ki * (e + e1) * 0.5)
        - (D - D1) + (F - F1))
    let u := clampSeq p.Out_Max p.Out_Min (uPrev + delta)
    (delta, u) :: p.refIncrementalFf e input feedback D F u rest

/-- The running trapezoid sum of a constant error e in binary64: T_1 = Ki*e*0.5 and
T_{n+1} = T_n + Ki*(e + e)*0.5, every operation rounded (T_0 = 0). -/
def trapezoidSum (Ki e : Dbl) : Nat → Dbl
  | 0 => 0
  | 1 => Ki * e * 0.5
  | n + 2 => trapezoidSum Ki e (n + 1) + Ki * (e + e) * 0.5

/-- The integral increment of call n >= 1 under a constant error e in binary64:
Ki*e*0.5 at the first call (previous error 0), Ki*(e + e)*0.5 afterwards. -/
def trapezoidInc (Ki e : Dbl) (n : Nat) : Dbl :=
  if n ≤ 1 then Ki * e * 0.5 else Ki * (e + e) * 0.5

/-! # Theorems -/

set_option exponentiation.threshold 10000

/-! ## Rounding to binary64 -/

namespace Dbl

theorem shiftRight_ne_zero_iff (a n : Nat) : a >>> n ≠ 0 ↔ 2 ^ n ≤ a := by
  rw [Nat.shiftRight_eq_div_pow, Ne, Nat.div_eq_zero_iff (Nat.two_pow_pos n), not_lt]

theorem ilog2Aux_spec (f : Nat) : ∀ lo a : Nat, 2 ^ lo ≤ a → a < 2 ^ (lo + 2 ^ f) →
    2 ^ ilog2Aux f lo a ≤ a ∧ a < 2 ^ (ilog2Aux f lo a + 1) := by
  induction f with
  | zero => intro lo a h₁ h₂; exact ⟨h₁, by simpa using h₂⟩
  | succ f ih =>
    intro lo a h₁ h₂
    rw [ilog2Aux]
    split_ifs with hc
    · rw [shiftRight_ne_zero_iff] at hc
      exact ih _ a hc (by rw [Nat.add_assoc, ← Nat.two_mul, ← pow_succ']; exact h₂)
    · rw [shiftRight_ne_zero_iff, not_le] at hc
      exact ih _ a h₁ hc

theorem ilog2Aux_big (f : Nat) : ∀ lo a : Nat, 2 ^ (lo + 2 ^ f) ≤ a →
    ilog2Aux f lo a + 1 = lo + 2 ^ f := by
  induction f with
  | zero => intro lo a _; simp [ilog2Aux]
  | succ f ih =>
    intro lo a h
    have h2 : 2 ^ (lo + 2 ^ f + 2 ^ f) ≤ a := by
      rw [Nat.add_assoc, ← Nat.two_mul, ← pow_succ']; exact h
    have h1 : 2 ^ (lo + 2 ^ f) ≤ a :=
      (Nat.pow_le_pow_right (by norm_num) (Nat.le_add_right _ _)).trans h2
    rw [ilog2Aux, if_pos ((shiftRight_ne_zero_iff _ _).2 h1), ih _ a h2, pow_succ']
    omega

theorem ilog2_zero : ilog2 0 = 0 := by decide

theorem ilog2_spec {a : Nat} (h₀ : 0 < a) (h : a < 2 ^ 8192) :
    2 ^ ilog2 a ≤ a ∧ a < 2 ^ (ilog2 a + 1) :=
  ilog2Aux_spec 13 0 a h₀ h

theorem ilog2_big {a : Nat} (h : 2 ^ 8192 ≤ a) : ilog2 a = 8191 := by
  have := ilog2Aux_big 13 0 a h
  have h2 : (0 + 2 ^ 13 : Nat) = 8192 := by norm_num
  unfold ilog2
  omega

theorem ilog2_unique {a e : Nat} (h : a < 2 ^ 8192) (h₁ : 2 ^ e ≤ a) (h₂ : a < 2 ^ (e + 1)) :
    ilog2 a = e := by
  have h₀ : 0 < a := lt_of_lt_of_le (Nat.two_pow_pos e) h₁
  obtain ⟨s₁, s₂⟩ := ilog2_spec h₀ h
  have a1 : ilog2 a < e + 1 := (Nat.pow_lt_pow_iff_right (by norm_num)).1 (lt_of_le_of_lt s₁ h₂)
  have a2 : e < ilog2 a + 1 := (Nat.pow_lt_pow_iff_right (by norm_num)).1 (lt_of_le_of_lt h₁ s₂)
  omega

theorem roundMag_eq (a s : Nat) :
    roundMag a s
      = (if 2 ^ max (ilog2 a - 52) s < 2 * (a % 2 ^ max (ilog2 a - 52) s) ∨
            (2 * (a % 2 ^ max (ilog2 a - 52) s) = 2 ^ max (ilog2 a - 52) s ∧
              a / 2 ^ max (ilog2 a - 52) s % 2 = 1)
          then a / 2 ^ max (ilog2 a - 52) s + 1 else a / 2 ^ max (ilog2 a - 52) s)
        * 2 ^ (max (ilog2 a - 52) s - s) := by
  have hr : a - a / 2 ^ max (ilog2 a - 52) s * 2 ^ max (ilog2 a - 52) s
      = a % 2 ^ max (ilog2 a - 52) s := by
    have := Nat.div_add_mod a (2 ^ max (ilog2 a - 52) s)
    rw [Nat.mul_comm] at this
    omega
  simp only [roundMag, Nat.shiftRight_eq_div_pow, Nat.shiftLeft_eq, Nat.one_mul, hr]


theorem roundMag_zero (s : Nat) : roundMag 0 s = 0 := by
  rw [roundMag_eq, ilog2_zero]
  simp

theorem pow_lt_8192 {n : Nat} (h : n < 8192) {a : Nat} (ha : a < 2 ^ n) : a < 2 ^ 8192 :=
  lt_of_lt_of_le ha (Nat.pow_le_pow_right (by norm_num) (Nat.le_of_lt h))

theorem roundMag_rep {q t : Nat} (hq : q ≤ 2 ^ 53) (h : q * 2 ^ t < 2 ^ 8192) :
    roundMag (q * 2 ^ t) 0 = q * 2 ^ t := by
  rcases Nat.eq_zero_or_pos (q * 2 ^ t) with h0 | h0
  · rw [h0, roundMag_zero]
  obtain ⟨s₁, s₂⟩ := ilog2_spec h0 h
  have hdvd : 2 ^ (ilog2 (q * 2 ^ t) - 52) ∣ q * 2 ^ t := by
    rcases Nat.lt_or_ge t (ilog2 (q * 2 ^ t) - 52) with hgt | hle
    swap
    · exact Dvd.dvd.mul_left (Nat.pow_dvd_pow 2 hle) q
    · have hb : t + 53 ≤ ilog2 (q * 2 ^ t) := by omega
      have h1 : 2 ^ 53 * 2 ^ t ≤ q * 2 ^ t := by
        calc 2 ^ 53 * 2 ^ t = 2 ^ (t + 53) := by rw [Nat.add_comm, pow_add]
          _ ≤ 2 ^ ilog2 (q * 2 ^ t) := Nat.pow_le_pow_right (by norm_num) hb
          _ ≤ q * 2 ^ t := s₁
      have hq2 : 2 ^ 53 ≤ q := Nat.le_of_mul_le_mul_right h1 (Nat.two_pow_pos t)
      have hqe : q = 2 ^ 53 := le_antisymm hq hq2
      have ha : q * 2 ^ t = 2 ^ (53 + t) := by rw [hqe, pow_add]
      have hlog : ilog2 (q * 2 ^ t) = 53 + t :=
        ilog2_unique h (by rw [ha]) (by rw [ha]; exact Nat.pow_lt_pow_right (by norm_num) (by omega))
      rw [hlog, ha]
      exact Nat.pow_dvd_pow 2 (by omega)
  have hmod : q * 2 ^ t % 2 ^ (ilog2 (q * 2 ^ t) - 52) = 0 := Nat.mod_eq_zero_of_dvd hdvd
  have hpos : 0 < 2 ^ (ilog2 (q * 2 ^ t) - 52) := Nat.two_pow_pos _
  rw [roundMag_eq]
  simp only [Nat.max_zero, Nat.sub_zero, hmod, Nat.mul_zero]
  rw [if_neg (by omega)]
  exact Nat.div_mul_cancel hdvd

theorem roundMag_form (a s : Nat) (h : a < 2 ^ 8192) :
    ∃ q t, roundMag a s = q * 2 ^ t ∧ q ≤ 2 ^ 53 := by
  have hq : a / 2 ^ max (ilog2 a - 52) s < 2 ^ 53 := by
    rcases Nat.eq_zero_or_pos a with h0 | h0
    · rw [h0, Nat.zero_div]; exact Nat.two_pow_pos 53
    obtain ⟨_, s₂⟩ := ilog2_spec h0 h
    rw [Nat.div_lt_iff_lt_mul (Nat.two_pow_pos _), ← pow_add]
    exact lt_of_lt_of_le s₂ (Nat.pow_le_pow_right (by norm_num) (by omega))
  rw [roundMag_eq]
  refine ⟨_, _, rfl, ?_⟩
  split_ifs <;> omega

theorem roundMag_big {a s : Nat} (hs : s ≤ 1074) (h : 2 ^ 8192 ≤ a) :
    2 ^ 2098 ≤ roundMag a s := by
  have hsh : max (ilog2 a - 52) s = 8139 := by rw [ilog2_big h]; omega
  have hq : 2 ^ 53 ≤ a / 2 ^ 8139 := by
    rw [Nat.le_div_iff_mul_le (Nat.two_pow_pos _), ← pow_add]
    exact h
  rw [roundMag_eq, hsh]
  have hexp : 2 ^ 2098 ≤ 2 ^ 53 * 2 ^ (8139 - s) := by
    rw [← pow_add]
    exact Nat.pow_le_pow_right (by norm_num) (by omega)
  refine hexp.trans (Nat.mul_le_mul_right _ ?_)
  split_ifs <;> omega

theorem roundMag_idem {a s : Nat} (hs : s ≤ 1074) (hm : roundMag a s < 2 ^ 2098) :
    roundMag (roundMag a s) 0 = roundMag a s := by
  have ha : a < 2 ^ 8192 := by
    by_contra hc
    exact absurd (roundMag_big hs (not_lt.1 hc)) (not_le.2 hm)
  obtain ⟨q, t, hqt, hq⟩ := roundMag_form a s ha
  rw [hqt] at hm ⊢
  exact roundMag_rep hq (pow_lt_8192 (by norm_num) hm)

theorem roundMag_scale {a : Nat} (s t : Nat) (h : a * 2 ^ t < 2 ^ 8192) :
    roundMag (a * 2 ^ t) (s + t) = roundMag a s := by
  rcases Nat.eq_zero_or_pos a with h0 | h0
  · rw [h0, Nat.zero_mul, roundMag_zero, roundMag_zero]
  have hpt : 0 < 2 ^ t := Nat.two_pow_pos t
  have ha : a < 2 ^ 8192 := lt_of_le_of_lt (Nat.le_mul_of_pos_right a hpt) h
  obtain ⟨s₁, s₂⟩ := ilog2_spec h0 ha
  have hlog : ilog2 (a * 2 ^ t) = ilog2 a + t :=
    ilog2_unique h (by rw [pow_add]; exact Nat.mul_le_mul_right _ s₁)
      (by rw [Nat.add_right_comm, pow_add]; exact Nat.mul_lt_mul_of_pos_right s₂ hpt)
  have hsh : max (ilog2 (a * 2 ^ t) - 52) (s + t) = max (ilog2 a - 52) s + t := by
    rw [hlog]; omega
  rw [roundMag_eq, roundMag_eq a s, hsh, pow_add, Nat.mul_div_mul_right _ _ hpt,
    Nat.mul_mod_mul_right, Nat.add_sub_add_right]
  have c1 : (2 ^ max (ilog2 a - 52) s * 2 ^ t
        < 2 * (a % 2 ^ max (ilog2 a - 52) s * 2 ^ t))
      ↔ 2 ^ max (ilog2 a - 52) s < 2 * (a % 2 ^ max (ilog2 a - 52) s) := by
    rw [← Nat.mul_assoc]
    exact Nat.mul_lt_mul_right hpt
  have c2 : (2 * (a % 2 ^ max (ilog2 a - 52) s * 2 ^ t)
        = 2 ^ max (ilog2 a - 52) s * 2 ^ t)
      ↔ 2 * (a % 2 ^ max (ilog2 a - 52) s) = 2 ^ max (ilog2 a - 52) s := by
    rw [← Nat.mul_assoc]
    exact Nat.mul_left_inj (Nat.pos_iff_ne_zero.1 hpt)
  simp only [c1, c2]

theorem rnd_zero (s : Nat) : rnd 0 s = fin 0 := by
  simp [rnd, roundMag_zero]

theorem shiftRight_2098_eq_zero_iff (m : Nat) : ¬ (m >>> 2098 ≠ 0) ↔ m < 2 ^ 2098 := by
  rw [shiftRight_ne_zero_iff, not_le]

theorem fin_neg_natAbs (n : Int) : (if n < 0 then -((n.natAbs : Nat) : Int) else (n.natAbs : Int)) = n := by
  split_ifs <;> omega

theorem isDouble_fin_iff (k : Int) :
    (fin k).IsDouble ↔ roundMag k.natAbs 0 = k.natAbs ∧ k.natAbs < 2 ^ 2098 := by
  show rnd k 0 = fin k ↔ _
  unfold rnd
  simp only []
  constructor
  · intro h
    split_ifs at h with h1 h2 h2
    · simp only [Dbl.fin.injEq] at h
      refine ⟨by omega, ?_⟩
      rw [shiftRight_2098_eq_zero_iff] at h1
      have : roundMag k.natAbs 0 = k.natAbs := by omega
      rw [this] at h1
      exact h1
    · simp only [Dbl.fin.injEq] at h
      refine ⟨by omega, ?_⟩
      rw [shiftRight_2098_eq_zero_iff] at h1
      have : roundMag k.natAbs 0 = k.natAbs := by omega
      rw [this] at h1
      exact h1
  · rintro ⟨h1, h2⟩
    rw [h1, if_neg ((shiftRight_2098_eq_zero_iff _).2 h2), fin_neg_natAbs]

theorem rnd_isDouble (n : Int) {s : Nat} (hs : s ≤ 1074) : (rnd n s).IsDouble := by
  unfold rnd
  simp only []
  split_ifs with h1 h2 h2
  · trivial
  · trivial
  · rw [shiftRight_2098_eq_zero_iff] at h1
    rw [isDouble_fin_iff, Int.natAbs_neg, Int.natAbs_ofNat]
    exact ⟨roundMag_idem hs h1, h1⟩
  · rw [shiftRight_2098_eq_zero_iff] at h1
    rw [isDouble_fin_iff, Int.natAbs_ofNat]
    exact ⟨roundMag_idem hs h1, h1⟩

theorem add_fin (a b : Int) : fin a + fin b = rnd (a + b) 0 := rfl

theorem sub_fin (a b : Int) : fin a - fin b = rnd (a + -b) 0 := rfl

theorem mul_fin (a b : Int) : fin a * fin b = rnd (a * b) 1074 := rfl

theorem zero_eq : (0 : Dbl) = fin 0 := by decide

theorem one_eq : (1 : Dbl) = fin ((2 ^ 1074 : Nat) : Int) := by decide

theorem isDouble_add (x y : Dbl) : (x + y).IsDouble := by
  cases x <;> cases y <;> first | exact rnd_isDouble _ (by norm_num) | trivial

theorem isDouble_sub (x y : Dbl) : (x - y).IsDouble := by
  cases x <;> cases y <;> first | exact rnd_isDouble _ (by norm_num) | trivial

theorem isDouble_mul (x y : Dbl) : (x * y).IsDouble := by
  cases x <;> cases y <;>
    first
    | exact rnd_isDouble _ (by norm_num)
    | trivial
    | (show (mul _ _).IsDouble; unfold mul; simp only []; split_ifs <;> trivial)

theorem add_zero {x : Dbl} (h : x.IsDouble) : x + 0 = x := by
  rw [zero_eq]
  cases x with
  | fin k => rw [add_fin, Int.add_zero]; exact h
  | pinf => rfl
  | ninf => rfl
  | nan => rfl

theorem zero_add {x : Dbl} (h : x.IsDouble) : 0 + x = x := by
  rw [zero_eq]
  cases x with
  | fin k => rw [add_fin, Int.zero_add]; exact h
  | pinf => rfl
  | ninf => rfl
  | nan => rfl

theorem sub_zero {x : Dbl} (h : x.IsDouble) : x - 0 = x := by
  rw [zero_eq]
  cases x with
  | fin k => rw [sub_fin, Int.neg_zero, Int.add_zero]; exact h
  | pinf => rfl
  | ninf => rfl
  | nan => rfl

theorem mul_zero_fin (a : Int) : fin a * 0 = 0 := by
  rw [zero_eq, mul_fin, Int.mul_zero, rnd_zero]

theorem zero_mul_fin (a : Int) : 0 * fin a = 0 := by
  rw [zero_eq, mul_fin, Int.zero_mul, rnd_zero]

theorem sub_self_fin (a : Int) : fin a - fin a = 0 := by
  rw [zero_eq, sub_fin, Int.add_right_neg, rnd_zero]

theorem one_mul {x : Dbl} (h : x.IsDouble) : 1 * x = x := by
  rw [one_eq]
  cases x with
  | fin k =>
    obtain ⟨h1, h2⟩ := (isDouble_fin_iff k).1 h
    have hr : roundMag (k.natAbs * 2 ^ 1074) (0 + 1074) = roundMag k.natAbs 0 :=
      roundMag_scale 0 1074 (by
        calc k.natAbs * 2 ^ 1074 < 2 ^ 2098 * 2 ^ 1074 :=
              Nat.mul_lt_mul_of_pos_right h2 (Nat.two_pow_pos _)
          _ ≤ 2 ^ 8192 := by rw [← pow_add]; exact Nat.pow_le_pow_right (by norm_num) (by norm_num))
    have hp : (0 : Int) < ((2 ^ 1074 : Nat) : Int) := by exact_mod_cast Nat.two_pow_pos 1074
    have hneg : (((2 ^ 1074 : Nat) : Int) * k < 0) ↔ k < 0 := by
      constructor
      · intro hlt
        by_contra hk
        exact absurd (Int.mul_nonneg hp.le (not_lt.1 hk)) (not_le.2 hlt)
      · intro hk
        exact Int.mul_neg_of_pos_of_neg hp hk
    rw [mul_fin]
    unfold rnd
    simp only []
    rw [Nat.zero_add] at hr
    rw [Int.natAbs_mul, Int.natAbs_ofNat, Nat.mul_comm]
    rw [hr, h1, if_neg ((shiftRight_2098_eq_zero_iff _).2 h2)]
    simp only [hneg]
    rw [fin_neg_natAbs]
  | pinf => decide
  | ninf => decide
  | nan => decide

end Dbl

namespace Dbl

theorem two_eq : (2.0 : Dbl) = fin ((2 ^ 1075 : Nat) : Int) := by decide

theorem isFinite_iff (x : Dbl) : x.isFinite = true ↔ ∃ k, x = fin k := by
  cases x <;> simp [isFinite]

theorem zero_sub_zero : (0 : Dbl) - 0 = 0 := by decide

theorem zero_add_zero : (0 : Dbl) + 0 = 0 := by decide

theorem zero_mul_zero : (0 : Dbl) * 0 = 0 := by decide

theorem zero_mul_half : (0 : Dbl) * 0.5 = 0 := by decide

theorem two_mul_zero : (2.0 : Dbl) * 0 = 0 := by decide

theorem one_sub_zero : (1 : Dbl) - 0 = 1 := by decide

theorem one_mul_zero : (1 : Dbl) * 0 = 0 := by decide

theorem isDouble_fin_rep (k : Int) :
    (fin k).IsDouble ↔ (∃ q t, k.natAbs = q * 2 ^ t ∧ q ≤ 2 ^ 53) ∧ k.natAbs < 2 ^ 2098 := by
  rw [isDouble_fin_iff]
  constructor
  · rintro ⟨h1, h2⟩
    obtain ⟨q, t, e, hq⟩ := roundMag_form k.natAbs 0 (pow_lt_8192 (by norm_num) h2)
    exact ⟨⟨q, t, h1.symm.trans e, hq⟩, h2⟩
  · rintro ⟨⟨q, t, e, hq⟩, h2⟩
    refine ⟨?_, h2⟩
    have h3 : q * 2 ^ t < 2 ^ 8192 := by rw [← e]; exact pow_lt_8192 (by norm_num) h2
    rw [e]
    exact roundMag_rep hq h3

theorem isDouble_neg_fin {k : Int} (h : (fin k).IsDouble) : (fin (-k)).IsDouble := by
  rw [isDouble_fin_iff] at h ⊢
  rwa [Int.natAbs_neg]

theorem rnd_scale (n : Int) (h : n.natAbs < 2 ^ 7000) :
    rnd (((2 ^ 1074 : Nat) : Int) * n) 1074 = rnd n 0 := by
  have hr : roundMag (n.natAbs * 2 ^ 1074) (0 + 1074) = roundMag n.natAbs 0 :=
    roundMag_scale 0 1074 (by
      calc n.natAbs * 2 ^ 1074 < 2 ^ 7000 * 2 ^ 1074 :=
            Nat.mul_lt_mul_of_pos_right h (Nat.two_pow_pos _)
        _ ≤ 2 ^ 8192 := by rw [← pow_add]; exact Nat.pow_le_pow_right (by norm_num) (by norm_num))
  have hp : (0 : Int) < ((2 ^ 1074 : Nat) : Int) := by exact_mod_cast Nat.two_pow_pos 1074
  have hneg : (((2 ^ 1074 : Nat) : Int) * n < 0) ↔ n < 0 := by
    constructor
    · intro hlt
      by_contra hk
      exact absurd (Int.mul_nonneg hp.le (not_lt.1 hk)) (not_le.2 hlt)
    · intro hk
      exact Int.mul_neg_of_pos_of_neg hp hk
  unfold rnd
  simp only []
  rw [Nat.zero_add] at hr
  rw [Int.natAbs_mul, Int.natAbs_ofNat, Nat.mul_comm, hr]
  simp only [hneg]

theorem two_mul_fin {k : Int} (h : (fin k).IsDouble) (hf : (2.0 * fin k).isFinite = true) :
    2.0 * fin k = fin (2 * k) := by
  obtain ⟨⟨q, t, e, hq⟩, h2⟩ := (isDouble_fin_rep k).1 h
  have e2 : (2 * k).natAbs = q * 2 ^ (t + 1) := by
    rw [Int.natAbs_mul, e, pow_succ]
    show 2 * (q * 2 ^ t) = q * (2 ^ t * 2)
    ring
  have hlt : (2 * k).natAbs < 2 ^ 7000 := by
    have h3 : (2 * k).natAbs = 2 * k.natAbs := by rw [Int.natAbs_mul]; rfl
    have h4 : (2 : Nat) ^ 2098 * 2 ≤ 2 ^ 7000 := by
      rw [← pow_succ]; exact Nat.pow_le_pow_right (by norm_num) (by norm_num)
    omega
  have hs : 2.0 * fin k = rnd (2 * k) 0 := by
    have e3 : ((2 ^ 1075 : Nat) : Int) * k = ((2 ^ 1074 : Nat) : Int) * (2 * k) := by
      push_cast
      ring
    rw [two_eq, mul_fin, e3, rnd_scale _ hlt]
  have hrm : roundMag (2 * k).natAbs 0 = (2 * k).natAbs := by
    rw [e2]
    exact roundMag_rep hq (by rw [← e2]; exact pow_lt_8192 (by norm_num) hlt)
  by_cases hb : (2 * k).natAbs < 2 ^ 2098
  · exact hs.trans ((isDouble_fin_iff _).2 ⟨hrm, hb⟩)
  · exfalso
    rw [hs] at hf
    unfold rnd at hf
    simp only [hrm] at hf
    rw [if_pos ((shiftRight_ne_zero_iff _ _).2 (not_lt.1 hb))] at hf
    split_ifs at hf <;> exact absurd hf (by decide)

theorem sub_two_mul_fin {k : Int} (h : (fin k).IsDouble) (hf : (2.0 * fin k).isFinite = true) :
    fin k - 2.0 * fin k = fin (-k) := by
  have e : k + -(2 * k) = -k := by ring
  rw [two_mul_fin h hf, sub_fin, e]
  exact isDouble_neg_fin h

theorem add_neg_self_fin (k : Int) : fin (-k) + fin k = 0 := by
  rw [zero_eq, add_fin, Int.add_left_neg, rnd_zero]

end Dbl

/-! ## Order facts of binary64 and the clamp -/

namespace Dbl

theorem lt_iff (x y : Dbl) : x < y ↔ blt x y = true := Iff.rfl

theorem le_iff (x y : Dbl) : x ≤ y ↔ ble x y = true := Iff.rfl

end Dbl

theorem clampSeq_nan (Max Min : Dbl) : clampSeq Max Min Dbl.nan = Dbl.nan := by
  cases Max <;> cases Min <;> rfl

theorem clampSeq_withinOrNaN {Max Min : Dbl} (h : Min ≤ Max) (v : Dbl) :
    WithinOrNaN Max Min (clampSeq Max Min v) := by
  cases Max <;> cases Min <;> cases v <;>
    simp only [clampSeq, WithinOrNaN, Within, GT.gt, Dbl.lt_iff, Dbl.le_iff, Dbl.blt, Dbl.ble,
      decide_eq_true_eq, Bool.false_eq_true, if_false, if_true, reduceCtorEq, false_or, or_false,
      true_and, and_true, false_and, and_false, or_true, true_or, Dbl.fin.injEq] at * <;>
    (try split_ifs) <;>
    (try simp only [Dbl.blt, Dbl.ble, decide_eq_true_eq, Bool.false_eq_true, reduceCtorEq,
      false_or, or_false, true_and, and_true, false_and, and_false, or_true, true_or,
      Dbl.fin.injEq, not_true_eq_false, not_false_eq_true] at *) <;>
    (try omega)

theorem clampSeq_of_mem {Max Min v : Dbl} (h₁ : Min ≤ v) (h₂ : v ≤ Max) :
    clampSeq Max Min v = v := by
  cases Max <;> cases Min <;> cases v <;>
    simp only [clampSeq, WithinOrNaN, Within, GT.gt, Dbl.lt_iff, Dbl.le_iff, Dbl.blt, Dbl.ble,
      decide_eq_true_eq, Bool.false_eq_true, if_false, if_true, reduceCtorEq, false_or, or_false,
      true_and, and_true, false_and, and_false, or_true, true_or, Dbl.fin.injEq] at * <;>
    (try split_ifs) <;>
    (try simp only [Dbl.blt, Dbl.ble, decide_eq_true_eq, Bool.false_eq_true, reduceCtorEq,
      false_or, or_false, true_and, and_true, false_and, and_false, or_true, true_or,
      Dbl.fin.injEq, not_true_eq_false, not_false_eq_true] at *) <;>
    (try omega)

theorem clampSeq_of_gt {Max Min v : Dbl} (h : Min ≤ Max) (hv : Max < v) :
    clampSeq Max Min v = Max := by
  cases Max <;> cases Min <;> cases v <;>
    simp only [clampSeq, WithinOrNaN, Within, GT.gt, Dbl.lt_iff, Dbl.le_iff, Dbl.blt, Dbl.ble,
      decide_eq_true_eq, Bool.false_eq_true, if_false, if_true, reduceCtorEq, false_or, or_false,
      true_and, and_true, false_and, and_false, or_true, true_or, Dbl.fin.injEq] at * <;>
    (try split_ifs) <;>
    (try simp only [Dbl.blt, Dbl.ble, decide_eq_true_eq, Bool.false_eq_true, reduceCtorEq,
      false_or, or_false, true_and, and_true, false_and, and_false, or_true, true_or,
      Dbl.fin.injEq, not_true_eq_false, not_false_eq_true] at *) <;>
    (try omega)

theorem clampSeq_of_lt {Max Min v : Dbl} (h : Min ≤ Max) (hv : v < Min) :
    clampSeq Max Min v = Min := by
  cases Max <;> cases Min <;> cases v <;>
    simp only [clampSeq, WithinOrNaN, Within, GT.gt, Dbl.lt_iff, Dbl.le_iff, Dbl.blt, Dbl.ble,
      decide_eq_true_eq, Bool.false_eq_true, if_false, if_true, reduceCtorEq, false_or, or_false,
      true_and, and_true, false_and, and_false, or_true, true_or, Dbl.fin.injEq] at * <;>
    (try split_ifs) <;>
    (try simp only [Dbl.blt, Dbl.ble, decide_eq_true_eq, Bool.false_eq_true, reduceCtorEq,
      false_or, or_false, true_and, and_true, false_and, and_false, or_true, true_or,
      Dbl.fin.injEq, not_true_eq_false, not_false_eq_true] at *) <;>
    (try omega)

theorem clampSeq_of_max_lt {Max Min : Dbl} (h : Max < Min) (v : Dbl) :
    clampSeq Max Min v = Min ∨ clampSeq Max Min v = Dbl.nan := by
  cases Max <;> cases Min <;> cases v <;>
    simp only [clampSeq, WithinOrNaN, Within, GT.gt, Dbl.lt_iff, Dbl.le_iff, Dbl.blt, Dbl.ble,
      decide_eq_true_eq, Bool.false_eq_true, if_false, if_true, reduceCtorEq, false_or, or_false,
      true_and, and_true, false_and, and_false, or_true, true_or, Dbl.fin.injEq] at * <;>
    (try split_ifs) <;>
    (try simp only [Dbl.blt, Dbl.ble, decide_eq_true_eq, Bool.false_eq_true, reduceCtorEq,
      false_or, or_false, true_and, and_true, false_and, and_false, or_true, true_or,
      Dbl.fin.injEq, not_true_eq_false, not_false_eq_true] at *) <;>
    (try omega)

theorem clampSeq_zero_zero (v : Dbl) : clampSeq 0 0 v = 0 ∨ clampSeq 0 0 v = Dbl.nan := by
  rw [Dbl.zero_eq]
  cases v with
  | fin k =>
    simp only [clampSeq, GT.gt, Dbl.lt_iff, Dbl.blt, decide_eq_true_eq]
    split_ifs <;>
      (simp only [reduceCtorEq, or_false, Dbl.fin.injEq, or_true, Dbl.blt, Dbl.lt_iff,
        decide_eq_true_eq] at *
       try omega)
  | pinf => decide
  | ninf => decide
  | nan => decide

theorem clampSeq_between {Max Min o : Dbl} (h : Min ≤ Max) (ho₁ : Min ≤ o) (ho₂ : o ≤ Max)
    (t : Dbl) :
    clampSeq Max Min t = Dbl.nan ∨ (o ≤ clampSeq Max Min t ∧ clampSeq Max Min t ≤ t) ∨
      (t ≤ clampSeq Max Min t ∧ clampSeq Max Min t ≤ o) := by
  cases Max <;> cases Min <;> cases o <;> cases t <;>
    simp only [clampSeq, WithinOrNaN, Within, GT.gt, Dbl.lt_iff, Dbl.le_iff, Dbl.blt, Dbl.ble,
      decide_eq_true_eq, Bool.false_eq_true, if_false, if_true, reduceCtorEq, false_or, or_false,
      true_and, and_true, false_and, and_false, or_true, true_or, Dbl.fin.injEq] at * <;>
    (try split_ifs) <;>
    (try simp only [Dbl.blt, Dbl.ble, decide_eq_true_eq, Bool.false_eq_true, reduceCtorEq,
      false_or, or_false, true_and, and_true, false_and, and_false, or_true, true_or,
      Dbl.fin.injEq, not_true_eq_false, not_false_eq_true] at *) <;>
    (try omega)

/-! ## Monotonicity of rounding and addition -/

namespace Dbl

theorem roundMag_lower (a : Nat) :
    a / 2 ^ (ilog2 a - 52) * 2 ^ (ilog2 a - 52) ≤ roundMag a 0 := by
  rw [roundMag_eq]
  simp only [Nat.max_zero, Nat.sub_zero]
  apply Nat.mul_le_mul_right
  split_ifs <;> omega

theorem roundMag_upper (a : Nat) :
    roundMag a 0 ≤ (a / 2 ^ (ilog2 a - 52) + 1) * 2 ^ (ilog2 a - 52) := by
  rw [roundMag_eq]
  simp only [Nat.max_zero, Nat.sub_zero]
  apply Nat.mul_le_mul_right
  split_ifs <;> omega

theorem roundMag_mono {a b : Nat} (hab : a ≤ b) (hb : b < 2 ^ 8192) :
    roundMag a 0 ≤ roundMag b 0 := by
  rcases Nat.eq_zero_or_pos a with h0 | h0
  · rw [h0, roundMag_zero]; exact Nat.zero_le _
  have ha : a < 2 ^ 8192 := lt_of_le_of_lt hab hb
  have hb0 : 0 < b := lt_of_lt_of_le h0 hab
  obtain ⟨a1, a2⟩ := ilog2_spec h0 ha
  obtain ⟨b1, b2⟩ := ilog2_spec hb0 hb
  have hle : ilog2 a ≤ ilog2 b := by
    have h1 : 2 ^ ilog2 a < 2 ^ (ilog2 b + 1) := lt_of_le_of_lt a1 (lt_of_le_of_lt hab b2)
    have h2 := (Nat.pow_lt_pow_iff_right (by norm_num)).1 h1
    omega
  rcases Nat.lt_or_ge (ilog2 a - 52) (ilog2 b - 52) with hlt | hge
  · have hu := roundMag_upper a
    have hl := roundMag_lower b
    have h1 : (a / 2 ^ (ilog2 a - 52) + 1) * 2 ^ (ilog2 a - 52) ≤ 2 ^ (ilog2 a + 1) := by
      have hq : a / 2 ^ (ilog2 a - 52) < 2 ^ (ilog2 a + 1 - (ilog2 a - 52)) := by
        rw [Nat.div_lt_iff_lt_mul (Nat.two_pow_pos _), ← pow_add]
        have e : ilog2 a + 1 - (ilog2 a - 52) + (ilog2 a - 52) = ilog2 a + 1 := by omega
        rw [e]; exact a2
      calc (a / 2 ^ (ilog2 a - 52) + 1) * 2 ^ (ilog2 a - 52)
          ≤ 2 ^ (ilog2 a + 1 - (ilog2 a - 52)) * 2 ^ (ilog2 a - 52) :=
            Nat.mul_le_mul_right _ hq
        _ = 2 ^ (ilog2 a + 1) := by
            rw [← pow_add]
            congr 1
            omega
    have h2 : 2 ^ ilog2 b ≤ b / 2 ^ (ilog2 b - 52) * 2 ^ (ilog2 b - 52) := by
      have hq : 2 ^ (ilog2 b - (ilog2 b - 52)) ≤ b / 2 ^ (ilog2 b - 52) := by
        rw [Nat.le_div_iff_mul_le (Nat.two_pow_pos _), ← pow_add]
        have e : ilog2 b - (ilog2 b - 52) + (ilog2 b - 52) = ilog2 b := by omega
        rw [e]; exact b1
      calc 2 ^ ilog2 b = 2 ^ (ilog2 b - (ilog2 b - 52)) * 2 ^ (ilog2 b - 52) := by
            rw [← pow_add]
            congr 1
            omega
        _ ≤ b / 2 ^ (ilog2 b - 52) * 2 ^ (ilog2 b - 52) := Nat.mul_le_mul_right _ hq
    have h3 : 2 ^ (ilog2 a + 1) ≤ 2 ^ ilog2 b := Nat.pow_le_pow_right (by norm_num) (by omega)
    exact le_trans hu (le_trans h1 (le_trans h3 (le_trans h2 hl)))
  · have hs : ilog2 a - 52 = ilog2 b - 52 := by omega
    rw [roundMag_eq, roundMag_eq]
    simp only [Nat.max_zero, Nat.sub_zero]
    rw [hs]
    generalize 2 ^ (ilog2 b - 52) = P
    have hq : a / P ≤ b / P := Nat.div_le_div_right hab
    apply Nat.mul_le_mul_right
    rcases Nat.lt_or_ge (a / P) (b / P) with hq1 | hq2
    · split_ifs <;> omega
    · have hqe : a / P = b / P := by omega
      have da := Nat.div_add_mod a P
      have db := Nat.div_add_mod b P
      rw [hqe] at da
      have hr : a % P ≤ b % P := by omega
      rw [hqe]
      split_ifs with c1 c2 c2
      · exact le_refl _
      · exfalso
        apply c2
        rcases c1 with c | ⟨c, d⟩
        · left; omega
        · rcases Nat.lt_or_ge (2 * (a % P)) (2 * (b % P)) with e | e
          · left; omega
          · right; exact ⟨by omega, d⟩
      · omega
      · exact le_refl _

theorem rnd_of_big {n : Int} (h : 2 ^ 8192 ≤ n.natAbs) :
    rnd n 0 = if n < 0 then ninf else pinf := by
  have h2 := roundMag_big (s := 0) (by norm_num) h
  unfold rnd
  simp only []
  rw [if_pos ((shiftRight_ne_zero_iff _ _).2 h2)]

theorem rnd_ne_nan (n : Int) (s : Nat) : rnd n s ≠ nan := by
  unfold rnd
  simp only []
  split_ifs <;> exact fun h => Dbl.noConfusion h

theorem ninf_le {x : Dbl} (h : x ≠ nan) : ninf ≤ x := by
  cases x <;> first | rfl | exact absurd rfl h

theorem le_pinf {x : Dbl} (h : x ≠ nan) : x ≤ pinf := by
  cases x <;> first | rfl | exact absurd rfl h

theorem rnd_mono {n m : Int} (h : n ≤ m) : rnd n 0 ≤ rnd m 0 := by
  rcases Nat.lt_or_ge m.natAbs (2 ^ 8192) with hma | hma
  swap
  · rw [rnd_of_big hma]
    split_ifs with m0
    · have hna : 2 ^ 8192 ≤ n.natAbs := le_trans hma (by omega)
      rw [rnd_of_big hna, if_pos (by omega)]
      rfl
    · exact le_pinf (rnd_ne_nan n 0)
  rcases Nat.lt_or_ge n.natAbs (2 ^ 8192) with hna | hna
  swap
  · rw [rnd_of_big hna]
    split_ifs with n0
    · exact ninf_le (rnd_ne_nan m 0)
    · exact absurd (lt_of_lt_of_le hma hna) (by omega)
  unfold rnd
  simp only []
  rcases le_or_lt 0 n with n0 | n0
  · have m0 : 0 ≤ m := le_trans n0 h
    have hmono := roundMag_mono (a := n.natAbs) (b := m.natAbs) (by omega) hma
    rw [if_neg (not_lt.2 n0), if_neg (not_lt.2 m0), if_neg (not_lt.2 n0), if_neg (not_lt.2 m0)]
    simp only [shiftRight_ne_zero_iff]
    split_ifs with c1 c2 c2
    · rfl
    · exact absurd (le_trans c1 hmono) c2
    · rfl
    · show ble _ _ = true
      simp only [ble, decide_eq_true_eq]
      exact_mod_cast hmono
  rcases le_or_lt 0 m with m0 | m0
  · rw [if_pos n0, if_neg (not_lt.2 m0), if_pos n0, if_neg (not_lt.2 m0)]
    split_ifs
    · rfl
    · rfl
    · rfl
    · show ble _ _ = true
      simp only [ble, decide_eq_true_eq]
      omega
  · have hmono := roundMag_mono (a := m.natAbs) (b := n.natAbs) (by omega) hna
    rw [if_pos n0, if_pos m0, if_pos n0, if_pos m0]
    simp only [shiftRight_ne_zero_iff]
    split_ifs with c1 c2 c2
    · rfl
    · rfl
    · exact absurd (le_trans c2 hmono) c1
    · show ble _ _ = true
      simp only [ble, decide_eq_true_eq]
      omega

theorem ne_nan_of_le_left {x y : Dbl} (h : x ≤ y) : x ≠ nan := by
  intro e
  rw [e] at h
  cases y <;> simp only [le_iff, ble, Bool.false_eq_true] at h

theorem ne_nan_of_le_right {x y : Dbl} (h : x ≤ y) : y ≠ nan := by
  intro e
  rw [e] at h
  cases x <;> simp only [le_iff, ble, Bool.false_eq_true] at h

theorem le_trans' {x y z : Dbl} (h₁ : x ≤ y) (h₂ : y ≤ z) : x ≤ z := by
  cases x <;> cases y <;> cases z <;>
    (simp only [le_iff, ble, decide_eq_true_eq, Bool.false_eq_true] at *
     try omega)

theorem add_comm (x y : Dbl) : x + y = y + x := by
  cases x with
  | fin a =>
    cases y with
    | fin b => rw [add_fin, add_fin, Int.add_comm]
    | pinf => rfl
    | ninf => rfl
    | nan => rfl
  | pinf => cases y <;> rfl
  | ninf => cases y <;> rfl
  | nan => cases y <;> rfl

theorem add_le_add_left {x y z : Dbl} (h : y ≤ z) (hy : x + y ≠ nan) (hz : x + z ≠ nan) :
    x + y ≤ x + z := by
  have hyn := ne_nan_of_le_left h
  have hzn := ne_nan_of_le_right h
  cases y with
  | nan => exact absurd rfl hyn
  | fin b =>
    cases z with
    | nan => exact absurd rfl hzn
    | ninf => simp only [le_iff, ble, Bool.false_eq_true] at h
    | pinf =>
      cases x with
      | fin a => exact le_pinf (rnd_ne_nan _ _)
      | pinf => rfl
      | ninf => exact absurd rfl hz
      | nan => exact absurd rfl hz
    | fin c =>
      cases x with
      | fin a =>
        rw [add_fin, add_fin]
        have h' := (le_iff _ _).1 h
        simp only [ble, decide_eq_true_eq] at h'
        exact rnd_mono (by omega)
      | pinf => rfl
      | ninf => rfl
      | nan => exact absurd rfl hy
  | pinf =>
    cases z with
    | nan => exact absurd rfl hzn
    | ninf => simp only [le_iff, ble, Bool.false_eq_true] at h
    | fin c => simp only [le_iff, ble, Bool.false_eq_true] at h
    | pinf =>
      cases x with
      | fin a => rfl
      | pinf => rfl
      | ninf => exact absurd rfl hz
      | nan => exact absurd rfl hz
  | ninf =>
    cases x with
    | fin a => exact ninf_le hz
    | pinf => exact absurd rfl hy
    | ninf => exact ninf_le hz
    | nan => exact absurd rfl hy

theorem add_le_add_right {x y z : Dbl} (h : y ≤ z) (hy : y + x ≠ nan) (hz : z + x ≠ nan) :
    y + x ≤ z + x := by
  rw [add_comm y x, add_comm z x] at *
  exact add_le_add_left h hy hz

theorem fin_add_ne_nan (a : Int) {y : Dbl} (h : y ≠ nan) : fin a + y ≠ nan := by
  cases y with
  | fin b => exact rnd_ne_nan _ _
  | pinf => exact fun h' => Dbl.noConfusion h'
  | ninf => exact fun h' => Dbl.noConfusion h'
  | nan => exact absurd rfl h

theorem add_nonneg {x y : Dbl} (hx : 0 ≤ x) (hy : 0 ≤ y) : 0 ≤ x + y := by
  rw [zero_eq] at *
  cases x with
  | fin a =>
    cases y with
    | fin b =>
      have hx' := (le_iff _ _).1 hx
      have hy' := (le_iff _ _).1 hy
      simp only [ble, decide_eq_true_eq] at hx' hy'
      have h := rnd_mono (n := 0) (m := a + b) (by omega)
      rwa [rnd_zero] at h
    | pinf => rfl
    | ninf => simp only [le_iff, ble, Bool.false_eq_true] at hy
    | nan => simp only [le_iff, ble, Bool.false_eq_true] at hy
  | pinf =>
    cases y with
    | fin b => rfl
    | pinf => rfl
    | ninf => simp only [le_iff, ble, Bool.false_eq_true] at hy
    | nan => simp only [le_iff, ble, Bool.false_eq_true] at hy
  | ninf => simp only [le_iff, ble, Bool.false_eq_true] at hx
  | nan => simp only [le_iff, ble, Bool.false_eq_true] at hx

theorem le_add_of_nonneg_right {x y : Dbl} (hxd : x.IsDouble) (hx : 0 ≤ x) (hy : 0 ≤ y) :
    x ≤ x + y := by
  have hs : x + y ≠ nan := ne_nan_of_le_right (add_nonneg hx hy)
  have hz : x + 0 ≠ nan := by
    rw [add_zero hxd]; exact ne_nan_of_le_right hx
  have h := add_le_add_left (x := x) hy hz hs
  rwa [add_zero hxd] at h

theorem le_add_of_nonneg_left {x y : Dbl} (hyd : y.IsDouble) (hx : 0 ≤ x) (hy : 0 ≤ y) :
    y ≤ x + y := by
  have hs : x + y ≠ nan := ne_nan_of_le_right (add_nonneg hx hy)
  have hz : 0 + y ≠ nan := by
    rw [zero_add hyd]; exact ne_nan_of_le_right hy
  have h := add_le_add_right (x := y) hx hz hs
  rwa [zero_add hyd] at h

end Dbl

namespace PID_Controller

/-! ## The methods equal their closed forms -/

theorem Position_PID_eq (s : PID_Controller) (x f : Dbl) :
    s.Position_PID x f
      = (s.posOut x f (s.Kd * (f - s.Fb0)), s.posState x f (s.Kd * (f - s.Fb0))) := rfl

theorem Position_PID_DE_eq (s : PID_Controller) (x f d : Dbl) :
    s.Position_PID_DE x f d = (s.posOut x f (s.Kd * d), s.posState x f (s.Kd * d)) := rfl

theorem Incremental_PID_eq (s : PID_Controller) (x f : Dbl) :
    s.Incremental_PID x f
      = (clampSeq s.Out_Max s.Out_Min (s.Out + s.incDelta x f (s.Kd * (f - s.Fb0))),
          s.incState x f (s.Kd * (f - s.Fb0))) := rfl

theorem Incremental_PID_DE_eq (s : PID_Controller) (x f d : Dbl) :
    s.Incremental_PID_DE x f d
      = (clampSeq s.Out_Max s.Out_Min (s.Out + s.incDelta x f (s.Kd * d)),
          s.incState x f (s.Kd * d)) := rfl

theorem Set_Output_eq (s : PID_Controller) (v : Dbl) :
    s.Set_Output v
      = (clampSeq s.Out_Max s.Out_Min v, { s with Out := clampSeq s.Out_Max s.Out_Min v }) := rfl

end PID_Controller

open PID_Controller

/-! ## C1: the output bound -/

/-- C1, as stated, fails on doubles: the controller ctorReduced(0, 0, 0, 100, -100, 50, -50)
has Out_Min ≤ Out_Max, the arguments 2^1023 and -2^1023 are finite doubles, yet
Position_PID(2^1023, -2^1023) computes Err[0] = +inf and Kp * Err[0] = 0 * inf = NaN, both
clamps are skipped and NaN is returned, which is not in [Out_Min, Out_Max]. -/
theorem output_bound_counterexample :
    (ctorReduced 0 0 0 100 (-100) 50 (-50)).Out_Min
        ≤ (ctorReduced 0 0 0 100 (-100) 50 (-50)).Out_Max ∧
    ((Dbl.dyadic 1 1023).isFinite = true ∧ (Dbl.dyadic 1 1023).IsDouble) ∧
    ((ctorReduced 0 0 0 100 (-100) 50 (-50)).Position_PID
        (Dbl.dyadic 1 1023) (-Dbl.dyadic 1 1023)).1 = Dbl.nan ∧
    ¬ ReturnsBounded (ctorReduced 0 0 0 100 (-100) 50 (-50))
        ((ctorReduced 0 0 0 100 (-100) 50 (-50)).Position_PID
          (Dbl.dyadic 1 1023) (-Dbl.dyadic 1 1023)) := by
  refine ⟨by decide, by decide, by decide, ?_⟩
  unfold ReturnsBounded Within
  decide

/-- C1, amended. In every state with Out_Min ≤ Out_Max and for all arguments, the value
returned by Position_PID (both overloads), Incremental_PID (both overloads) and Set_Output
is NaN or lies in [Out_Min, Out_Max], and the held output Out equals it afterwards. -/
theorem output_bound_or_nan (s : PID_Controller) (h : s.Out_Min ≤ s.Out_Max)
    (Input Feedback Differential_Error Output : Dbl) :
    ReturnsBoundedOrNaN s (s.Position_PID Input Feedback) ∧
    ReturnsBoundedOrNaN s (s.Position_PID_DE Input Feedback Differential_Error) ∧
    ReturnsBoundedOrNaN s (s.Incremental_PID Input Feedback) ∧
    ReturnsBoundedOrNaN s (s.Incremental_PID_DE Input Feedback Differential_Error) ∧
    ReturnsBoundedOrNaN s (s.Set_Output Output) := by
  simp only [ReturnsBoundedOrNaN, Position_PID_eq, Position_PID_DE_eq, Incremental_PID_eq,
    Incremental_PID_DE_eq, Set_Output_eq, posState, incState, posOut]
  exact ⟨⟨clampSeq_withinOrNaN h _, trivial⟩, ⟨clampSeq_withinOrNaN h _, trivial⟩,
    ⟨clampSeq_withinOrNaN h _, trivial⟩, ⟨clampSeq_withinOrNaN h _, trivial⟩,
    ⟨clampSeq_withinOrNaN h _, trivial⟩⟩

/-- C1, amended, at a concrete controller: gains 1, 2, 3, 4, 5, 0.5, 0.25, integral limits
[-10, 10], output limits [-5, 5], arguments Input = 100, Feedback = 0,
Differential_Error = 3 and Output = 7. -/
theorem output_bound_or_nan_witness :
    (ctor 1 2 3 4 5 0.5 0.25 10 (-10) 5 (-5)).Out_Min
        ≤ (ctor 1 2 3 4 5 0.5 0.25 10 (-10) 5 (-5)).Out_Max ∧
    (ReturnsBoundedOrNaN (ctor 1 2 3 4 5 0.5 0.25 10 (-10) 5 (-5))
        ((ctor 1 2 3 4 5 0.5 0.25 10 (-10) 5 (-5)).Position_PID 100 0) ∧
      ReturnsBoundedOrNaN (ctor 1 2 3 4 5 0.5 0.25 10 (-10) 5 (-5))
        ((ctor 1 2 3 4 5 0.5 0.25 10 (-10) 5 (-5)).Position_PID_DE 100 0 3) ∧
      ReturnsBoundedOrNaN (ctor 1 2 3 4 5 0.5 0.25 10 (-10) 5 (-5))
        ((ctor 1 2 3 4 5 0.5 0.25 10 (-10) 5 (-5)).Incremental_PID 100 0) ∧
      ReturnsBoundedOrNaN (ctor 1 2 3 4 5 0.5 0.25 10 (-10) 5 (-5))
        ((ctor 1 2 3 4 5 0.5 0.25 10 (-10) 5 (-5)).Incremental_PID_DE 100 0 3) ∧
      ReturnsBoundedOrNaN (ctor 1 2 3 4 5 0.5 0.25 10 (-10) 5 (-5))
        ((ctor 1 2 3 4 5 0.5 0.25 10 (-10) 5 (-5)).Set_Output 7)) :=
  ⟨by decide, output_bound_or_nan _ (by decide) 100 0 3 7⟩

/-! ## C5: the anti-windup double clamp -/

/-- C5, as stated, fails on doubles: the controller ctorReduced(1, 0, 0, 10, -10, 5, -5) has
Integ_Min ≤ Integ_Max and the arguments are finite, yet Position_PID(2^1023, -2^1023)
computes Ki * (Err[0] + Err[1]) * 0.5 = 0 * inf * 0.5 = NaN, so that both the integral
increment and the accumulated integral are NaN, which escapes both clamps. -/
theorem position_integral_clamped_counterexample :
    (ctorReduced 1 0 0 10 (-10) 5 (-5)).Integ_Min ≤ (ctorReduced 1 0 0 10 (-10) 5 (-5)).Integ_Max ∧
    ((Dbl.dyadic 1 1023).isFinite = true ∧ (Dbl.dyadic 1 1023).IsDouble) ∧
    ((ctorReduced 1 0 0 10 (-10) 5 (-5)).Position_PID
        (Dbl.dyadic 1 1023) (-Dbl.dyadic 1 1023)).2.Position_Integ_Term1 = Dbl.nan ∧
    ((ctorReduced 1 0 0 10 (-10) 5 (-5)).Position_PID
        (Dbl.dyadic 1 1023) (-Dbl.dyadic 1 1023)).2.Position_Integ_Term0 = Dbl.nan ∧
    ¬ IntegralClamped (ctorReduced 1 0 0 10 (-10) 5 (-5))
        ((ctorReduced 1 0 0 10 (-10) 5 (-5)).Position_PID
          (Dbl.dyadic 1 1023) (-Dbl.dyadic 1 1023)) := by
  refine ⟨by decide, by decide, by decide, by decide, ?_⟩
  unfold IntegralClamped Within
  decide

/-- C5, amended. In every state with Integ_Min ≤ Integ_Max and for all arguments, after
Position_PID (either overload) the integral increment Position_Integ_Term[1] and the
accumulated integral Position_Integ_Term[0] are each NaN or in [Integ_Min, Integ_Max],
whatever the accumulated integral was before the call. -/
theorem position_integral_clamped_or_nan (s : PID_Controller)
    (h : s.Integ_Min ≤ s.Integ_Max) (Input Feedback Differential_Error : Dbl) :
    IntegralClampedOrNaN s (s.Position_PID Input Feedback) ∧
    IntegralClampedOrNaN s (s.Position_PID_DE Input Feedback Differential_Error) := by
  simp only [IntegralClampedOrNaN, Position_PID_eq, Position_PID_DE_eq, posState, integAcc,
    integStep]
  exact ⟨⟨clampSeq_withinOrNaN h _, clampSeq_withinOrNaN h _⟩,
    ⟨clampSeq_withinOrNaN h _, clampSeq_withinOrNaN h _⟩⟩

/-- C5, amended, at a concrete state: a controller with Ki = 2 and integral limits
[-10, 10] whose accumulated integral was driven to 10 by a first call, then called again
with a large error. -/
theorem position_integral_clamped_or_nan_witness :
    ((ctor 1 2 3 4 5 0.5 0.25 10 (-10) 5 (-5)).Position_PID 100 0).2.Integ_Min
        ≤ ((ctor 1 2 3 4 5 0.5 0.25 10 (-10) 5 (-5)).Position_PID 100 0).2.Integ_Max ∧
    (IntegralClampedOrNaN ((ctor 1 2 3 4 5 0.5 0.25 10 (-10) 5 (-5)).Position_PID 100 0).2
        (((ctor 1 2 3 4 5 0.5 0.25 10 (-10) 5 (-5)).Position_PID 100 0).2.Position_PID
          1000 (-1000)) ∧
      IntegralClampedOrNaN ((ctor 1 2 3 4 5 0.5 0.25 10 (-10) 5 (-5)).Position_PID 100 0).2
        (((ctor 1 2 3 4 5 0.5 0.25 10 (-10) 5 (-5)).Position_PID 100 0).2.Position_PID_DE
          1000 (-1000) 8)) :=
  ⟨by decide, position_integral_clamped_or_nan _ (by decide) 1000 (-1000) 8⟩

/-! ## C7: the delta clamp -/

/-- C7, as stated, fails on doubles: the controller ctorReduced(0, 1, 0, 10, -10, 5, -5) has
Integ_Min ≤ Integ_Max and the arguments are finite, yet Incremental_PID(2^1023, -2^1023)
computes Prop_Term = 0 * (inf - 0) = NaN, so that Delta_Out = NaN, outside
[Integ_Min, Integ_Max], and NaN is returned. -/
theorem incremental_delta_clamped_counterexample :
    (ctorReduced 0 1 0 10 (-10) 5 (-5)).Integ_Min ≤ (ctorReduced 0 1 0 10 (-10) 5 (-5)).Integ_Max ∧
    ((Dbl.dyadic 1 1023).isFinite = true ∧ (Dbl.dyadic 1 1023).IsDouble) ∧
    ((ctorReduced 0 1 0 10 (-10) 5 (-5)).Incremental_PID
        (Dbl.dyadic 1 1023) (-Dbl.dyadic 1 1023)).2.Delta_Out = Dbl.nan ∧
    ((ctorReduced 0 1 0 10 (-10) 5 (-5)).Incremental_PID
        (Dbl.dyadic 1 1023) (-Dbl.dyadic 1 1023)).1 = Dbl.nan ∧
    ¬ DeltaClamped (ctorReduced 0 1 0 10 (-10) 5 (-5))
        ((ctorReduced 0 1 0 10 (-10) 5 (-5)).Incremental_PID
          (Dbl.dyadic 1 1023) (-Dbl.dyadic 1 1023)) := by
  refine ⟨by decide, by decide, by decide, by decide, ?_⟩
  unfold DeltaClamped Within
  decide

/-- C7, amended. In every state with Integ_Min ≤ Integ_Max and for all arguments, whatever
Out_Min and Out_Max are, after Incremental_PID (either overload) the stored Delta_Out is
NaN or in [Integ_Min, Integ_Max], and the returned value is
clampOut(previous Out + Delta_Out), the sum being the binary64 sum. -/
theorem incremental_delta_clamped_or_nan (s : PID_Controller)
    (h : s.Integ_Min ≤ s.Integ_Max) (Input Feedback Differential_Error : Dbl) :
    DeltaClampedOrNaN s (s.Incremental_PID Input Feedback) ∧
    DeltaClampedOrNaN s (s.Incremental_PID_DE Input Feedback Differential_Error) := by
  simp only [DeltaClampedOrNaN, Incremental_PID_eq, Incremental_PID_DE_eq, incState, incDelta]
  exact ⟨⟨clampSeq_withinOrNaN h _, trivial⟩, ⟨clampSeq_withinOrNaN h _, trivial⟩⟩

/-- C7, amended, at a concrete controller whose output limits are inverted (Out_Max = -5
below Out_Min = 5) while the integral limits are [-10, 10]. -/
theorem incremental_delta_clamped_or_nan_witness :
    (ctor 1 2 3 4 5 0.5 0.25 10 (-10) (-5) 5).Integ_Min
        ≤ (ctor 1 2 3 4 5 0.5 0.25 10 (-10) (-5) 5).Integ_Max ∧
    (DeltaClampedOrNaN (ctor 1 2 3 4 5 0.5 0.25 10 (-10) (-5) 5)
        ((ctor 1 2 3 4 5 0.5 0.25 10 (-10) (-5) 5).Incremental_PID 100 0) ∧
      DeltaClampedOrNaN (ctor 1 2 3 4 5 0.5 0.25 10 (-10) (-5) 5)
        ((ctor 1 2 3 4 5 0.5 0.25 10 (-10) (-5) 5).Incremental_PID_DE 100 0 3)) :=
  ⟨by decide, incremental_delta_clamped_or_nan _ (by decide) 100 0 3⟩

/-! ## C10, C11, C12, C17, C18: facts that hold operation for operation -/

/-- C10 (manual-override handoff into the incremental law). For every state s and all v,
Input, Feedback: Set_Output(v) followed by Incremental_PID(Input, Feedback) stores the same
Delta_Out as Incremental_PID(Input, Feedback) called on s directly, and returns
clampOut(clampOut(v) + d) where d is that Delta_Out. -/
theorem set_output_then_incremental (s : PID_Controller) (v Input Feedback : Dbl) :
    ((s.Set_Output v).2.Incremental_PID Input Feedback).2.Delta_Out
        = (s.Incremental_PID Input Feedback).2.Delta_Out ∧
    ((s.Set_Output v).2.Incremental_PID Input Feedback).1
        = clampSeq s.Out_Max s.Out_Min
            (clampSeq s.Out_Max s.Out_Min v + (s.Incremental_PID Input Feedback).2.Delta_Out) :=
  ⟨rfl, rfl⟩

/-- C11 (Set_Output contract). In every state with Out_Min ≤ Out_Max and for every v,
Set_Output(v) returns v itself when Out_Min ≤ v ≤ Out_Max, Out_Max when v > Out_Max and
Out_Min when v < Out_Min; the only member it changes is the held output Out, which becomes
the returned value. -/
theorem set_output_contract (s : PID_Controller) (h : s.Out_Min ≤ s.Out_Max) (v : Dbl) :
    (s.Out_Min ≤ v → v ≤ s.Out_Max → (s.Set_Output v).1 = v) ∧
    (s.Out_Max < v → (s.Set_Output v).1 = s.Out_Max) ∧
    (v < s.Out_Min → (s.Set_Output v).1 = s.Out_Min) ∧
    (s.Set_Output v).2 = { s with Out := (s.Set_Output v).1 } := by
  rw [Set_Output_eq]
  exact ⟨fun h₁ h₂ => clampSeq_of_mem h₁ h₂, fun hv => clampSeq_of_gt h hv,
    fun hv => clampSeq_of_lt h hv, rfl⟩

/-- C11 at a concrete controller with output limits [-5, 5]: Set_Output(7) returns 5,
Set_Output(-9) returns -5 and Set_Output(2) returns 2. -/
theorem set_output_contract_witness :
    (ctor 1 2 3 4 5 0.5 0.25 10 (-10) 5 (-5)).Out_Min
        ≤ (ctor 1 2 3 4 5 0.5 0.25 10 (-10) 5 (-5)).Out_Max ∧
    ((ctor 1 2 3 4 5 0.5 0.25 10 (-10) 5 (-5)).Set_Output 7).1 = 5 ∧
    ((ctor 1 2 3 4 5 0.5 0.25 10 (-10) 5 (-5)).Set_Output (-9)).1 = -5 ∧
    ((ctor 1 2 3 4 5 0.5 0.25 10 (-10) 5 (-5)).Set_Output 2).1 = 2 :=
  ⟨by decide,
    (set_output_contract (ctor 1 2 3 4 5 0.5 0.25 10 (-10) 5 (-5)) (by decide) 7).2.1
      (by decide),
    (set_output_contract (ctor 1 2 3 4 5 0.5 0.25 10 (-10) 5 (-5)) (by decide) (-9)).2.2.1
      (by decide),
    (set_output_contract (ctor 1 2 3 4 5 0.5 0.25 10 (-10) 5 (-5)) (by decide) 2).1
      (by decide) (by decide)⟩

/-- C12 (Clear contract). For every state, after Clear() all three slots of the input,
feedback, error, positional-integral, derivative, feedforward and feedforward-boost
histories are 0, the held output Out and held delta Delta_Out are 0, and Integ_Max,
Integ_Min, Out_Max, Out_Min are 0, while the seven gains keep their previous values. -/
theorem clear_contract (s : PID_Controller) :
    ZeroHistory s.Clear ∧ ZeroLimits s.Clear ∧ SameGains s s.Clear := by
  simp [ZeroHistory, ZeroLimits, SameGains, Clear]

/-- C17 (overload agreement). For every state s and all Input, Feedback, the three-argument
overload called with Differential_Error = Feedback - s.Fb[0] gives the same returned value
and the same resulting state as the two-argument overload, for Position_PID and for
Incremental_PID. -/
theorem overloads_agree (s : PID_Controller) (Input Feedback : Dbl) :
    s.Position_PID_DE Input Feedback (Feedback - s.Fb0) = s.Position_PID Input Feedback ∧
    s.Incremental_PID_DE Input Feedback (Feedback - s.Fb0)
      = s.Incremental_PID Input Feedback :=
  ⟨rfl, rfl⟩

/-- C18 (the positional law ignores the held output). For any two states that agree on
every member except Out and Delta_Out and for all arguments, Position_PID (either overload)
returns the same value on both and the resulting states agree on every member except
Delta_Out; in particular a preceding Set_Output(v) has no influence on what Position_PID
returns. -/
theorem position_ignores_output (s t : PID_Controller) (h : AgreeExceptOutDelta s t)
    (Input Feedback Differential_Error : Dbl) :
    ((s.Position_PID Input Feedback).1 = (t.Position_PID Input Feedback).1 ∧
      AgreeExceptDelta (s.Position_PID Input Feedback).2 (t.Position_PID Input Feedback).2) ∧
    ((s.Position_PID_DE Input Feedback Differential_Error).1
        = (t.Position_PID_DE Input Feedback Differential_Error).1 ∧
      AgreeExceptDelta (s.Position_PID_DE Input Feedback Differential_Error).2
        (t.Position_PID_DE Input Feedback Differential_Error).2) ∧
    (∀ v : Dbl, ((s.Set_Output v).2.Position_PID Input Feedback).1
        = (s.Position_PID Input Feedback).1) ∧
    (∀ v : Dbl, ((s.Set_Output v).2.Position_PID_DE Input Feedback Differential_Error).1
        = (s.Position_PID_DE Input Feedback Differential_Error).1) := by
  unfold AgreeExceptOutDelta at h
  rw [← h]
  exact ⟨⟨rfl, rfl⟩, ⟨rfl, rfl⟩, fun _ => rfl, fun _ => rfl⟩

/-- C18 at two concrete states: a fresh controller and the same controller with held
output 3 and stored delta 9. -/
theorem position_ignores_output_witness :
    AgreeExceptOutDelta (ctor 1 2 3 4 5 0.5 0.25 10 (-10) 5 (-5))
      { (ctor 1 2 3 4 5 0.5 0.25 10 (-10) 5 (-5)) with Out := 3, Delta_Out := 9 } ∧
    ((ctor 1 2 3 4 5 0.5 0.25 10 (-10) 5 (-5)).Position_PID 1 0).1
      = (({ (ctor 1 2 3 4 5 0.5 0.25 10 (-10) 5 (-5)) with Out := 3, Delta_Out := 9 } :
          PID_Controller).Position_PID 1 0).1 :=
  ⟨rfl, (position_ignores_output (ctor 1 2 3 4 5 0.5 0.25 10 (-10) 5 (-5))
    { (ctor 1 2 3 4 5 0.5 0.25 10 (-10) 5 (-5)) with Out := 3, Delta_Out := 9 }
    rfl 1 0 0).1.1⟩

/-! ## C13: calls after Clear -/

theorem invoke_zero_limits (s : PID_Controller) (hMax : s.Out_Max = 0) (hMin : s.Out_Min = 0)
    (m : Method) :
    ((s.invoke m).1 = 0 ∨ (s.invoke m).1 = Dbl.nan) ∧ (s.invoke m).2.Out_Max = 0 ∧
      (s.invoke m).2.Out_Min = 0 := by
  cases m with
  | Control c =>
    cases c <;>
      simp only [invoke, call, Position_PID_eq, Position_PID_DE_eq, Incremental_PID_eq,
        Incremental_PID_DE_eq, posOut, posState, incState, hMax, hMin] <;>
      exact ⟨clampSeq_zero_zero _, trivial, trivial⟩
  | Set_Output v =>
    simp only [invoke, Set_Output_eq, hMax, hMin]
    exact ⟨clampSeq_zero_zero _, trivial, trivial⟩

theorem runMethods_zero_limits (ms : List Method) :
    ∀ s : PID_Controller, s.Out_Max = 0 → s.Out_Min = 0 →
      ∀ r ∈ s.runMethods ms, r.1 = 0 ∨ r.1 = Dbl.nan := by
  induction ms with
  | nil => intro s _ _ r hr; simp [runMethods] at hr
  | cons m ms ih =>
    intro s hMax hMin r hr
    obtain ⟨h0, h1, h2⟩ := invoke_zero_limits s hMax hMin m
    rw [runMethods] at hr
    rcases List.mem_cons.1 hr with h | h
    · rw [h]; exact h0
    · exact ih _ h1 h2 r h

/-- C13, as stated, fails on doubles: Clear keeps the gains, and after Clear() on the
controller ctorReduced(0, 1, 1, 7, -7, 9, -9) the call Position_PID(2^1023, -2^1023) computes
Kp * Err[0] = 0 * inf = NaN and returns NaN, not 0. -/
theorem outputs_zero_after_clear_counterexample :
    (ctorReduced 0 1 1 7 (-7) 9 (-9)).Clear.invoke
        (Method.Control (Call.Position (Dbl.dyadic 1 1023) (-Dbl.dyadic 1 1023)))
      ∈ (ctorReduced 0 1 1 7 (-7) 9 (-9)).Clear.runMethods
        [Method.Control (Call.Position (Dbl.dyadic 1 1023) (-Dbl.dyadic 1 1023))] ∧
    ((ctorReduced 0 1 1 7 (-7) 9 (-9)).Clear.invoke
        (Method.Control (Call.Position (Dbl.dyadic 1 1023) (-Dbl.dyadic 1 1023)))).1 = Dbl.nan ∧
    ((ctorReduced 0 1 1 7 (-7) 9 (-9)).Clear.invoke
        (Method.Control (Call.Position (Dbl.dyadic 1 1023) (-Dbl.dyadic 1 1023)))).1 ≠ 0 :=
  ⟨List.mem_cons_self _ _, by decide, by decide⟩

/-- C13, amended. For every state and every finite sequence of calls to Position_PID,
Incremental_PID (either overload) and Set_Output with arbitrary arguments made after
Clear(), the limit members not being written in between, every one of those calls returns
0 or NaN. -/
theorem outputs_zero_or_nan_after_clear (s : PID_Controller) (ms : List Method) :
    ∀ r ∈ s.Clear.runMethods ms, r.1 = 0 ∨ r.1 = Dbl.nan :=
  runMethods_zero_limits ms s.Clear rfl rfl

/-- C13, amended, at a concrete run: a controller with limits [-7, 7] and [-9, 9] that has
made one call is cleared; the following Position_PID(10, 0) and Set_Output(7) both return
0. -/
theorem outputs_zero_or_nan_after_clear_witness :
    (((ctor 1 2 3 4 5 0.5 0.25 7 (-7) 9 (-9)).Position_PID 3 1).2.Clear.invoke
        (Method.Control (Call.Position 10 0))).1 = 0 ∧
    ((((ctor 1 2 3 4 5 0.5 0.25 7 (-7) 9 (-9)).Position_PID 3 1).2.Clear.invoke
        (Method.Control (Call.Position 10 0))).2.invoke (Method.Set_Output 7)).1 = 0 :=
  ⟨(outputs_zero_or_nan_after_clear ((ctor 1 2 3 4 5 0.5 0.25 7 (-7) 9 (-9)).Position_PID 3 1).2
      [Method.Control (Call.Position 10 0), Method.Set_Output 7] _
      (List.mem_cons_self _ _)).resolve_right (by decide),
    (outputs_zero_or_nan_after_clear ((ctor 1 2 3 4 5 0.5 0.25 7 (-7) 9 (-9)).Position_PID 3 1).2
      [Method.Control (Call.Position 10 0), Method.Set_Output 7] _
      (List.mem_cons_of_mem _ (List.mem_cons_self _ _))).resolve_right (by decide)⟩

/-! ## C14: misconfigured limits -/

/-- C14, as stated, fails on doubles: the controller ctor(0, 0, 0, 0, 0, 0, 0, -10, 10, -5, 5)
has Out_Min > Out_Max and Integ_Min > Integ_Max, yet Position_PID(2^1023, -2^1023) returns
NaN, not Out_Min, and leaves Position_Integ_Term[0] = NaN, not Integ_Min, and
Incremental_PID(2^1023, -2^1023) stores Delta_Out = NaN, not Integ_Min. -/
theorem misconfigured_limits_counterexample :
    ((ctor 0 0 0 0 0 0 0 (-10) 10 (-5) 5).Out_Max < (ctor 0 0 0 0 0 0 0 (-10) 10 (-5) 5).Out_Min ∧
      (ctor 0 0 0 0 0 0 0 (-10) 10 (-5) 5).Integ_Max
        < (ctor 0 0 0 0 0 0 0 (-10) 10 (-5) 5).Integ_Min) ∧
    (((ctor 0 0 0 0 0 0 0 (-10) 10 (-5) 5).Position_PID
        (Dbl.dyadic 1 1023) (-Dbl.dyadic 1 1023)).1 = Dbl.nan ∧
      ((ctor 0 0 0 0 0 0 0 (-10) 10 (-5) 5).Position_PID
        (Dbl.dyadic 1 1023) (-Dbl.dyadic 1 1023)).1
        ≠ (ctor 0 0 0 0 0 0 0 (-10) 10 (-5) 5).Out_Min) ∧
    ((ctor 0 0 0 0 0 0 0 (-10) 10 (-5) 5).Position_PID
        (Dbl.dyadic 1 1023) (-Dbl.dyadic 1 1023)).2.Position_Integ_Term0
      ≠ (ctor 0 0 0 0 0 0 0 (-10) 10 (-5) 5).Integ_Min ∧
    ((ctor 0 0 0 0 0 0 0 (-10) 10 (-5) 5).Incremental_PID
        (Dbl.dyadic 1 1023) (-Dbl.dyadic 1 1023)).2.Delta_Out
      ≠ (ctor 0 0 0 0 0 0 0 (-10) 10 (-5) 5).Integ_Min := by
  decide

/-- C14, amended. In every state with Out_Min > Out_Max, Position_PID, Incremental_PID
(either overload) and Set_Output return Out_Min or NaN; in every state with
Integ_Min > Integ_Max, after Position_PID (either overload) the accumulated integral
Position_Integ_Term[0] is Integ_Min or NaN and after Incremental_PID (either overload) the
stored Delta_Out is Integ_Min or NaN. -/
theorem misconfigured_limits_pin_to_min_or_nan (s : PID_Controller)
    (Input Feedback Differential_Error Output : Dbl) :
    (s.Out_Max < s.Out_Min →
      ((s.Position_PID Input Feedback).1 = s.Out_Min ∨
        (s.Position_PID Input Feedback).1 = Dbl.nan) ∧
      ((s.Position_PID_DE Input Feedback Differential_Error).1 = s.Out_Min ∨
        (s.Position_PID_DE Input Feedback Differential_Error).1 = Dbl.nan) ∧
      ((s.Incremental_PID Input Feedback).1 = s.Out_Min ∨
        (s.Incremental_PID Input Feedback).1 = Dbl.nan) ∧
      ((s.Incremental_PID_DE Input Feedback Differential_Error).1 = s.Out_Min ∨
        (s.Incremental_PID_DE Input Feedback Differential_Error).1 = Dbl.nan) ∧
      ((s.Set_Output Output).1 = s.Out_Min ∨ (s.Set_Output Output).1 = Dbl.nan)) ∧
    (s.Integ_Max < s.Integ_Min →
      ((s.Position_PID Input Feedback).2.Position_Integ_Term0 = s.Integ_Min ∨
        (s.Position_PID Input Feedback).2.Position_Integ_Term0 = Dbl.nan) ∧
      ((s.Position_PID_DE Input Feedback Differential_Error).2.Position_Integ_Term0
          = s.Integ_Min ∨
        (s.Position_PID_DE Input Feedback Differential_Error).2.Position_Integ_Term0
          = Dbl.nan) ∧
      ((s.Incremental_PID Input Feedback).2.Delta_Out = s.Integ_Min ∨
        (s.Incremental_PID Input Feedback).2.Delta_Out = Dbl.nan) ∧
      ((s.Incremental_PID_DE Input Feedback Differential_Error).2.Delta_Out = s.Integ_Min ∨
        (s.Incremental_PID_DE Input Feedback Differential_Error).2.Delta_Out = Dbl.nan)) := by
  simp only [Position_PID_eq, Position_PID_DE_eq, Incremental_PID_eq, Incremental_PID_DE_eq,
    Set_Output_eq, posState, incState, posOut, integAcc, incDelta]
  exact ⟨fun h => ⟨clampSeq_of_max_lt h _, clampSeq_of_max_lt h _, clampSeq_of_max_lt h _,
      clampSeq_of_max_lt h _, clampSeq_of_max_lt h _⟩,
    fun h => ⟨clampSeq_of_max_lt h _, clampSeq_of_max_lt h _, clampSeq_of_max_lt h _,
      clampSeq_of_max_lt h _⟩⟩

/-- C14, amended, at a concrete controller with inverted limits, Integ_Max = -10 below
Integ_Min = 10 and Out_Max = -5 below Out_Min = 5: the calls return 5, the accumulated
integral becomes 10 and the stored delta becomes 10. -/
theorem misconfigured_limits_pin_to_min_or_nan_witness :
    ((ctor 1 2 3 4 5 0.5 0.25 (-10) 10 (-5) 5).Position_PID 100 0).1 = 5 ∧
    ((ctor 1 2 3 4 5 0.5 0.25 (-10) 10 (-5) 5).Incremental_PID (-100) 0).1 = 5 ∧
    ((ctor 1 2 3 4 5 0.5 0.25 (-10) 10 (-5) 5).Set_Output (-7)).1 = 5 ∧
    ((ctor 1 2 3 4 5 0.5 0.25 (-10) 10 (-5) 5).Position_PID 100 0).2.Position_Integ_Term0
      = 10 ∧
    ((ctor 1 2 3 4 5 0.5 0.25 (-10) 10 (-5) 5).Incremental_PID (-100) 0).2.Delta_Out
      = 10 :=
  ⟨(((misconfigured_limits_pin_to_min_or_nan (ctor 1 2 3 4 5 0.5 0.25 (-10) 10 (-5) 5)
      100 0 3 (-7)).1 (by decide)).1).resolve_right (by decide),
    (((misconfigured_limits_pin_to_min_or_nan (ctor 1 2 3 4 5 0.5 0.25 (-10) 10 (-5) 5)
      (-100) 0 3 (-7)).1 (by decide)).2.2.1).resolve_right (by decide),
    (((misconfigured_limits_pin_to_min_or_nan (ctor 1 2 3 4 5 0.5 0.25 (-10) 10 (-5) 5)
      100 0 3 (-7)).1 (by decide)).2.2.2.2).resolve_right (by decide),
    (((misconfigured_limits_pin_to_min_or_nan (ctor 1 2 3 4 5 0.5 0.25 (-10) 10 (-5) 5)
      100 0 3 (-7)).2 (by decide)).1).resolve_right (by decide),
    (((misconfigured_limits_pin_to_min_or_nan (ctor 1 2 3 4 5 0.5 0.25 (-10) 10 (-5) 5)
      (-100) 0 3 (-7)).2 (by decide)).2.2.1).resolve_right (by decide)⟩

/-! ## C15: history ordering -/

theorem call_history (s : PID_Controller) (c : Call) :
    ((s.call c).2.In0 = c.Input ∧ (s.call c).2.In1 = s.In0 ∧ (s.call c).2.In2 = s.In1) ∧
    ((s.call c).2.Fb0 = c.Feedback ∧ (s.call c).2.Fb1 = s.Fb0 ∧ (s.call c).2.Fb2 = s.Fb1) ∧
    ((s.call c).2.Err0 = c.Input - c.Feedback ∧ (s.call c).2.Err1 = s.Err0 ∧
      (s.call c).2.Err2 = s.Err1) := by
  cases c <;> exact ⟨⟨rfl, rfl, rfl⟩, ⟨rfl, rfl, rfl⟩, ⟨rfl, rfl, rfl⟩⟩

/-- C15 (history ordering). Starting from any state, after three consecutive control-law
calls (any mix of Position_PID and Incremental_PID, either overload) with samples (x1, f1),
(x2, f2), (x3, f3) in that order, the input history is In = [x3, x2, x1], the feedback
history is Fb = [f3, f2, f1] and the error history is Err = [x3-f3, x2-f2, x1-f1]. -/
theorem history_ordering (s : PID_Controller) (c₁ c₂ c₃ : Call) :
    ((s.exec [c₁, c₂, c₃]).In0 = c₃.Input ∧ (s.exec [c₁, c₂, c₃]).In1 = c₂.Input ∧
      (s.exec [c₁, c₂, c₃]).In2 = c₁.Input) ∧
    ((s.exec [c₁, c₂, c₃]).Fb0 = c₃.Feedback ∧ (s.exec [c₁, c₂, c₃]).Fb1 = c₂.Feedback ∧
      (s.exec [c₁, c₂, c₃]).Fb2 = c₁.Feedback) ∧
    ((s.exec [c₁, c₂, c₃]).Err0 = c₃.Input - c₃.Feedback ∧
      (s.exec [c₁, c₂, c₃]).Err1 = c₂.Input - c₂.Feedback ∧
      (s.exec [c₁, c₂, c₃]).Err2 = c₁.Input - c₁.Feedback) := by
  obtain ⟨⟨a0, _, _⟩, ⟨a3, _, _⟩, ⟨a6, _, _⟩⟩ := call_history s c₁
  obtain ⟨⟨b0, b1, _⟩, ⟨b3, b4, _⟩, ⟨b6, b7, _⟩⟩ := call_history (s.call c₁).2 c₂
  obtain ⟨⟨d0, d1, d2⟩, ⟨d3, d4, d5⟩, ⟨d6, d7, d8⟩⟩ := call_history ((s.call c₁).2.call c₂).2 c₃
  simp only [exec]
  exact ⟨⟨d0, d1.trans b0, d2.trans (b1.trans a0)⟩, ⟨d3, d4.trans b3, d5.trans (b4.trans a3)⟩,
    ⟨d6, d7.trans b6, d8.trans (b7.trans a6)⟩⟩

/-! ## C20: the realised output slew -/

/-- C20, as stated, fails on doubles: the addition Out += Delta_Out rounds. The controller
ctorReduced(1, 0, 0, 0.1, -0.1, 100, -100) after Set_Output(1) meets every hypothesis
(Out_Min ≤ Out_Max, Integ_Min ≤ 0 ≤ Integ_Max, Out in [Out_Min, Out_Max]) and
Incremental_PID(100, 0) stores Delta_Out = 0.1 = Integ_Max and returns the double nearest
1.1; the exact difference of that double and the old Out = 1, in units of 2^(-1074), exceeds
the exact value of Integ_Max, and so does the binary64 difference r - Out. -/
theorem incremental_slew_counterexample :
    (((ctorReduced 1 0 0 0.1 (-0.1) 100 (-100)).Set_Output 1).2.Out_Min
        ≤ ((ctorReduced 1 0 0 0.1 (-0.1) 100 (-100)).Set_Output 1).2.Out_Max ∧
      ((ctorReduced 1 0 0 0.1 (-0.1) 100 (-100)).Set_Output 1).2.Integ_Min ≤ 0 ∧
      0 ≤ ((ctorReduced 1 0 0 0.1 (-0.1) 100 (-100)).Set_Output 1).2.Integ_Max ∧
      ((ctorReduced 1 0 0 0.1 (-0.1) 100 (-100)).Set_Output 1).2.Out_Min
        ≤ ((ctorReduced 1 0 0 0.1 (-0.1) 100 (-100)).Set_Output 1).2.Out ∧
      ((ctorReduced 1 0 0 0.1 (-0.1) 100 (-100)).Set_Output 1).2.Out
        ≤ ((ctorReduced 1 0 0 0.1 (-0.1) 100 (-100)).Set_Output 1).2.Out_Max) ∧
    ((((ctorReduced 1 0 0 0.1 (-0.1) 100 (-100)).Set_Output 1).2.Incremental_PID 100 0).1
        = Dbl.dyadic 2476979795053773 (-51) ∧
      ((ctorReduced 1 0 0 0.1 (-0.1) 100 (-100)).Set_Output 1).2.Out = Dbl.dyadic 1 0 ∧
      ((ctorReduced 1 0 0 0.1 (-0.1) 100 (-100)).Set_Output 1).2.Integ_Max
        = Dbl.dyadic 3602879701896397 (-55)) ∧
    ((ctorReduced 1 0 0 0.1 (-0.1) 100 (-100)).Set_Output 1).2.Integ_Max.units
      < (((ctorReduced 1 0 0 0.1 (-0.1) 100 (-100)).Set_Output 1).2.Incremental_PID 100 0).1.units
        - ((ctorReduced 1 0 0 0.1 (-0.1) 100 (-100)).Set_Output 1).2.Out.units ∧
    ((ctorReduced 1 0 0 0.1 (-0.1) 100 (-100)).Set_Output 1).2.Integ_Max
      < (((ctorReduced 1 0 0 0.1 (-0.1) 100 (-100)).Set_Output 1).2.Incremental_PID 100 0).1
        - ((ctorReduced 1 0 0 0.1 (-0.1) 100 (-100)).Set_Output 1).2.Out := by
  decide

theorem slew_bounded_of_between {o imin imax d r : Dbl} (hf : o.isFinite = true)
    (hod : o.IsDouble) (h1 : imin ≤ 0) (h2 : 0 ≤ imax) (hd : WithinOrNaN imax imin d)
    (hr : r = Dbl.nan ∨ (o ≤ r ∧ r ≤ o + d) ∨ (o + d ≤ r ∧ r ≤ o)) :
    r = Dbl.nan ∨ (o + imin ≤ r ∧ r ≤ o + imax) := by
  obtain ⟨ko, rfl⟩ := (Dbl.isFinite_iff _).1 hf
  have hsum : Dbl.fin ko + d ≠ Dbl.nan → Within imax imin d := by
    intro hne
    rcases hd with hd | hd
    · rw [hd] at hne
      exact absurd rfl hne
    · exact hd
  have hmin : Dbl.fin ko + imin ≠ Dbl.nan := Dbl.fin_add_ne_nan ko (Dbl.ne_nan_of_le_left h1)
  have hmax : Dbl.fin ko + imax ≠ Dbl.nan := Dbl.fin_add_ne_nan ko (Dbl.ne_nan_of_le_right h2)
  have hzero : Dbl.fin ko + 0 ≠ Dbl.nan := Dbl.fin_add_ne_nan ko (Dbl.ne_nan_of_le_right h1)
  have hlo : Dbl.fin ko + imin ≤ Dbl.fin ko := by
    have := Dbl.add_le_add_left (x := Dbl.fin ko) h1 hmin hzero
    rwa [Dbl.add_zero hod] at this
  have hhi : Dbl.fin ko ≤ Dbl.fin ko + imax := by
    have := Dbl.add_le_add_left (x := Dbl.fin ko) h2 hzero hmax
    rwa [Dbl.add_zero hod] at this
  rcases hr with hr | ⟨hr1, hr2⟩ | ⟨hr1, hr2⟩
  · exact Or.inl hr
  · have hne := Dbl.ne_nan_of_le_right hr2
    obtain ⟨-, w2⟩ := hsum hne
    exact Or.inr ⟨Dbl.le_trans' hlo hr1,
      Dbl.le_trans' hr2 (Dbl.add_le_add_left w2 hne hmax)⟩
  · have hne := Dbl.ne_nan_of_le_left hr1
    obtain ⟨w1, -⟩ := hsum hne
    exact Or.inr ⟨Dbl.le_trans' (Dbl.add_le_add_left w1 hmin hne) hr1,
      Dbl.le_trans' hr2 hhi⟩

/-- C20, amended. In every state with Out_Min ≤ Out_Max, Integ_Min ≤ 0 ≤ Integ_Max and held
output Out in [Out_Min, Out_Max], and for all arguments, the value r returned by
Incremental_PID (either overload) is NaN or lies between the old Out and the binary64 sum
old Out + Delta_Out, where the stored Delta_Out is NaN or in [Integ_Min, Integ_Max]: the
output clamp never moves the output further from the old Out than the clamped delta did.
If moreover the old Out is a finite double, r is NaN or satisfies
(old Out) + Integ_Min ≤ r ≤ (old Out) + Integ_Max, both sums rounded to binary64: the slew
bound holds up to the rounding of one addition. -/
theorem incremental_slew_between (s : PID_Controller) (hO : s.Out_Min ≤ s.Out_Max)
    (hI₁ : s.Integ_Min ≤ 0) (hI₂ : 0 ≤ s.Integ_Max)
    (ho₁ : s.Out_Min ≤ s.Out) (ho₂ : s.Out ≤ s.Out_Max)
    (Input Feedback Differential_Error : Dbl) :
    (SlewBetween s (s.Incremental_PID Input Feedback) ∧
      SlewBetween s (s.Incremental_PID_DE Input Feedback Differential_Error)) ∧
    (s.Out.isFinite = true → s.Out.IsDouble →
      SlewBounded s (s.Incremental_PID Input Feedback) ∧
      SlewBounded s (s.Incremental_PID_DE Input Feedback Differential_Error)) := by
  have hI : s.Integ_Min ≤ s.Integ_Max := Dbl.le_trans' hI₁ hI₂
  simp only [SlewBetween, SlewBounded, Incremental_PID_eq, Incremental_PID_DE_eq, incState,
    incDelta]
  exact ⟨⟨⟨clampSeq_withinOrNaN hI _, clampSeq_between hO ho₁ ho₂ _⟩,
      ⟨clampSeq_withinOrNaN hI _, clampSeq_between hO ho₁ ho₂ _⟩⟩,
    fun hf hd =>
      ⟨slew_bounded_of_between hf hd hI₁ hI₂ (clampSeq_withinOrNaN hI _)
          (clampSeq_between hO ho₁ ho₂ _),
        slew_bounded_of_between hf hd hI₁ hI₂ (clampSeq_withinOrNaN hI _)
          (clampSeq_between hO ho₁ ho₂ _)⟩⟩

/-- C20, amended, at the state of the counterexample: output limits [-100, 100], integral
limits [-0.1, 0.1], held output 1 after Set_Output(1), and the call
Incremental_PID(100, 0), whose delta saturates at 0.1: the returned value is the binary64
sum 1 + 0.1. -/
theorem incremental_slew_between_witness :
    ((SlewBetween ((ctorReduced 1 0 0 0.1 (-0.1) 100 (-100)).Set_Output 1).2
        (((ctorReduced 1 0 0 0.1 (-0.1) 100 (-100)).Set_Output 1).2.Incremental_PID 100 0) ∧
      SlewBetween ((ctorReduced 1 0 0 0.1 (-0.1) 100 (-100)).Set_Output 1).2
        (((ctorReduced 1 0 0 0.1 (-0.1) 100 (-100)).Set_Output 1).2.Incremental_PID_DE
          100 0 3)) ∧
      (SlewBounded ((ctorReduced 1 0 0 0.1 (-0.1) 100 (-100)).Set_Output 1).2
        (((ctorReduced 1 0 0 0.1 (-0.1) 100 (-100)).Set_Output 1).2.Incremental_PID 100 0) ∧
      SlewBounded ((ctorReduced 1 0 0 0.1 (-0.1) 100 (-100)).Set_Output 1).2
        (((ctorReduced 1 0 0 0.1 (-0.1) 100 (-100)).Set_Output 1).2.Incremental_PID_DE
          100 0 3))) ∧
    (((ctorReduced 1 0 0 0.1 (-0.1) 100 (-100)).Set_Output 1).2.Incremental_PID 100 0).1
      = 1 + 0.1 :=
  ⟨⟨(incremental_slew_between _ (by decide) (by decide) (by decide) (by decide) (by decide)
        100 0 3).1,
      (incremental_slew_between _ (by decide) (by decide) (by decide) (by decide) (by decide)
        100 0 3).2 (by decide) (by decide)⟩,
    by decide⟩

/-! ## C6: the accumulated integral along a sequence of calls -/

theorem call_Integ_Max (s : PID_Controller) (c : Call) :
    (s.call c).2.Integ_Max = s.Integ_Max := by
  cases c <;> rfl

theorem call_Integ_Min (s : PID_Controller) (c : Call) :
    (s.call c).2.Integ_Min = s.Integ_Min := by
  cases c <;> rfl

theorem call_position_within (s : PID_Controller) (h : s.Integ_Min ≤ s.Integ_Max)
    (c : Call) (hc : c.isPosition = true) :
    WithinOrNaN s.Integ_Max s.Integ_Min (s.call c).2.Position_Integ_Term0 := by
  cases c with
  | Position x f => exact clampSeq_withinOrNaN h _
  | PositionDE x f d => exact clampSeq_withinOrNaN h _
  | Incremental x f => simp [Call.isPosition] at hc
  | IncrementalDE x f d => simp [Call.isPosition] at hc

theorem call_incremental_integral (s : PID_Controller) (c : Call)
    (hc : c.isPosition = false) :
    (s.call c).2.Position_Integ_Term0 = s.Position_Integ_Term0 := by
  cases c with
  | Position x f => simp [Call.isPosition] at hc
  | PositionDE x f d => simp [Call.isPosition] at hc
  | Incremental x f => rfl
  | IncrementalDE x f d => rfl

theorem call_within (s : PID_Controller) (h : s.Integ_Min ≤ s.Integ_Max)
    (hs : WithinOrNaN s.Integ_Max s.Integ_Min s.Position_Integ_Term0) (c : Call) :
    WithinOrNaN s.Integ_Max s.Integ_Min (s.call c).2.Position_Integ_Term0 := by
  cases hc : c.isPosition with
  | true => exact call_position_within s h c hc
  | false =>
    rw [call_incremental_integral s c hc]
    exact hs

theorem exec_within (cs : List Call) :
    ∀ s : PID_Controller, s.Integ_Min ≤ s.Integ_Max →
      WithinOrNaN s.Integ_Max s.Integ_Min s.Position_Integ_Term0 →
      WithinOrNaN s.Integ_Max s.Integ_Min (s.exec cs).Position_Integ_Term0 := by
  induction cs with
  | nil => intro s _ hs; exact hs
  | cons c cs ih =>
    intro s h hs
    have h2 := ih (s.call c).2 (by rw [call_Integ_Max, call_Integ_Min]; exact h)
      (by rw [call_Integ_Max, call_Integ_Min]; exact call_within s h hs c)
    rw [call_Integ_Max, call_Integ_Min] at h2
    exact h2

theorem exec_within_of_position (cs : List Call) :
    ∀ s : PID_Controller, s.Integ_Min ≤ s.Integ_Max → cs.any Call.isPosition = true →
      WithinOrNaN s.Integ_Max s.Integ_Min (s.exec cs).Position_Integ_Term0 := by
  induction cs with
  | nil => intro s _ hp; simp at hp
  | cons c cs ih =>
    intro s h hp
    have h1 : (s.call c).2.Integ_Min ≤ (s.call c).2.Integ_Max := by
      rw [call_Integ_Max, call_Integ_Min]; exact h
    cases hc : c.isPosition with
    | true =>
      have h2 := exec_within cs (s.call c).2 h1
        (by rw [call_Integ_Max, call_Integ_Min]; exact call_position_within s h c hc)
      rw [call_Integ_Max, call_Integ_Min] at h2
      exact h2
    | false =>
      have hp2 : cs.any Call.isPosition = true := by
        simpa [List.any_cons, hc] using hp
      have h2 := ih (s.call c).2 h1 hp2
      rw [call_Integ_Max, call_Integ_Min] at h2
      exact h2

theorem exec_integral_of_no_position (cs : List Call) :
    ∀ s : PID_Controller, cs.any Call.isPosition = false →
      (s.exec cs).Position_Integ_Term0 = s.Position_Integ_Term0 := by
  induction cs with
  | nil => intro s _; rfl
  | cons c cs ih =>
    intro s hp
    rw [List.any_cons, Bool.or_eq_false_iff] at hp
    rw [exec, ih _ hp.2, call_incremental_integral s c hp.1]

theorem fresh_integral {M m : Dbl} (s : PID_Controller) (hMax : s.Integ_Max = M)
    (hMin : s.Integ_Min = m) (h0 : s.Position_Integ_Term0 = 0) (h : m ≤ M)
    (cs : List Call) :
    (cs.any Call.isPosition = true → WithinOrNaN M m (s.exec cs).Position_Integ_Term0) ∧
    (cs.any Call.isPosition = false → (s.exec cs).Position_Integ_Term0 = 0) ∧
    (m ≤ 0 → 0 ≤ M → WithinOrNaN M m (s.exec cs).Position_Integ_Term0) := by
  subst hMax hMin
  refine ⟨fun hp => exec_within_of_position cs s h hp, fun hp => ?_, fun h1 h2 => ?_⟩
  · rw [exec_integral_of_no_position cs s hp, h0]
  · exact exec_within cs s h (Or.inr ⟨by rw [h0]; exact h1, by rw [h0]; exact h2⟩)

/-- C6, as stated, fails, in two ways. (1) Incremental_PID keeps no accumulated integral: a
controller built with Integ_Max = 2 and Integ_Min = 1 still has accumulated integral 0
after the call Incremental_PID(0, 0), and 0 is not in [1, 2]. (2) On doubles, the controller
ctorReduced(1, 0, 0, 10, -10, 5, -5) has Integ_Min ≤ Integ_Max and after
Position_PID(2^1023, -2^1023), whose arguments are finite, the accumulated integral is NaN
(Ki * (inf + 0) * 0.5 = 0 * inf * 0.5), which is not in [-10, 10]. -/
theorem integral_bound_counterexample :
    ((1 : Dbl) ≤ 2 ∧
      ((ctor 0 0 0 0 0 0 0 2 1 5 (-5)).exec [Call.Incremental 0 0]).Position_Integ_Term0 = 0 ∧
      ¬ Within 2 1
        ((ctor 0 0 0 0 0 0 0 2 1 5 (-5)).exec [Call.Incremental 0 0]).Position_Integ_Term0) ∧
    ((-10 : Dbl) ≤ 10 ∧
      ((ctorReduced 1 0 0 10 (-10) 5 (-5)).exec
        [Call.Position (Dbl.dyadic 1 1023) (-Dbl.dyadic 1 1023)]).Position_Integ_Term0
        = Dbl.nan ∧
      ¬ Within 10 (-10)
        ((ctorReduced 1 0 0 10 (-10) 5 (-5)).exec
          [Call.Position (Dbl.dyadic 1 1023) (-Dbl.dyadic 1 1023)]).Position_Integ_Term0) := by
  unfold Within
  decide

/-- C6, amended. For a controller built by either constructor with Integ_Min ≤ Integ_Max
and every finite sequence cs of control-law calls (Position_PID and Incremental_PID, either
overload, any mix, any arguments), in the state after cs: the accumulated integral
Position_Integ_Term[0] is NaN or in [Integ_Min, Integ_Max] if cs contains a Position_PID
call; it is still 0 if cs contains none; hence it is NaN or in [Integ_Min, Integ_Max] after
every call when Integ_Min ≤ 0 ≤ Integ_Max. -/
theorem integral_bound_reachable
    (KP KI KD KFF KFFB KFF_A KFFB_B Integral_Max Integral_Min Output_Max Output_Min : Dbl)
    (h : Integral_Min ≤ Integral_Max) (cs : List Call) :
    ((cs.any Call.isPosition = true →
        WithinOrNaN Integral_Max Integral_Min
          ((ctor KP KI KD KFF KFFB KFF_A KFFB_B Integral_Max Integral_Min Output_Max
            Output_Min).exec cs).Position_Integ_Term0) ∧
      (cs.any Call.isPosition = false →
        ((ctor KP KI KD KFF KFFB KFF_A KFFB_B Integral_Max Integral_Min Output_Max
          Output_Min).exec cs).Position_Integ_Term0 = 0) ∧
      (Integral_Min ≤ 0 → 0 ≤ Integral_Max →
        WithinOrNaN Integral_Max Integral_Min
          ((ctor KP KI KD KFF KFFB KFF_A KFFB_B Integral_Max Integral_Min Output_Max
            Output_Min).exec cs).Position_Integ_Term0)) ∧
    ((cs.any Call.isPosition = true →
        WithinOrNaN Integral_Max Integral_Min
          ((ctorReduced KP KI KD Integral_Max Integral_Min Output_Max
            Output_Min).exec cs).Position_Integ_Term0) ∧
      (cs.any Call.isPosition = false →
        ((ctorReduced KP KI KD Integral_Max Integral_Min Output_Max
          Output_Min).exec cs).Position_Integ_Term0 = 0) ∧
      (Integral_Min ≤ 0 → 0 ≤ Integral_Max →
        WithinOrNaN Integral_Max Integral_Min
          ((ctorReduced KP KI KD Integral_Max Integral_Min Output_Max
            Output_Min).exec cs).Position_Integ_Term0)) :=
  ⟨fresh_integral (ctor KP KI KD KFF KFFB KFF_A KFFB_B Integral_Max Integral_Min Output_Max
      Output_Min) rfl rfl rfl h cs,
    fresh_integral (ctorReduced KP KI KD Integral_Max Integral_Min Output_Max Output_Min)
      rfl rfl rfl h cs⟩

/-- C6, amended, at a concrete run: integral limits [1, 2], the calls Incremental_PID(0, 0),
Position_PID(5, 0), Incremental_PID(1, 1, 1). -/
theorem integral_bound_reachable_witness :
    (1 : Dbl) ≤ 2 ∧
    WithinOrNaN 2 1
      ((ctor 1 2 3 4 5 0.5 0.25 2 1 5 (-5)).exec
        [Call.Incremental 0 0, Call.Position 5 0, Call.IncrementalDE 1 1 1]).Position_Integ_Term0 :=
  ⟨by decide,
    (integral_bound_reachable 1 2 3 4 5 0.5 0.25 2 1 5 (-5) (by decide)
      [Call.Incremental 0 0, Call.Position 5 0, Call.IncrementalDE 1 1 1]).1.1 (by rfl)⟩

/-! ## C9: zero calls on a zeroed controller -/

theorem zero_call_fixed (s : PID_Controller) (hz : ZeroHistory s) (hg : FiniteGains s)
    (hI₁ : s.Integ_Min ≤ 0) (hI₂ : 0 ≤ s.Integ_Max) (hO₁ : s.Out_Min ≤ 0) (hO₂ : 0 ≤ s.Out_Max)
    (k : EntryPoint) : s.call k.zeroCall = (0, s) := by
  have hcI : clampSeq s.Integ_Max s.Integ_Min 0 = 0 := clampSeq_of_mem hI₁ hI₂
  have hcO : clampSeq s.Out_Max s.Out_Min 0 = 0 := clampSeq_of_mem hO₁ hO₂
  obtain ⟨⟨e0, e1, e2⟩, ⟨i0, i1, i2⟩, ⟨f0, f1, f2⟩, ⟨p0, p1, p2⟩, ⟨d0, d1, d2⟩, ⟨g0, g1, g2⟩,
    ⟨b0, b1, b2⟩, o, dl⟩ := hz
  obtain ⟨gp, gi, gd, ga, gb, gP, gQ⟩ := hg
  obtain ⟨kp, hp⟩ := (Dbl.isFinite_iff _).1 gp
  obtain ⟨ki, hi⟩ := (Dbl.isFinite_iff _).1 gi
  obtain ⟨kd, hd⟩ := (Dbl.isFinite_iff _).1 gd
  obtain ⟨ka, ha⟩ := (Dbl.isFinite_iff _).1 ga
  obtain ⟨kb, hb⟩ := (Dbl.isFinite_iff _).1 gb
  obtain ⟨kP, hP⟩ := (Dbl.isFinite_iff _).1 gP
  obtain ⟨kQ, hQ⟩ := (Dbl.isFinite_iff _).1 gQ
  cases s
  simp only at e0 e1 e2 i0 i1 i2 f0 f1 f2 p0 p1 p2 d0 d1 d2 g0 g1 g2 b0 b1 b2 o dl hcI hcO
  simp only at hp hi hd ha hb hP hQ
  subst e0 e1 e2 i0 i1 i2 f0 f1 f2 p0 p1 p2 d0 d1 d2 g0 g1 g2 b0 b1 b2 o dl hp hi hd ha hb
  cases k <;>
    simp only [EntryPoint.zeroCall, call, Position_PID_eq, Position_PID_DE_eq,
      Incremental_PID_eq, Incremental_PID_DE_eq, posOut, posState, incState, incDelta, integAcc,
      integStep, ffNew, ffbNew, hP, hQ, Dbl.zero_sub_zero, Dbl.zero_add_zero,
      Dbl.zero_mul_zero, Dbl.zero_mul_half, Dbl.two_mul_zero, Dbl.mul_zero_fin, hcI, hcO]

theorem zero_run_fixed (s : PID_Controller) (hz : ZeroHistory s) (hg : FiniteGains s)
    (hI₁ : s.Integ_Min ≤ 0) (hI₂ : 0 ≤ s.Integ_Max) (hO₁ : s.Out_Min ≤ 0) (hO₂ : 0 ≤ s.Out_Max)
    (ks : List EntryPoint) :
    ∀ r ∈ s.run (ks.map EntryPoint.zeroCall), r = (0, s) := by
  induction ks with
  | nil => intro r hr; simp [run] at hr
  | cons k ks ih =>
    intro r hr
    rw [List.map_cons, run, zero_call_fixed s hz hg hI₁ hI₂ hO₁ hO₂ k] at hr
    rcases List.mem_cons.1 hr with h | h
    · exact h
    · exact ih r h

theorem zeroHistory_ctor
    (KP KI KD KFF KFFB KFF_A KFFB_B Integral_Max Integral_Min Output_Max Output_Min : Dbl) :
    ZeroHistory
      (ctor KP KI KD KFF KFFB KFF_A KFFB_B Integral_Max Integral_Min Output_Max Output_Min) := by
  simp [ZeroHistory, ctor, init]

theorem zeroHistory_clear_setLimits (t : PID_Controller)
    (Integral_Max Integral_Min Output_Max Output_Min : Dbl) :
    ZeroHistory (t.Clear.setLimits Integral_Max Integral_Min Output_Max Output_Min) := by
  simp [ZeroHistory, Clear, PID_Controller.setLimits]

/-- C9, as stated for arbitrary gains, fails on doubles: the fresh controller
ctor(1, 1, 1, 1e308, 0, -10, 0, 100, -100, 100, -100) has zero history and limits around 0,
yet Position_PID(0, 0) computes (1 - Kff_Alpha) * Kff = 11 * 1e308 = +inf and
inf * (In[0] - In[1]) = inf * 0 = NaN, and returns NaN, not 0. -/
theorem zero_calls_counterexample :
    ZeroHistory (ctor 1 1 1 1e308 0 (-10) 0 100 (-100) 100 (-100)) ∧
    ((ctor 1 1 1 1e308 0 (-10) 0 100 (-100) 100 (-100)).Integ_Min ≤ 0 ∧
      0 ≤ (ctor 1 1 1 1e308 0 (-10) 0 100 (-100) 100 (-100)).Integ_Max ∧
      (ctor 1 1 1 1e308 0 (-10) 0 100 (-100) 100 (-100)).Out_Min ≤ 0 ∧
      0 ≤ (ctor 1 1 1 1e308 0 (-10) 0 100 (-100) 100 (-100)).Out_Max) ∧
    ((1e308 : Dbl).isFinite = true ∧ (1e308 : Dbl).IsDouble) ∧
    ((ctor 1 1 1 1e308 0 (-10) 0 100 (-100) 100 (-100)).Position_PID 0 0).1 = Dbl.nan ∧
    ((ctor 1 1 1 1e308 0 (-10) 0 100 (-100) 100 (-100)).Position_PID 0 0).1 ≠ 0 :=
  ⟨zeroHistory_ctor _ _ _ _ _ _ _ _ _ _ _, by decide, by decide, by decide, by decide⟩

/-- C9, amended. For a controller whose history, held output and held delta are all zero,
whose gains Kp, Ki, Kd, Kff_Alpha, Kffb_Beta are finite, with finite binary64 products
(1 - Kff_Alpha) * Kff and (1 - Kffb_Beta) * Kffb, and whose
limits satisfy Integ_Min ≤ 0 ≤ Integ_Max and Out_Min ≤ 0 ≤ Out_Max, every call in any finite
sequence of Position_PID(0, 0), Position_PID(0, 0, 0), Incremental_PID(0, 0) and
Incremental_PID(0, 0, 0) calls returns 0 and leaves the controller state, so its history,
output and delta, as it was. -/
theorem zero_calls_return_zero (s : PID_Controller) (hz : ZeroHistory s) (hg : FiniteGains s)
    (hI₁ : s.Integ_Min ≤ 0) (hI₂ : 0 ≤ s.Integ_Max) (hO₁ : s.Out_Min ≤ 0) (hO₂ : 0 ≤ s.Out_Max)
    (ks : List EntryPoint) :
    ∀ r ∈ s.run (ks.map EntryPoint.zeroCall), r.1 = 0 ∧ r.2 = s ∧ ZeroHistory r.2 := by
  intro r hr
  rw [zero_run_fixed s hz hg hI₁ hI₂ hO₁ hO₂ ks r hr]
  exact ⟨rfl, rfl, hz⟩

/-- C9, amended, at the limits Integ_Max = 100, Integ_Min = -100, Out_Max = 100,
Out_Min = -100: on a freshly constructed controller, and on a controller after Clear()
followed by re-setting those limits, the calls Position_PID(0, 0), Incremental_PID(0, 0),
Position_PID(0, 0, 0), Incremental_PID(0, 0, 0) all return 0 and leave the state
unchanged. -/
theorem zero_calls_return_zero_witness :
    (∀ r ∈ (ctor 1 2 3 4 5 0.5 0.25 100 (-100) 100 (-100)).run
        ([EntryPoint.Position, EntryPoint.Incremental, EntryPoint.PositionDE,
          EntryPoint.IncrementalDE].map EntryPoint.zeroCall),
      r.1 = 0 ∧ r.2 = ctor 1 2 3 4 5 0.5 0.25 100 (-100) 100 (-100) ∧ ZeroHistory r.2) ∧
    (∀ r ∈ (((ctor 1 2 3 4 5 0.5 0.25 7 (-7) 9 (-9)).Position_PID 3 1).2.Clear.setLimits
          100 (-100) 100 (-100)).run
        ([EntryPoint.Position, EntryPoint.Incremental, EntryPoint.PositionDE,
          EntryPoint.IncrementalDE].map EntryPoint.zeroCall),
      r.1 = 0 ∧
        r.2 = ((ctor 1 2 3 4 5 0.5 0.25 7 (-7) 9 (-9)).Position_PID 3 1).2.Clear.setLimits
          100 (-100) 100 (-100) ∧
        ZeroHistory r.2) :=
  ⟨zero_calls_return_zero _ (zeroHistory_ctor _ _ _ _ _ _ _ _ _ _ _)
      (by unfold FiniteGains; decide) (by decide) (by decide) (by decide) (by decide) _,
    zero_calls_return_zero _ (zeroHistory_clear_setLimits _ _ _ _ _)
      (by unfold FiniteGains; decide) (by decide) (by decide) (by decide) (by decide) _⟩

/-! ## C16: decay of the feedforward term under a constant input -/

theorem call_Ff_Term0 (s : PID_Controller) (c : Call) :
    (s.call c).2.Ff_Term0 = s.ffNew c.Input := by
  cases c <;> rfl

theorem call_In0 (s : PID_Controller) (c : Call) : (s.call c).2.In0 = c.Input := by
  cases c <;> rfl

theorem call_Kff_Alpha (s : PID_Controller) (c : Call) :
    (s.call c).2.Kff_Alpha = s.Kff_Alpha := by
  cases c <;> rfl

theorem call_Kff (s : PID_Controller) (c : Call) : (s.call c).2.Kff = s.Kff := by
  cases c <;> rfl

theorem ffNew_const (s : PID_Controller) (hin : s.In0.isFinite = true)
    (hP : ((1 - s.Kff_Alpha) * s.Kff).isFinite = true) :
    s.ffNew s.In0 = s.Kff_Alpha * s.Ff_Term0 := by
  obtain ⟨k, hk⟩ := (Dbl.isFinite_iff _).1 hin
  obtain ⟨p, hp⟩ := (Dbl.isFinite_iff _).1 hP
  rw [ffNew, hp, hk, Dbl.sub_self_fin, Dbl.mul_zero_fin, Dbl.zero_add (Dbl.isDouble_mul _ _)]

theorem exec_Ff_Term0 (cs : List Call) : ∀ s : PID_Controller, s.In0.isFinite = true →
    ((1 - s.Kff_Alpha) * s.Kff).isFinite = true → (∀ c ∈ cs, c.Input = s.In0) →
    (s.exec cs).Ff_Term0 = (fun F => s.Kff_Alpha * F)^[cs.length] s.Ff_Term0 := by
  induction cs with
  | nil => intro s _ _ _; rfl
  | cons c cs ih =>
    intro s hin hP h
    have hc : c.Input = s.In0 := h c (List.mem_cons_self _ _)
    have h1 := ih (s.call c).2 (by rw [call_In0, hc]; exact hin)
      (by rw [call_Kff_Alpha, call_Kff]; exact hP)
      (fun d hd => by rw [call_In0, hc]; exact h d (List.mem_cons_of_mem _ hd))
    rw [exec, h1, call_Kff_Alpha, call_Ff_Term0, hc, ffNew_const s hin hP, List.length_cons,
      Function.iterate_succ_apply]

theorem iterate_zero_mul (k : Int) (n : Nat) :
    (fun F : Dbl => 0 * F)^[n + 1] (Dbl.fin k) = 0 := by
  induction n with
  | zero => rw [Function.iterate_succ_apply', Function.iterate_zero_apply, Dbl.zero_mul_fin]
  | succ n ih => rw [Function.iterate_succ_apply', ih, Dbl.zero_mul_zero]

/-- C16, as stated for every controller state, fails on doubles. (1) With the finite gain
Kff = 1e308 and Kff_Alpha = 0, the call Position_PID(10, 0) on the fresh controller stores
Ff_Term[0] = 1e308 * 10 = +inf, and the next call with the same input 10 stores
1e308 * (10 - 10) + 0 * inf = NaN: the feedforward term is not 0 on the call after the one
where the input changed. (2) With Kff = 1 and Kff_Alpha = 0.7, in the state after
Position_PID(3, 0), two further calls with input 3 store 0.7 * (0.7 * F), each product
rounded, which is neither the binary64 value of 0.7 * 0.7 * F nor the exact product
Kff_Alpha^2 * F (compared in units of 2^-1074). -/
theorem feedforward_decay_counterexample :
    (((ctor 1 1 1 1e308 0 0 0 100 (-100) 100 (-100)).Position_PID 10 0).2.In0 = 10 ∧
      ((ctor 1 1 1 1e308 0 0 0 100 (-100) 100 (-100)).Position_PID 10 0).2.Kff_Alpha = 0 ∧
      ((ctor 1 1 1 1e308 0 0 0 100 (-100) 100 (-100)).Position_PID 10 0).2.Ff_Term0
        = Dbl.pinf ∧
      ((ctor 1 1 1 1e308 0 0 0 100 (-100) 100 (-100)).exec
        [Call.Position 10 0, Call.Position 10 0]).Ff_Term0 = Dbl.nan ∧
      ((ctor 1 1 1 1e308 0 0 0 100 (-100) 100 (-100)).exec
        [Call.Position 10 0, Call.Position 10 0]).Ff_Term0 ≠ 0) ∧
    (((ctor 1 1 1 1 0 0.7 0 100 (-100) 100 (-100)).Position_PID 3 0).2.In0 = 3 ∧
      (((ctor 1 1 1 1 0 0.7 0 100 (-100) 100 (-100)).Position_PID 3 0).2.exec
        [Call.Position 3 0, Call.Position 3 0]).Ff_Term0
        ≠ 0.7 * 0.7 * ((ctor 1 1 1 1 0 0.7 0 100 (-100) 100 (-100)).Position_PID 3 0).2.Ff_Term0 ∧
      (((ctor 1 1 1 1 0 0.7 0 100 (-100) 100 (-100)).Position_PID 3 0).2.exec
        [Call.Position 3 0, Call.Position 3 0]).Ff_Term0.isFinite = true ∧
      (((ctor 1 1 1 1 0 0.7 0 100 (-100) 100 (-100)).Position_PID 3 0).2.exec
        [Call.Position 3 0, Call.Position 3 0]).Ff_Term0.units * ((2 ^ 2148 : Nat) : Int)
        ≠ (0.7 : Dbl).units * (0.7 : Dbl).units
          * ((ctor 1 1 1 1 0 0.7 0 100 (-100) 100 (-100)).Position_PID 3 0).2.Ff_Term0.units) := by
  decide

/-- C16, amended. For every controller state whose In[0] is finite and whose product
(1 - Kff_Alpha) * Kff, as the code computes it, is finite: a control-law call (Position_PID
or Incremental_PID, either overload) made with Input equal to the current In[0] stores
Ff_Term[0] = Kff_Alpha * (old Ff_Term[0]), the binary64 product; hence after n >= 0
consecutive calls that hold the input constant Ff_Term[0] is the value obtained from F, its
value before those calls, by multiplying n times by Kff_Alpha, each product rounded to
binary64; and with Kff_Alpha = 0 and F finite the feedforward term is 0 after every call
from the first on. -/
theorem feedforward_decay (s : PID_Controller) (cs : List Call)
    (hin : s.In0.isFinite = true) (hP : ((1 - s.Kff_Alpha) * s.Kff).isFinite = true)
    (h : ∀ c ∈ cs, c.Input = s.In0) :
    (∀ c : Call, c.Input = s.In0 → (s.call c).2.Ff_Term0 = s.Kff_Alpha * s.Ff_Term0) ∧
    (s.exec cs).Ff_Term0 = (fun F => s.Kff_Alpha * F)^[cs.length] s.Ff_Term0 ∧
    (s.Kff_Alpha = 0 → s.Ff_Term0.isFinite = true → cs ≠ [] → (s.exec cs).Ff_Term0 = 0) := by
  refine ⟨fun c hc => ?_, exec_Ff_Term0 cs s hin hP h, fun ha hF hcs => ?_⟩
  · rw [call_Ff_Term0, hc, ffNew_const s hin hP]
  · obtain ⟨k, hk⟩ := (Dbl.isFinite_iff _).1 hF
    obtain ⟨n, hn⟩ := Nat.exists_eq_succ_of_ne_zero (mt List.length_eq_zero.1 hcs)
    rw [exec_Ff_Term0 cs s hin hP h, ha, hk, hn]
    exact iterate_zero_mul k n

/-- C16, amended, on two states. (1) The state reached by Position_PID(1, 0) from the fresh
controller with Kff = 1 and Kff_Alpha = 0.5 (Ff_Term[0] = 0.5), for the four kinds of call
made with the constant input 1: the term is 2^-5 after all four. (2) The state reached by
Position_PID(1, 0) from the fresh controller with Kff = 3 and Kff_Alpha = 0
(Ff_Term[0] = 3): the term is 0 after the same four calls. -/
theorem feedforward_decay_witness :
    (((ctor 1 1 1 1 0 0.5 0 100 (-100) 100 (-100)).Position_PID 1 0).2.Ff_Term0 = 0.5 ∧
      (((ctor 1 1 1 1 0 0.5 0 100 (-100) 100 (-100)).Position_PID 1 0).2.exec
          [Call.Position 1 0, Call.Incremental 1 2, Call.PositionDE 1 3 4,
            Call.IncrementalDE 1 5 6]).Ff_Term0
        = (fun F =>
            ((ctor 1 1 1 1 0 0.5 0 100 (-100) 100 (-100)).Position_PID 1 0).2.Kff_Alpha * F)^[
          [Call.Position 1 0, Call.Incremental 1 2, Call.PositionDE 1 3 4,
            Call.IncrementalDE 1 5 6].length]
          ((ctor 1 1 1 1 0 0.5 0 100 (-100) 100 (-100)).Position_PID 1 0).2.Ff_Term0 ∧
      (((ctor 1 1 1 1 0 0.5 0 100 (-100) 100 (-100)).Position_PID 1 0).2.exec
        [Call.Position 1 0, Call.Incremental 1 2, Call.PositionDE 1 3 4,
          Call.IncrementalDE 1 5 6]).Ff_Term0 = Dbl.dyadic 1 (-5)) ∧
    (((ctor 1 1 1 3 0 0 0 100 (-100) 100 (-100)).Position_PID 1 0).2.Ff_Term0 = 3 ∧
      ((((ctor 1 1 1 3 0 0 0 100 (-100) 100 (-100)).Position_PID 1 0).2.call
          (Call.Incremental 1 2)).2.Ff_Term0
        = ((ctor 1 1 1 3 0 0 0 100 (-100) 100 (-100)).Position_PID 1 0).2.Kff_Alpha
          * ((ctor 1 1 1 3 0 0 0 100 (-100) 100 (-100)).Position_PID 1 0).2.Ff_Term0) ∧
      (((ctor 1 1 1 3 0 0 0 100 (-100) 100 (-100)).Position_PID 1 0).2.exec
        [Call.Position 1 0, Call.Incremental 1 2, Call.PositionDE 1 3 4,
          Call.IncrementalDE 1 5 6]).Ff_Term0 = 0) :=
  ⟨⟨by decide,
      (feedforward_decay ((ctor 1 1 1 1 0 0.5 0 100 (-100) 100 (-100)).Position_PID 1 0).2
        [Call.Position 1 0, Call.Incremental 1 2, Call.PositionDE 1 3 4,
          Call.IncrementalDE 1 5 6] (by decide) (by decide) (by decide)).2.1,
      by decide⟩,
    ⟨by decide,
      (feedforward_decay ((ctor 1 1 1 3 0 0 0 100 (-100) 100 (-100)).Position_PID 1 0).2
        [Call.Position 1 0, Call.Incremental 1 2, Call.PositionDE 1 3 4,
          Call.IncrementalDE 1 5 6] (by decide) (by decide) (by decide)).1
        (Call.Incremental 1 2) (by decide),
      (feedforward_decay ((ctor 1 1 1 3 0 0 0 100 (-100) 100 (-100)).Position_PID 1 0).2
        [Call.Position 1 0, Call.Incremental 1 2, Call.PositionDE 1 3 4,
          Call.IncrementalDE 1 5 6] (by decide) (by decide) (by decide)).2.2
        (by decide) (by decide) (List.cons_ne_nil _ _)⟩⟩

/-! ## C19: the two laws side by side -/

theorem isClassic_controller (p : Classic) : IsClassic p p.controller :=
  ⟨rfl, rfl, rfl, rfl, rfl, rfl, rfl, rfl, rfl, rfl, rfl⟩

theorem classic_ffNew {p : Classic} {s : PID_Controller} (hc : IsClassic p s)
    (hKd : p.Kd.IsDouble) (hF : s.Ff_Term0.isFinite = true) (x : Dbl) :
    s.ffNew x = p.Kd * (x - s.In0) := by
  obtain ⟨-, -, -, hff, -, ha, -⟩ := hc
  obtain ⟨k, hk⟩ := (Dbl.isFinite_iff _).1 hF
  rw [ffNew, ha, hff, hk, Dbl.one_sub_zero, Dbl.one_mul hKd, Dbl.zero_mul_fin,
    Dbl.add_zero (Dbl.isDouble_mul _ _)]

theorem classic_ffbNew {p : Classic} {s : PID_Controller} (hc : IsClassic p s)
    (hB : s.Ffb_Term0 = 0) (x : Dbl) (hsd : (x - 2.0 * s.In0 + s.In1).isFinite = true) :
    s.ffbNew x = 0 := by
  obtain ⟨-, -, -, -, hffb, -, hb, -⟩ := hc
  obtain ⟨k, hk⟩ := (Dbl.isFinite_iff _).1 hsd
  rw [ffbNew, hb, hffb, hB, hk, Dbl.one_sub_zero, Dbl.one_mul_zero, Dbl.zero_mul_fin,
    Dbl.zero_mul_zero, Dbl.zero_add_zero]

theorem classic_integAcc {p : Classic} {s : PID_Controller} (hc : IsClassic p s) (x f : Dbl) :
    s.integAcc x f = p.integral s.Position_Integ_Term0 s.Err0 (x - f) := by
  obtain ⟨-, hki, -, -, -, -, -, hIM, hIm, -, -⟩ := hc
  rw [integAcc, integStep, Classic.integral, hki, hIM, hIm]

theorem isClassic_posState {p : Classic} {s : PID_Controller} (hc : IsClassic p s)
    (x f D : Dbl) : IsClassic p (s.posState x f D) := hc

theorem isClassic_incState {p : Classic} {s : PID_Controller} (hc : IsClassic p s)
    (x f D : Dbl) : IsClassic p (s.incState x f D) := hc

theorem classic_posOut {p : Classic} {s : PID_Controller} (hc : IsClassic p s)
    (hKd : p.Kd.IsDouble) (hF : s.Ff_Term0.isFinite = true) (hB : s.Ffb_Term0 = 0) (x f : Dbl)
    (hsd : (x - 2.0 * s.In0 + s.In1).isFinite = true) :
    s.posOut x f (s.Kd * (f - s.Fb0))
      = clampSeq p.Out_Max p.Out_Min
          (p.Kp * (x - f) + p.integral s.Position_Integ_Term0 s.Err0 (x - f)
            - p.Kd * (f - s.Fb0) + p.Kd * (x - s.In0)) := by
  rw [posOut, classic_ffNew hc hKd hF, classic_ffbNew hc hB x hsd, classic_integAcc hc,
    Dbl.add_zero (Dbl.isDouble_add _ _)]
  obtain ⟨hkp, -, hkd, -, -, -, -, -, -, hOM, hOm⟩ := hc
  rw [hkp, hkd, hOM, hOm]

theorem positionOutputs_cons (s : PID_Controller) (q : Dbl × Dbl) (xs : List (Dbl × Dbl)) :
    s.positionOutputs (q :: xs)
      = (s.Position_PID q.1 q.2).1 :: (s.Position_PID q.1 q.2).2.positionOutputs xs := rfl

theorem classic_position_run (p : Classic) (hKd : p.Kd.IsDouble) (xs : List (Dbl × Dbl)) :
    ∀ s : PID_Controller, IsClassic p s → s.Ff_Term0.isFinite = true → s.Ffb_Term0 = 0 →
      Tame p.Kd s.In0 s.In1 xs →
      s.positionOutputs xs
        = p.refFeedbackFf s.Err0 s.In0 s.Fb0 s.Position_Integ_Term0 xs := by
  induction xs with
  | nil => intro s _ _ _ _; rfl
  | cons q xs ih =>
    intro s hc hF hB ht
    obtain ⟨x, f⟩ := q
    obtain ⟨hsd, hff, ht⟩ := ht
    have h1 := ih (s.posState x f (s.Kd * (f - s.Fb0))) (isClassic_posState hc _ _ _)
      (by show (s.ffNew x).isFinite = true; rw [classic_ffNew hc hKd hF]; exact hff)
      (classic_ffbNew hc hB x hsd) ht
    rw [positionOutputs_cons, Position_PID_eq, h1, classic_posOut hc hKd hF hB x f hsd]
    show _ = _ :: p.refFeedbackFf (x - f) x f (p.integral s.Position_Integ_Term0 s.Err0 (x - f)) xs
    rw [← classic_integAcc hc]
    rfl

/-- C2, as the spec states it, fails: with Kp = 0, Ki = 0, Kd = 1 and limits [-100, 100] the
first call Position_PID(1, 0) of the reduced-constructor controller returns 1 (the
feedforward term Kd * (1 - 0), because the reduced constructor sets Kff = Kd), while the
reference derivative-on-feedback PID gives u_1 = 0. -/
theorem classic_equivalence_counterexample :
    (Classic.mk 0 0 1 100 (-100) 100 (-100)).controller.positionOutputs [(1, 0)] = [1] ∧
    (Classic.mk 0 0 1 100 (-100) 100 (-100)).refFeedback 0 0 0 [(1, 0)] = [0] ∧
    (Classic.mk 0 0 1 100 (-100) 100 (-100)).controller.positionOutputs [(1, 0)]
      ≠ (Classic.mk 0 0 1 100 (-100) 100 (-100)).refFeedback 0 0 0 [(1, 0)] := by
  decide

/-- C2, amended. For a controller built with the reduced constructor from gains and limits
that are doubles, and every sequence of Position_PID(input_n, feedback_n) calls on it whose
second input differences input_n - 2.0*input_{n-1} + input_{n-2} and feedforward products
Kd*(input_n - input_{n-1}) are finite in binary64, the n-th returned value equals
u_n = clampOut(Kp*e_n + I_n - Kd*(feedback_n - feedback_{n-1}) + Kd*(input_n - input_{n-1})),
every operation rounded to binary64 and taken from left to right, where
e_n = input_n - feedback_n, I_n = clampI(I_{n-1} + clampI(Ki*(e_n + e_{n-1})*0.5)),
e_0 = input_0 = feedback_0 = I_0 = 0, and clampX(v) is
'if v > Max then Max; if v < Min then Min'. -/
theorem classic_equivalence_ff (p : Classic) (hKd : p.Kd.IsDouble) (xs : List (Dbl × Dbl))
    (ht : Tame p.Kd 0 0 xs) :
    p.controller.positionOutputs xs = p.refFeedbackFf 0 0 0 0 xs :=
  classic_position_run p hKd xs p.controller (isClassic_controller p) rfl rfl ht

/-- C2, amended, at Kp = 0.1, Ki = 2, Kd = 0.1, integral limits [-10, 10], output limits
[-5, 5] and the samples (3, 1), (4, 1), (4, 5); both sides are
[2.4000000000000004, 5, 5] (the first is 1351079888211149 * 2^-49, the last two are
clamped). -/
theorem classic_equivalence_ff_witness :
    (Classic.mk 0.1 2 0.1 10 (-10) 5 (-5)).controller.positionOutputs [(3, 1), (4, 1), (4, 5)]
      = (Classic.mk 0.1 2 0.1 10 (-10) 5 (-5)).refFeedbackFf 0 0 0 0 [(3, 1), (4, 1), (4, 5)] ∧
    (Classic.mk 0.1 2 0.1 10 (-10) 5 (-5)).controller.positionOutputs [(3, 1), (4, 1), (4, 5)]
      = [Dbl.dyadic 1351079888211149 (-49), 5, 5] :=
  ⟨classic_equivalence_ff (Classic.mk 0.1 2 0.1 10 (-10) 5 (-5)) (by decide)
      [(3, 1), (4, 1), (4, 5)] (by unfold Tame Tame Tame Tame; decide),
    by decide⟩

/-- C3, as stated, fails on doubles: for the reduced-constructor controller with Kp = 0,
Ki = 0, Kd = 0.1 and limits [-100, 100], the first call Position_PID(3, 1) returns
0.20000000000000004 (7205759403792795 * 2^-55): the code computes
-Kd*(1 - 0) + Kd*(3 - 0) with each product rounded. The textbook PID with the derivative on
the error gives Kd*(2 - 0) = 0.2 (7205759403792794 * 2^-55), which is also the exact
value 2 * Kd. -/
theorem error_derivative_counterexample :
    (ctorReduced 0 0 0.1 100 (-100) 100 (-100)).positionOutputs [(3, 1)]
      = [Dbl.dyadic 7205759403792795 (-55)] ∧
    (Classic.mk 0 0 0.1 100 (-100) 100 (-100)).refError 0 0 [(3, 1)]
      = [Dbl.dyadic 7205759403792794 (-55)] ∧
    (ctorReduced 0 0 0.1 100 (-100) 100 (-100)).positionOutputs [(3, 1)]
      ≠ (Classic.mk 0 0 0.1 100 (-100) 100 (-100)).refError 0 0 [(3, 1)] ∧
    ((ctorReduced 0 0 0.1 100 (-100) 100 (-100)).Position_PID 3 1).1.isFinite = true ∧
    ((ctorReduced 0 0 0.1 100 (-100) 100 (-100)).Position_PID 3 1).1.units
      ≠ 2 * (0.1 : Dbl).units := by
  decide

/-- C3, amended. For a freshly constructed controller with Kff = Kd and
Kffb = Kff_Alpha = Kffb_Beta = 0 (in particular one built by the reduced constructor), Kd a
double, and every sequence of Position_PID(input_n, feedback_n) calls whose second input
differences input_n - 2.0*input_{n-1} + input_{n-2} and feedforward products
Kd*(input_n - input_{n-1}) are finite in binary64, the n-th returned value equals
u_n = clampOut(Kp*e_n + I_n - Kd*(feedback_n - feedback_{n-1}) + Kd*(input_n - input_{n-1})),
every operation rounded to binary64 and taken from left to right (in exact arithmetic this
is Kp*e_n + I_n + Kd*(e_n - e_{n-1}), the textbook PID with the derivative on the error),
where e_n = input_n - feedback_n, I_n = clampI(I_{n-1} + clampI(Ki*(e_n + e_{n-1})*0.5)),
e_0 = input_0 = feedback_0 = I_0 = 0. -/
theorem error_derivative_ff
    (KP KI KD Integral_Max Integral_Min Output_Max Output_Min : Dbl) (hKd : KD.IsDouble)
    (xs : List (Dbl × Dbl)) (ht : Tame KD 0 0 xs) :
    (ctor KP KI KD KD 0 0 0 Integral_Max Integral_Min Output_Max Output_Min).positionOutputs xs
      = (Classic.mk KP KI KD Integral_Max Integral_Min Output_Max Output_Min).refFeedbackFf
          0 0 0 0 xs ∧
    (ctorReduced KP KI KD Integral_Max Integral_Min Output_Max Output_Min).positionOutputs xs
      = (Classic.mk KP KI KD Integral_Max Integral_Min Output_Max Output_Min).refFeedbackFf
          0 0 0 0 xs :=
  ⟨classic_position_run (Classic.mk KP KI KD Integral_Max Integral_Min Output_Max Output_Min)
      hKd xs _ ⟨rfl, rfl, rfl, rfl, rfl, rfl, rfl, rfl, rfl, rfl, rfl⟩ rfl rfl ht,
    classic_position_run (Classic.mk KP KI KD Integral_Max Integral_Min Output_Max Output_Min)
      hKd xs _ ⟨rfl, rfl, rfl, rfl, rfl, rfl, rfl, rfl, rfl, rfl, rfl⟩ rfl rfl ht⟩

/-- C3, amended, at the scenario of the claim: Kp = 1, Ki = 0, Kd = 0, limits [-100, 100]:
Position_PID(10, 0) = 10, then Position_PID(10, 5) = 5, for the full constructor with
Kff = Kd and for the reduced constructor; here the textbook PID with the derivative on the
error gives the same two values. -/
theorem error_derivative_ff_witness :
    ((ctor 1 0 0 0 0 0 0 100 (-100) 100 (-100)).positionOutputs [(10, 0), (10, 5)]
        = (Classic.mk 1 0 0 100 (-100) 100 (-100)).refFeedbackFf 0 0 0 0 [(10, 0), (10, 5)] ∧
      (ctorReduced 1 0 0 100 (-100) 100 (-100)).positionOutputs [(10, 0), (10, 5)]
        = (Classic.mk 1 0 0 100 (-100) 100 (-100)).refFeedbackFf 0 0 0 0 [(10, 0), (10, 5)]) ∧
    (ctorReduced 1 0 0 100 (-100) 100 (-100)).positionOutputs [(10, 0), (10, 5)] = [10, 5] ∧
    (Classic.mk 1 0 0 100 (-100) 100 (-100)).refError 0 0 [(10, 0), (10, 5)] = [10, 5] :=
  ⟨error_derivative_ff 1 0 0 100 (-100) 100 (-100) (by decide) [(10, 0), (10, 5)]
      (by unfold Tame Tame Tame; decide),
    by decide, by decide⟩

/-! ## C4: the incremental law of a classic controller -/

theorem incrementalTrace_cons (s : PID_Controller) (q : Dbl × Dbl) (xs : List (Dbl × Dbl)) :
    s.incrementalTrace (q :: xs)
      = ((s.Incremental_PID q.1 q.2).2.Delta_Out, (s.Incremental_PID q.1 q.2).1)
          :: (s.Incremental_PID q.1 q.2).2.incrementalTrace xs := rfl

theorem classic_incDelta {p : Classic} {s : PID_Controller} (hc : IsClassic p s)
    (hKd : p.Kd.IsDouble) (hF : s.Ff_Term0.isFinite = true) (hB : s.Ffb_Term0 = 0) (x f : Dbl)
    (hsd : (x - 2.0 * s.In0 + s.In1).isFinite = true) :
    s.incDelta x f (s.Kd * (f - s.Fb0))
      = clampSeq p.Integ_Max p.Integ_Min
          (p.Kp * (x - f - s.Err0)
            + clampSeq p.Integ_Max p.Integ_Min (p.Ki * (x - f + s.Err0) * 0.5)
            - (p.Kd * (f - s.Fb0) - s.Diff_Term0) + (p.Kd * (x - s.In0) - s.Ff_Term0)) := by
  rw [incDelta, integStep, classic_ffNew hc hKd hF, classic_ffbNew hc hB x hsd, hB,
    Dbl.zero_sub_zero, Dbl.add_zero (Dbl.isDouble_add _ _)]
  obtain ⟨hkp, hki, hkd, -, -, -, -, hIM, hIm, -, -⟩ := hc
  rw [hkp, hki, hkd, hIM, hIm]

theorem classic_incremental_run (p : Classic) (hKd : p.Kd.IsDouble) (xs : List (Dbl × Dbl)) :
    ∀ s : PID_Controller, IsClassic p s → s.Ff_Term0.isFinite = true → s.Ffb_Term0 = 0 →
      Tame p.Kd s.In0 s.In1 xs →
      s.incrementalTrace xs
        = p.refIncrementalFf s.Err0 s.In0 s.Fb0 s.Diff_Term0 s.Ff_Term0 s.Out xs := by
  induction xs with
  | nil => intro s _ _ _ _; rfl
  | cons q xs ih =>
    intro s hc hF hB ht
    obtain ⟨x, f⟩ := q
    obtain ⟨hsd, hff, ht⟩ := ht
    have hffn : s.ffNew x = p.Kd * (x - s.In0) := classic_ffNew hc hKd hF x
    have h1 := ih (s.incState x f (s.Kd * (f - s.Fb0))) (isClassic_incState hc _ _ _)
      (by show (s.ffNew x).isFinite = true; rw [hffn]; exact hff)
      (classic_ffbNew hc hB x hsd) ht
    have hd := classic_incDelta hc hKd hF hB x f hsd
    have hkd : s.Kd = p.Kd := hc.2.2.1
    have hOM : s.Out_Max = p.Out_Max := hc.2.2.2.2.2.2.2.2.2.1
    have hOm : s.Out_Min = p.Out_Min := hc.2.2.2.2.2.2.2.2.2.2
    rw [incrementalTrace_cons, Incremental_PID_eq, h1]
    show (s.incDelta x f (s.Kd * (f - s.Fb0)),
        clampSeq s.Out_Max s.Out_Min (s.Out + s.incDelta x f (s.Kd * (f - s.Fb0))))
      :: p.refIncrementalFf (x - f) x f (s.Kd * (f - s.Fb0)) (s.ffNew x)
          (clampSeq s.Out_Max s.Out_Min (s.Out + s.incDelta x f (s.Kd * (f - s.Fb0)))) xs = _
    rw [hd, hffn, hkd, hOM, hOm]
    rfl

/-- C4, as stated, fails on doubles: for the reduced-constructor controller with Kp = 0,
Ki = 0, Kd = 0.1 and limits [-100, 100] fed (3, 1) then (4, 1), the stored deltas are
7205759403792795 * 2^-55 and -7205759403792796 * 2^-56 (the code rounds Kd*(feedback
difference) and Kd*(input difference) separately and then subtracts the previous terms),
while the textbook form Kd*(e_n - 2*e_{n-1} + e_{n-2}) gives 7205759403792794 * 2^-55 and
-7205759403792794 * 2^-56, so already the first delta and the first returned value
differ. -/
theorem incremental_degeneration_counterexample :
    (ctorReduced 0 0 0.1 100 (-100) 100 (-100)).incrementalTrace [(3, 1), (4, 1)]
      = [(Dbl.dyadic 7205759403792795 (-55), Dbl.dyadic 7205759403792795 (-55)),
          (Dbl.dyadic (-7205759403792796) (-56), Dbl.dyadic 7205759403792794 (-56))] ∧
    (Classic.mk 0 0 0.1 100 (-100) 100 (-100)).refIncremental 0 0 0 [(3, 1), (4, 1)]
      = [(Dbl.dyadic 7205759403792794 (-55), Dbl.dyadic 7205759403792794 (-55)),
          (Dbl.dyadic (-7205759403792794) (-56), Dbl.dyadic 7205759403792794 (-56))] ∧
    (ctorReduced 0 0 0.1 100 (-100) 100 (-100)).incrementalTrace [(3, 1), (4, 1)]
      ≠ (Classic.mk 0 0 0.1 100 (-100) 100 (-100)).refIncremental 0 0 0 [(3, 1), (4, 1)] := by
  decide

/-- C4, amended. For a freshly constructed controller with Kff = Kd and
Kffb = Kff_Alpha = Kffb_Beta = 0 (in particular one built by the reduced constructor), Kd a
double, and every sequence of two-argument Incremental_PID(input_n, feedback_n) calls whose
second input differences input_n - 2.0*input_{n-1} + input_{n-2} and feedforward products
Kd*(input_n - input_{n-1}) are finite in binary64, the delta stored at step n equals
clampI(Kp*(e_n - e_{n-1}) + clampI(Ki*(e_n + e_{n-1})*0.5) - (D_n - D_{n-1}) + (F_n - F_{n-1}))
with D_n = Kd*(feedback_n - feedback_{n-1}) and F_n = Kd*(input_n - input_{n-1}), every
operation rounded to binary64 and taken from left to right (in exact arithmetic
-(D_n - D_{n-1}) + (F_n - F_{n-1}) is Kd*(e_n - 2*e_{n-1} + e_{n-2})), and the returned value
equals clampOut(u_{n-1} + delta_n), where e_n = input_n - feedback_n, all values before the
first step are 0, clampI uses [Integ_Min, Integ_Max] and clampOut uses
[Out_Min, Out_Max]. -/
theorem incremental_degeneration_ff
    (KP KI KD Integral_Max Integral_Min Output_Max Output_Min : Dbl) (hKd : KD.IsDouble)
    (xs : List (Dbl × Dbl)) (ht : Tame KD 0 0 xs) :
    (ctor KP KI KD KD 0 0 0 Integral_Max Integral_Min Output_Max Output_Min).incrementalTrace xs
      = (Classic.mk KP KI KD Integral_Max Integral_Min Output_Max Output_Min).refIncrementalFf
          0 0 0 0 0 0 xs ∧
    (ctorReduced KP KI KD Integral_Max Integral_Min Output_Max Output_Min).incrementalTrace xs
      = (Classic.mk KP KI KD Integral_Max Integral_Min Output_Max Output_Min).refIncrementalFf
          0 0 0 0 0 0 xs :=
  ⟨classic_incremental_run
      (Classic.mk KP KI KD Integral_Max Integral_Min Output_Max Output_Min)
      hKd xs _ ⟨rfl, rfl, rfl, rfl, rfl, rfl, rfl, rfl, rfl, rfl, rfl⟩ rfl rfl ht,
    classic_incremental_run
      (Classic.mk KP KI KD Integral_Max Integral_Min Output_Max Output_Min)
      hKd xs _ ⟨rfl, rfl, rfl, rfl, rfl, rfl, rfl, rfl, rfl, rfl, rfl⟩ rfl rfl ht⟩

/-- C4, amended, at Kp = 0.5, Ki = 2, Kd = 0.1, integral limits [-2, 2], output limits
[-100, 100] and the samples (3, 1), (4, 1), (4, 5): the deltas are 2 (clamped), 2
(clamped) and -0.5, and the returned values are 2, 4 and 3.5. -/
theorem incremental_degeneration_ff_witness :
    ((ctor 0.5 2 0.1 0.1 0 0 0 2 (-2) 100 (-100)).incrementalTrace [(3, 1), (4, 1), (4, 5)]
        = (Classic.mk 0.5 2 0.1 2 (-2) 100 (-100)).refIncrementalFf 0 0 0 0 0 0
            [(3, 1), (4, 1), (4, 5)] ∧
      (ctorReduced 0.5 2 0.1 2 (-2) 100 (-100)).incrementalTrace [(3, 1), (4, 1), (4, 5)]
        = (Classic.mk 0.5 2 0.1 2 (-2) 100 (-100)).refIncrementalFf 0 0 0 0 0 0
            [(3, 1), (4, 1), (4, 5)]) ∧
    (ctorReduced 0.5 2 0.1 2 (-2) 100 (-100)).incrementalTrace [(3, 1), (4, 1), (4, 5)]
      = [(2, 2), (2, 4), (-0.5, 3.5)] :=
  ⟨incremental_degeneration_ff 0.5 2 0.1 2 (-2) 100 (-100) (by decide) [(3, 1), (4, 1), (4, 5)]
      (by unfold Tame Tame Tame Tame; decide),
    by decide⟩

/-! ## C8: trapezoidal accumulation under a constant sample -/

theorem isFinite_zero : (0 : Dbl).isFinite = true := by decide

theorem isDouble_zero : (0 : Dbl).IsDouble := by decide

theorem trapezoid_step {p : Classic} (hKp : p.Kp = 0) (hKd : p.Kd = 0) {s : PID_Controller}
    (hc : IsClassic p s) {a b : Dbl} (he : (a - b).isFinite = true)
    (hF : s.Ff_Term0 = 0) (hB : s.Ffb_Term0 = 0)
    (hsd : (a - 2.0 * s.In0 + s.In1).isFinite = true)
    (hdx : (a - s.In0).isFinite = true) (hdf : (b - s.Fb0).isFinite = true)
    {T : Dbl} (hT : T = s.Position_Integ_Term0 + p.Ki * (a - b + s.Err0) * 0.5)
    (hinc : Within p.Integ_Max p.Integ_Min (p.Ki * (a - b + s.Err0) * 0.5))
    (hacc : Within p.Integ_Max p.Integ_Min T) (hout : Within p.Out_Max p.Out_Min T) :
    s.posOut a b (s.Kd * (b - s.Fb0)) = T ∧ s.integAcc a b = T ∧ s.ffNew a = 0 ∧
      s.ffbNew a = 0 := by
  have hKdD : p.Kd.IsDouble := by rw [hKd]; exact isDouble_zero
  have hFf : s.Ff_Term0.isFinite = true := by rw [hF]; exact isFinite_zero
  obtain ⟨ke, hke⟩ := (Dbl.isFinite_iff _).1 he
  obtain ⟨kx, hkx⟩ := (Dbl.isFinite_iff _).1 hdx
  obtain ⟨kf, hkf⟩ := (Dbl.isFinite_iff _).1 hdf
  have hTd : T.IsDouble := by rw [hT]; exact Dbl.isDouble_add _ _
  have hint : p.integral s.Position_Integ_Term0 s.Err0 (a - b) = T := by
    rw [Classic.integral, clampSeq_of_mem hinc.1 hinc.2, ← hT, clampSeq_of_mem hacc.1 hacc.2]
  have hffn : s.ffNew a = 0 := by
    rw [classic_ffNew hc hKdD hFf, hKd, hkx, Dbl.zero_mul_fin]
  refine ⟨?_, ?_, hffn, classic_ffbNew hc hB a hsd⟩
  · rw [classic_posOut hc hKdD hFf hB a b hsd, hint, hKp, hKd, hkx, hkf, hke,
      Dbl.zero_mul_fin, Dbl.zero_mul_fin, Dbl.zero_mul_fin, Dbl.zero_add hTd, Dbl.sub_zero hTd,
      Dbl.add_zero hTd, clampSeq_of_mem hout.1 hout.2]
  · rw [classic_integAcc hc, hint]

theorem trapezoid_tail {p : Classic} (hKp : p.Kp = 0) (hKd : p.Kd = 0) {a b : Dbl}
    (ha : a.IsDouble) (haf : a.isFinite = true) (h2a : (2.0 * a).isFinite = true)
    (hbf : b.isFinite = true) (he : (a - b).isFinite = true) :
    ∀ (j m : Nat) (s : PID_Controller), IsClassic p s → s.Ff_Term0 = 0 → s.Ffb_Term0 = 0 →
      s.In0 = a → (s.In1 = 0 ∨ s.In1 = a) → s.Fb0 = b → s.Err0 = a - b →
      s.Position_Integ_Term0 = trapezoidSum p.Ki (a - b) (m + 1) →
      (∀ k < j,
        Within p.Integ_Max p.Integ_Min (trapezoidInc p.Ki (a - b) (m + 2 + k)) ∧
        Within p.Integ_Max p.Integ_Min (trapezoidSum p.Ki (a - b) (m + 2 + k)) ∧
        Within p.Out_Max p.Out_Min (trapezoidSum p.Ki (a - b) (m + 2 + k))) →
      s.positionOutputs (List.replicate j (a, b))
        = (List.range j).map fun k => trapezoidSum p.Ki (a - b) (m + 2 + k) := by
  obtain ⟨ka, hka⟩ := (Dbl.isFinite_iff _).1 haf
  obtain ⟨kb, hkb⟩ := (Dbl.isFinite_iff _).1 hbf
  subst hka hkb
  intro j
  induction j with
  | zero => intro m s _ _ _ _ _ _ _ _ _; rfl
  | succ j ih =>
    intro m s hc hF hB hI0 hI1 hFb hE hP hb
    have hsd : (Dbl.fin ka - 2.0 * s.In0 + s.In1).isFinite = true := by
      rw [hI0, Dbl.sub_two_mul_fin ha h2a]
      rcases hI1 with h | h
      · rw [h, Dbl.add_zero (Dbl.isDouble_neg_fin ha)]; rfl
      · rw [h, Dbl.add_neg_self_fin]; rfl
    have hdx : (Dbl.fin ka - s.In0).isFinite = true := by
      rw [hI0, Dbl.sub_self_fin]; rfl
    have hdf : (Dbl.fin kb - s.Fb0).isFinite = true := by
      rw [hFb, Dbl.sub_self_fin]; rfl
    obtain ⟨b1, b2, b3⟩ := hb 0 (Nat.succ_pos j)
    have hinc : trapezoidInc p.Ki (Dbl.fin ka - Dbl.fin kb) (m + 2 + 0)
        = p.Ki * (Dbl.fin ka - Dbl.fin kb + s.Err0) * 0.5 := by
      rw [hE, trapezoidInc, if_neg (by omega)]
    have hT : trapezoidSum p.Ki (Dbl.fin ka - Dbl.fin kb) (m + 2 + 0)
        = s.Position_Integ_Term0 + p.Ki * (Dbl.fin ka - Dbl.fin kb + s.Err0) * 0.5 := by
      rw [hE, hP]; rfl
    rw [hinc] at b1
    obtain ⟨ho, hacc, hffn, hffb⟩ :=
      trapezoid_step hKp hKd hc he hF hB hsd hdx hdf hT b1 b2 b3
    have h1 := ih (m + 1) (s.posState (Dbl.fin ka) (Dbl.fin kb) (s.Kd * (Dbl.fin kb - s.Fb0)))
      (isClassic_posState hc _ _ _) hffn hffb rfl (Or.inr hI0) rfl rfl hacc
      (fun k hk => by
        have := hb (k + 1) (Nat.succ_lt_succ hk)
        rw [show m + 2 + (k + 1) = m + 1 + 2 + k by omega] at this
        exact this)
    rw [List.replicate_succ, positionOutputs_cons, Position_PID_eq, h1, ho, List.range_succ_eq_map,
      List.map_cons, List.map_map]
    refine congrArg₂ _ rfl (List.map_congr_left fun k _ => ?_)
    show trapezoidSum p.Ki _ (m + 1 + 2 + k) = trapezoidSum p.Ki _ (m + 2 + (k + 1))
    rw [show m + 1 + 2 + k = m + 2 + (k + 1) by omega]

theorem trapezoid_run {p : Classic} (hKp : p.Kp = 0) (hKd : p.Kd = 0) {a b : Dbl}
    (ha : a.IsDouble) (hb : b.IsDouble) (haf : a.isFinite = true)
    (h2a : (2.0 * a).isFinite = true) (hbf : b.isFinite = true)
    (he : (a - b).isFinite = true) (n : Nat)
    (hw : ∀ k < n,
      Within p.Integ_Max p.Integ_Min (trapezoidInc p.Ki (a - b) (k + 1)) ∧
      Within p.Integ_Max p.Integ_Min (trapezoidSum p.Ki (a - b) (k + 1)) ∧
      Within p.Out_Max p.Out_Min (trapezoidSum p.Ki (a - b) (k + 1))) :
    p.controller.positionOutputs (List.replicate n (a, b))
      = (List.range n).map fun k => trapezoidSum p.Ki (a - b) (k + 1) := by
  cases n with
  | zero => rfl
  | succ n =>
    have hc := isClassic_controller p
    have e1 : a - b + 0 = a - b := Dbl.add_zero (Dbl.isDouble_sub _ _)
    have e2 : (0 : Dbl) + p.Ki * (a - b) * 0.5 = p.Ki * (a - b) * 0.5 :=
      Dbl.zero_add (Dbl.isDouble_mul _ _)
    have hsd : (a - 2.0 * p.controller.In0 + p.controller.In1).isFinite = true := by
      show (a - 2.0 * 0 + 0).isFinite = true
      rw [Dbl.two_mul_zero, Dbl.sub_zero ha, Dbl.add_zero ha]; exact haf
    have hdx : (a - p.controller.In0).isFinite = true := by
      show (a - 0).isFinite = true
      rw [Dbl.sub_zero ha]; exact haf
    have hdf : (b - p.controller.Fb0).isFinite = true := by
      show (b - 0).isFinite = true
      rw [Dbl.sub_zero hb]; exact hbf
    obtain ⟨b1, b2, b3⟩ := hw 0 (Nat.succ_pos n)
    have hT : trapezoidSum p.Ki (a - b) (0 + 1)
        = p.controller.Position_Integ_Term0 + p.Ki * (a - b + p.controller.Err0) * 0.5 := by
      show p.Ki * (a - b) * 0.5 = 0 + p.Ki * (a - b + 0) * 0.5
      rw [e1, e2]
    have hinc : trapezoidInc p.Ki (a - b) (0 + 1)
        = p.Ki * (a - b + p.controller.Err0) * 0.5 := by
      show _ = p.Ki * (a - b + 0) * 0.5
      rw [e1]; rfl
    rw [hinc] at b1
    obtain ⟨ho, hacc, hffn, hffb⟩ :=
      trapezoid_step hKp hKd hc he rfl rfl hsd hdx hdf hT b1 b2 b3
    have h1 := trapezoid_tail hKp hKd ha haf h2a hbf he n 0
      (p.controller.posState a b (p.controller.Kd * (b - p.controller.Fb0)))
      (isClassic_posState hc _ _ _) hffn hffb rfl (Or.inl rfl) rfl rfl hacc
      (fun k hk => by
        have := hw (k + 1) (Nat.succ_lt_succ hk)
        rw [show k + 1 + 1 = 0 + 2 + k by omega] at this
        exact this)
    rw [List.replicate_succ, positionOutputs_cons, Position_PID_eq, h1, ho, List.range_succ_eq_map,
      List.map_cons, List.map_map]
    refine congrArg₂ _ rfl (List.map_congr_left fun k _ => ?_)
    show trapezoidSum p.Ki _ (0 + 2 + k) = trapezoidSum p.Ki _ (k + 1 + 1)
    rw [show 0 + 2 + k = k + 1 + 1 by omega]

theorem trapezoidSum_succ (Ki e : Dbl) (k : Nat) :
    trapezoidSum Ki e (k + 2) = trapezoidSum Ki e (k + 1) + Ki * (e + e) * 0.5 := rfl

theorem isDouble_trapezoidSum (Ki e : Dbl) (k : Nat) : (trapezoidSum Ki e (k + 1)).IsDouble := by
  cases k with
  | zero => exact Dbl.isDouble_mul _ _
  | succ k => exact Dbl.isDouble_add _ _

theorem trapezoidSum_nonneg {Ki e : Dbl} (h1 : 0 ≤ Ki * e * 0.5) (h2 : 0 ≤ Ki * (e + e) * 0.5) :
    ∀ k, 0 ≤ trapezoidSum Ki e (k + 1) := by
  intro k
  induction k with
  | zero => exact h1
  | succ k ih => rw [trapezoidSum_succ]; exact Dbl.add_nonneg ih h2

theorem trapezoidSum_mono {Ki e : Dbl} (h1 : 0 ≤ Ki * e * 0.5) (h2 : 0 ≤ Ki * (e + e) * 0.5)
    (k : Nat) : ∀ j, trapezoidSum Ki e (k + 1) ≤ trapezoidSum Ki e (k + 1 + j) := by
  intro j
  induction j with
  | zero =>
    have h := Dbl.le_add_of_nonneg_right (isDouble_trapezoidSum Ki e k)
      (trapezoidSum_nonneg h1 h2 k) (Dbl.le_trans' (x := 0) (y := 0) (z := 0) rfl rfl)
    rwa [Dbl.add_zero (isDouble_trapezoidSum Ki e k)] at h
  | succ j ih =>
    refine Dbl.le_trans' ih ?_
    rw [show k + 1 + j = k + j + 1 by omega, show k + 1 + (j + 1) = k + j + 2 by omega,
      trapezoidSum_succ]
    exact Dbl.le_add_of_nonneg_right (isDouble_trapezoidSum Ki e (k + j))
      (trapezoidSum_nonneg h1 h2 (k + j)) h2

theorem trapezoid_unclamped {Ki e Imax Imin Omax Omin : Dbl} {n : Nat}
    (h1 : 0 ≤ Ki * e * 0.5) (h2 : 0 ≤ Ki * (e + e) * 0.5) (hI : Imin ≤ 0) (hO : Omin ≤ 0)
    (hIM : trapezoidSum Ki e n ≤ Imax) (hOM : trapezoidSum Ki e n ≤ Omax) :
    ∀ k < n,
      Within Imax Imin (trapezoidInc Ki e (k + 1)) ∧
      Within Imax Imin (trapezoidSum Ki e (k + 1)) ∧
      Within Omax Omin (trapezoidSum Ki e (k + 1)) := by
  intro k hk
  have hT0 := trapezoidSum_nonneg h1 h2 k
  have hTn : trapezoidSum Ki e (k + 1) ≤ trapezoidSum Ki e n := by
    have h := trapezoidSum_mono h1 h2 k (n - (k + 1))
    rwa [show k + 1 + (n - (k + 1)) = n by omega] at h
  refine ⟨?_, ⟨Dbl.le_trans' hI hT0, Dbl.le_trans' hTn hIM⟩,
    ⟨Dbl.le_trans' hO hT0, Dbl.le_trans' hTn hOM⟩⟩
  cases k with
  | zero => exact ⟨Dbl.le_trans' hI h1, Dbl.le_trans' hTn hIM⟩
  | succ k =>
    have hinc : trapezoidInc Ki e (k + 1 + 1) = Ki * (e + e) * 0.5 := by
      rw [trapezoidInc, if_neg (by omega)]
    rw [hinc]
    refine ⟨Dbl.le_trans' hI h2, Dbl.le_trans' ?_ (Dbl.le_trans' hTn hIM)⟩
    show Ki * (e + e) * 0.5 ≤ trapezoidSum Ki e (k + 2)
    rw [trapezoidSum_succ]
    exact Dbl.le_add_of_nonneg_left (Dbl.isDouble_mul _ _) (trapezoidSum_nonneg h1 h2 k) h2

/-- C8, as stated, fails on doubles: Ki = 0.1, limits [-1000, 1000], a = 1, b = 0, n = 4
meet the hypotheses, and the four calls Position_PID(1, 0) return 0.05,
0.15000000000000002, 0.25 and 6305039478318694 * 2^-54; the last is neither the binary64
value of Ki*e*(n - 1/2) = 0.1 * 1 * 3.5 (6305039478318695 * 2^-54) nor the exact product
3.5 * Ki of the double Ki (compared in units of 2^-1074, doubled: 7 * Ki). -/
theorem trapezoidal_accumulation_counterexample :
    ((0 : Dbl) ≤ 0.1 * (1 - 0) ∧ (-1000 : Dbl) ≤ 0 ∧ (0.1 : Dbl) * (1 - 0) * 3.5 ≤ 1000) ∧
    (ctorReduced 0 0.1 0 1000 (-1000) 1000 (-1000)).positionOutputs (List.replicate 4 (1, 0))
      = [0.05, 0.15000000000000002, 0.25, Dbl.dyadic 6305039478318694 (-54)] ∧
    (0.1 : Dbl) * (1 - 0) * 3.5 = Dbl.dyadic 6305039478318695 (-54) ∧
    ((ctorReduced 0 0.1 0 1000 (-1000) 1000 (-1000)).positionOutputs
        (List.replicate 4 (1, 0))).getLast? ≠ some (0.1 * (1 - 0) * 3.5) ∧
    2 * (Dbl.dyadic 6305039478318694 (-54)).units ≠ 7 * (0.1 : Dbl).units := by
  decide

/-- C8, amended. For a fresh controller built by the reduced constructor with Kp = 0 and
Kd = 0, finite doubles a, b with 2.0 * a and e = a - b finite in binary64, and n >= 1: if the
two integral increments the code forms are nonnegative, Ki*e*0.5 >= 0 and
Ki*(e + e)*0.5 >= 0, and Integ_Min <= 0, Out_Min <= 0, T_n <= Integ_Max and T_n <= Out_Max,
then the n-th of n consecutive calls Position_PID(a, b) returns exactly T_n, and the k-th
returns T_k for every k = 1..n, where T_1 = Ki*e*0.5 and T_{k+1} = T_k + Ki*(e + e)*0.5,
every operation rounded to binary64 (in exact arithmetic T_n = Ki*e*(n - 1/2)). -/
theorem trapezoidal_accumulation
    (Ki Integral_Max Integral_Min Output_Max Output_Min a b : Dbl) (n : Nat) (hn : 1 ≤ n)
    (ha : a.IsDouble) (hb : b.IsDouble) (haf : a.isFinite = true) (hbf : b.isFinite = true)
    (h2a : (2.0 * a).isFinite = true) (he : (a - b).isFinite = true)
    (hK₁ : 0 ≤ Ki * (a - b) * 0.5) (hK₂ : 0 ≤ Ki * (a - b + (a - b)) * 0.5)
    (hI : Integral_Min ≤ 0) (hO : Output_Min ≤ 0)
    (hIM : trapezoidSum Ki (a - b) n ≤ Integral_Max)
    (hOM : trapezoidSum Ki (a - b) n ≤ Output_Max) :
    ((ctorReduced 0 Ki 0 Integral_Max Integral_Min Output_Max Output_Min).positionOutputs
        (List.replicate n (a, b))).getLast? = some (trapezoidSum Ki (a - b) n) ∧
    (ctorReduced 0 Ki 0 Integral_Max Integral_Min Output_Max Output_Min).positionOutputs
        (List.replicate n (a, b))
      = (List.range n).map (fun k => trapezoidSum Ki (a - b) (k + 1)) := by
  have key := trapezoid_run
    (p := Classic.mk 0 Ki 0 Integral_Max Integral_Min Output_Max Output_Min) rfl rfl
    ha hb haf h2a hbf he n (trapezoid_unclamped hK₁ hK₂ hI hO hIM hOM)
  refine ⟨?_, key⟩
  obtain ⟨m, rfl⟩ : ∃ m, n = m + 1 := ⟨n - 1, by omega⟩
  have key' : (ctorReduced 0 Ki 0 Integral_Max Integral_Min Output_Max Output_Min).positionOutputs
      (List.replicate (m + 1) (a, b))
      = (List.range (m + 1)).map (fun k => trapezoidSum Ki (a - b) (k + 1)) := key
  rw [key', List.range_succ, List.map_append, List.map_singleton, List.getLast?_append,
    List.getLast?_singleton]
  rfl

/-- C8, amended, at the scenario of the claim: Ki = 1, limits [-1000, 1000], a = 1, b = 0,
n = 2: Position_PID(1, 0) returns 0.5 and the second Position_PID(1, 0) returns 1.5. -/
theorem trapezoidal_accumulation_witness :
    (((ctorReduced 0 1 0 1000 (-1000) 1000 (-1000)).positionOutputs
          (List.replicate 2 (1, 0))).getLast? = some (trapezoidSum 1 (1 - 0) 2) ∧
      (ctorReduced 0 1 0 1000 (-1000) 1000 (-1000)).positionOutputs (List.replicate 2 (1, 0))
        = (List.range 2).map (fun k => trapezoidSum 1 (1 - 0) (k + 1))) ∧
    (ctorReduced 0 1 0 1000 (-1000) 1000 (-1000)).positionOutputs (List.replicate 2 (1, 0))
      = [0.5, 1.5] ∧
    trapezoidSum 1 (1 - 0) 2 = 1.5 :=
  ⟨trapezoidal_accumulation 1 1000 (-1000) 1000 (-1000) 1 0 2 (by decide) (by decide)
      (by decide) (by decide) (by decide) (by decide) (by decide) (by decide) (by decide)
      (by decide) (by decide) (by decide) (by decide),
    by decide, by decide⟩

end PID
